import Mathlib

/-!
# Film negative processor: pixel pipeline and HTTP front end

A shallow embedding of `src/film_processor.c` and `src/server_v2.c`, with the
two pipeline entry points of `src/vintage_filter.c` (namespace `VintageFilter`).

* A pixel buffer is a `List Nat` of `unsigned char` values, row-major and
  interleaved.  Every access goes through `rd` / `wr`, which fail (`none`) on an
  index outside the buffer; an integer division by zero fails the same way.
  Indices are C `int`s, modelled as `Int` (the byte count of a decoded image
  fits an `int`, so no index computation wraps).
* `for` loops are `forLoop`, counting upwards over a half-open range.
* `float` is IEEE-754 binary32 with round-to-nearest-even, every operation
  rounded to single precision (`FLT_EVAL_METHOD == 0`); see `F32`.
* `rand()` is a fixed sequence `draws : Nat → Nat` with a cursor.
* Received data and strings are `List Nat` of bytes.  A C string is read up
  to the first zero byte (`cstr`); `strstr`, `sscanf` and `snprintf` are
  modelled on such contents, `snprintf` with its buffer size.
* A handler returns what it sends: the arguments of its `send_response` or
  `send_error` call (`Reply`).  The codec, the clock, the generator and the
  staging of the output file are parameters (`Env`).
* The multipart extractor reads memory through `body`: the body bytes, the
  zero byte behind them, and what the buffer holds behind that zero byte
  (`stale`, a field of `Env`); see `body_memory`.
* `send_response` itself is modelled on a connection (`Conn`) whose `send`
  may accept fewer bytes than offered; its body loop takes a bound on the
  number of rounds.
-/

namespace FilmNegative

/-! ## Control flow and memory -/

/-- The loop `for (i = lo; i < lo + n; i++) s = body(i, s)`; a failing body aborts. -/
def forLoop {σ : Type} (body : Nat → σ → Option σ) : Nat → Nat → σ → Option σ
  | 0, _, s => some s
  | n + 1, lo, s => (body lo s).bind (forLoop body n (lo + 1))

/-- The loop `for (i = lo; i < hi; i++)`. -/
def forRange {σ : Type} (lo hi : Nat) (body : Nat → σ → Option σ) (s : σ) : Option σ :=
  forLoop body (hi - lo) lo s

/-- Read `img[idx]`; `none` when `idx` is outside the buffer. -/
def rd (img : List Nat) (idx : Int) : Option Nat :=
  if 0 ≤ idx then img[idx.toNat]? else none

/-- Write `img[idx] = v` (the `int` value converted to `unsigned char`);
`none` when `idx` is outside the buffer. -/
def wr (img : List Nat) (idx : Int) (v : Int) : Option (List Nat) :=
  if 0 ≤ idx ∧ idx.toNat < img.length then some (img.set idx.toNat (v % 256).toNat) else none

/-- Integer division `a / b` of non-negative `int`s; `none` on division by zero. -/
def cdiv (a b : Nat) : Option Nat :=
  if b = 0 then none else some (a / b)

/-! ## Single-precision arithmetic -/

/-- Floor of the binary logarithm, by repeated halving (`fuel` bounds the depth). -/
def log2Fuel : Nat → Nat → Nat
  | 0, _ => 0
  | fuel + 1, n => if n < 2 then 0 else log2Fuel fuel (n / 2) + 1

/-- Floor of the binary logarithm of `n` (0 for `n = 0`). -/
def flog2 (n : Nat) : Nat := log2Fuel n n

/-- A finite binary32 value, written `num / 2 ^ shift`. -/
structure F32 where
  num : Int
  shift : Nat
  deriving DecidableEq, Repr

namespace F32

/-- Round the positive fraction `n / d` to 24 significant bits, ties to even.
Returns `(m, e)` with the rounded value `m * 2 ^ e`.  The exponent is not
bounded: the values of the colour arithmetic are far from the binary32
overflow and subnormal ranges. -/
def roundPos (n d : Nat) : Nat × Int :=
  let e0 : Int := (flog2 n : Int) - (flog2 d : Int) - 24
  let N := if e0 < 0 then n * 2 ^ (-e0).toNat else n
  let D := if e0 < 0 then d else d * 2 ^ e0.toNat
  let big := decide (2 ^ 24 ≤ N / D)
  let D := if big then 2 * D else D
  let e := if big then e0 + 1 else e0
  let q := N / D
  let r := N % D
  let m := if D < 2 * r ∨ (2 * r = D ∧ q % 2 = 1) then q + 1 else q
  (m, e)

/-- Round the signed fraction `n / d` (`d > 0`) to the nearest binary32 value. -/
def round (n : Int) (d : Nat) : F32 :=
  if n = 0 then ⟨0, 0⟩
  else
    let me := roundPos n.natAbs d
    let m : Int := if n < 0 then -(me.1 : Int) else me.1
    if me.2 < 0 then ⟨m, (-me.2).toNat⟩ else ⟨m * 2 ^ me.2.toNat, 0⟩

/-- Conversion `int → float` (exact below `2^24`, rounded above). -/
def ofInt (z : Int) : F32 := round z 1

/-- Single-precision product. -/
def mul (x y : F32) : F32 := round (x.num * y.num) (2 ^ (x.shift + y.shift))

/-- Single-precision sum. -/
def add (x y : F32) : F32 :=
  round (x.num * 2 ^ y.shift + y.num * 2 ^ x.shift) (2 ^ (x.shift + y.shift))

/-- Single-precision quotient (the divisors of this program are non-zero constants). -/
def div (x y : F32) : F32 :=
  round (x.num * 2 ^ y.shift * y.num.sign) (y.num.natAbs * 2 ^ x.shift)

/-- Conversion `float → int`: truncation toward zero. -/
def toInt (x : F32) : Int := Int.tdiv x.num (2 ^ x.shift)

/-- The constant `1.15f` = 0x3F933333. -/
def c115 : F32 := ⟨9646899, 23⟩

/-- The constant `1.05f` = 0x3F866666. -/
def c105 : F32 := ⟨8808038, 23⟩

/-- The constant `0.85f` = 0x3F59999A. -/
def c085 : F32 := ⟨14260634, 24⟩

end F32

/-! ## film_processor.c -/

/-- Clamp value between 0 and 255. -/
def clamp (value : Int) : Nat :=
  if value < 0 then 0 else if value > 255 then 255 else value.toNat

/-- Generate random number for grain: `(rand() % (range * 2 + 1)) - range`,
where `draw` is the value `rand()` returned. -/
def random_grain (draw : Nat) (range : Nat) : Int :=
  ((draw % (range * 2 + 1) : Nat) : Int) - range

/-- Invert colors. -/
def apply_negative (img : List Nat) (width height channels : Nat) : Option (List Nat) :=
  forRange 0 (width * height) (fun i img => do
    let idx : Int := (i : Int) * channels
    let v0 ← rd img idx
    let img ← wr img idx (255 - v0)
    let v1 ← rd img (idx + 1)
    let img ← wr img (idx + 1) (255 - v1)
    let v2 ← rd img (idx + 2)
    wr img (idx + 2) (255 - v2)) img

/-- The red channel of the colour cast: `clamp((int)(r * 1.15f + 20))`. -/
def cast_r (r : Nat) : Nat :=
  clamp (F32.toInt (F32.add (F32.mul (F32.ofInt r) F32.c115) (F32.ofInt 20)))

/-- The green channel of the colour cast: `clamp((int)(g * 1.05f + 10))`. -/
def cast_g (g : Nat) : Nat :=
  clamp (F32.toInt (F32.add (F32.mul (F32.ofInt g) F32.c105) (F32.ofInt 10)))

/-- The blue channel of the colour cast: `clamp((int)(b * 0.85f))`. -/
def cast_b (b : Nat) : Nat :=
  clamp (F32.toInt (F32.mul (F32.ofInt b) F32.c085))

/-- Apply orange color cast. -/
def apply_film_color_cast (img : List Nat) (width height channels : Nat) : Option (List Nat) :=
  forRange 0 (width * height) (fun i img => do
    let idx : Int := (i : Int) * channels
    let r ← rd img idx
    let g ← rd img (idx + 1)
    let b ← rd img (idx + 2)
    let img ← wr img idx (cast_r r)
    let img ← wr img (idx + 1) (cast_g g)
    wr img (idx + 2) (cast_b b)) img

/-- The red channel of the cast removal: `clamp((int)((r - 20) / 1.15f))`. -/
def uncast_r (r : Nat) : Nat :=
  clamp (F32.toInt (F32.div (F32.ofInt ((r : Int) - 20)) F32.c115))

/-- The green channel of the cast removal: `clamp((int)((g - 10) / 1.05f))`. -/
def uncast_g (g : Nat) : Nat :=
  clamp (F32.toInt (F32.div (F32.ofInt ((g : Int) - 10)) F32.c105))

/-- The blue channel of the cast removal: `clamp((int)(b / 0.85f))`. -/
def uncast_b (b : Nat) : Nat :=
  clamp (F32.toInt (F32.div (F32.ofInt b) F32.c085))

/-- Remove orange color cast. -/
def remove_film_color_cast (img : List Nat) (width height channels : Nat) : Option (List Nat) :=
  forRange 0 (width * height) (fun i img => do
    let idx : Int := (i : Int) * channels
    let r ← rd img idx
    let g ← rd img (idx + 1)
    let b ← rd img (idx + 2)
    let img ← wr img idx (uncast_r r)
    let img ← wr img (idx + 1) (uncast_g g)
    wr img (idx + 2) (uncast_b b)) img

/-- Add film grain.  The state carries the buffer and the number of `rand()`
calls made so far; call number `k` returns `draws k`. -/
def apply_grain (draws : Nat → Nat) (img : List Nat) (pos : Nat)
    (width height channels intensity : Nat) : Option (List Nat × Nat) :=
  forRange 0 (width * height) (fun i (st : List Nat × Nat) => do
    let idx : Int := (i : Int) * channels
    let grain := random_grain (draws st.2) intensity
    let v0 ← rd st.1 idx
    let img ← wr st.1 idx (clamp (v0 + grain))
    let v1 ← rd img (idx + 1)
    let img ← wr img (idx + 1) (clamp (v1 + grain))
    let v2 ← rd img (idx + 2)
    let img ← wr img (idx + 2) (clamp (v2 + grain))
    pure (img, st.2 + 1)) (img, pos)

/-- The six stores of one border position: the pixel at `top_idx` and the
pixel at `bottom_idx` receive the colour `(r, g, b)`. -/
def paint (img : List Nat) (top_idx bottom_idx : Int) (r g b : Int) : Option (List Nat) := do
  let img ← wr img top_idx r
  let img ← wr img (top_idx + 1) g
  let img ← wr img (top_idx + 2) b
  let img ← wr img bottom_idx r
  let img ← wr img (bottom_idx + 1) g
  wr img (bottom_idx + 2) b

/-- Draw sprocket holes. -/
def draw_sprocket_holes (img : List Nat) (width height channels : Nat) : Option (List Nat) := do
  let border_height := height / 15
  let hole_width := width / 25
  let hole_height := border_height / 2
  let spacing := width / 12
  let img ← forRange 0 border_height (fun y img =>
    forRange 0 width (fun x img =>
      let top_idx : Int := ((y : Int) * width + x) * channels
      let bottom_idx : Int := (((height : Int) - 1 - y) * width + x) * channels
      paint img top_idx bottom_idx 220 150 130) img) img
  let holes ← cdiv width spacing
  forRange 0 holes (fun hole_num img =>
    let hole_x := hole_num * spacing + spacing / 4
    forRange (border_height / 4) (border_height / 4 + hole_height) (fun y img =>
      forRange hole_x (min (hole_x + hole_width) width) (fun x img =>
        let top_idx : Int := ((y : Int) * width + x) * channels
        let bottom_idx : Int := (((height : Int) - 1 - y) * width + x) * channels
        paint img top_idx bottom_idx 240 240 240) img) img) img

/-- Remove sprocket holes. -/
def crop_sprocket_holes (img : List Nat) (width height channels : Nat) : Option (List Nat) :=
  let border_height := height / 15
  forRange 0 border_height (fun y img =>
    forRange 0 width (fun x img =>
      let top_idx : Int := ((y : Int) * width + x) * channels
      let bottom_idx : Int := (((height : Int) - 1 - y) * width + x) * channels
      paint img top_idx bottom_idx 0 0 0) img) img

/-- Processing modes. -/
inductive ProcessMode where
  | MODE_TO_NEGATIVE
  | MODE_TO_POSITIVE
  deriving DecidableEq, Repr

/-- Result structure; `data = none` is the null pointer. -/
structure ImageResult where
  data : Option (List Nat)
  width : Nat
  height : Nat
  channels : Nat
  success : Nat
  error_message : String
  deriving DecidableEq, Repr

/-- What `stbi_load_from_memory` yields on success: the pixel buffer and its
dimensions. -/
structure Decoded where
  data : List Nat
  width : Nat
  height : Nat
  channels : Nat
  deriving DecidableEq, Repr

/-- The text `snprintf` leaves in a buffer of `size` bytes: at most `size - 1` characters. -/
def snprintf (size : Nat) (s : String) : String :=
  String.mk (s.toList.take (size - 1))

/-- Main processing function.  `decode` stands for `stbi_load_from_memory`
together with `stbi_failure_reason`; `draws` and `pos` are the generator.
The result is `none` when an operator faults. -/
def process_image (decode : List Nat → Except String Decoded) (draws : Nat → Nat) (pos : Nat)
    (input_data : List Nat) (mode : ProcessMode) : Option (ImageResult × Nat) :=
  match decode input_data with
  | .error reason =>
    some (⟨none, 0, 0, 0, 0, snprintf 256 ("Failed to load image: " ++ reason)⟩, pos)
  | .ok d =>
    if d.channels < 3 then
      some (⟨none, 0, 0, 0, 0, snprintf 256 "Image must have at least 3 channels (RGB)"⟩, pos)
    else
      match mode with
      | .MODE_TO_NEGATIVE => do
        let img ← apply_negative d.data d.width d.height d.channels
        let img ← apply_film_color_cast img d.width d.height d.channels
        let (img, pos) ← apply_grain draws img pos d.width d.height d.channels 12
        let img ← draw_sprocket_holes img d.width d.height d.channels
        pure (⟨some img, d.width, d.height, d.channels, 1, ""⟩, pos)
      | .MODE_TO_POSITIVE => do
        let img ← crop_sprocket_holes d.data d.width d.height d.channels
        let img ← remove_film_color_cast img d.width d.height d.channels
        let img ← apply_negative img d.width d.height d.channels
        pure (⟨some img, d.width, d.height, d.channels, 1, ""⟩, pos)

/-! ## server_v2.c -/

/-- `MAX_BUFFER`: 20MB max request size. -/
def MAX_BUFFER : Nat := 20971520

/-- The bytes of an ASCII string literal. -/
def str (s : String) : List Nat := s.toList.map Char.toNat

/-- The C string that starts at the beginning of `mem`: the bytes before the
first zero byte.  The end of the list counts as a terminator: `handle_client`
stores a zero byte right after the received data. -/
def cstr (mem : List Nat) : List Nat := mem.takeWhile (fun b => b != 0)

/-- `strstr` on the contents of two C strings: the offset of the first
occurrence of `needle` in `hay`, `none` for a null result. -/
def strstr : List Nat → List Nat → Option Nat
  | [], needle => if needle.isPrefixOf [] then some 0 else none
  | c :: t, needle =>
    if needle.isPrefixOf (c :: t) then some 0 else (strstr t needle).map (fun k => k + 1)

/-- `isspace` in the C locale. -/
def isspace (c : Nat) : Bool := c == 32 || (9 ≤ c && c ≤ 13)

/-- One `%Ns` conversion of `sscanf`: skip white space, then take up to `width`
non-space characters.  Returns the token and the rest of the input, `none`
when no character can be taken. -/
def scan_s (width : Nat) (input : List Nat) : Option (List Nat × List Nat) :=
  let rest := input.dropWhile isspace
  let tok := (rest.takeWhile (fun c => !isspace c)).take width
  if tok.isEmpty then none else some (tok, rest.drop tok.length)

/-- A call of `send_response`: what is put on the connection. -/
structure Reply where
  status_code : Nat
  status_text : String
  content_type : String
  body : List Nat
  deriving DecidableEq, Repr

/-- Send JSON error response; `now` is `time(NULL)`. -/
def send_error (now : Nat) (status_code : Nat) (message : String) : Reply :=
  ⟨status_code, "Error", "application/json",
    str (snprintf 1024 ("\x7b\"error\":\"" ++ message ++ "\",\"status\":" ++
      toString status_code ++ ",\"timestamp\":" ++ toString now ++ "\x7d"))⟩

/-- Extract boundary from Content-Type header (`content_type` is the content
of the C string); `none` is the null result. -/
def extract_boundary (content_type : List Nat) : Option (List Nat) :=
  match strstr content_type (str "boundary=") with
  | none => none
  | some k =>
    let boundary_start := content_type.drop (k + (str "boundary=").length)
    let boundary_start := if boundary_start.head? = some 34 then boundary_start.drop 1
      else boundary_start
    some ((boundary_start.takeWhile (fun c => c != 34 && c != 13 && c != 10)).take 255)

/-- The search loop of pattern 3 over the memory `mem` that starts at `body`:
`temp` is the offset of the last match (at first `data_start`); each round
looks for `pattern3` in the C string at `temp + 1` and stops at the first match
that lies beyond `data_start + 2` and is preceded by CR LF.  `fuel` bounds the
number of rounds. -/
def pattern3_loop (mem : List Nat) (data_start : Nat) (pattern3 : List Nat) :
    Nat → Nat → Option Nat
  | 0, _ => none
  | fuel + 1, temp =>
    match strstr (cstr (mem.drop (temp + 1))) pattern3 with
    | none => none
    | some k =>
      let temp := temp + 1 + k
      if temp > data_start + 2 ∧ mem.getD (temp - 2) 0 = 13 ∧ mem.getD (temp - 1) 0 = 10 then
        some (temp - 2)
      else pattern3_loop mem data_start pattern3 fuel temp

/-- The memory that `parse_multipart_image` can read through `body`: the
`body_len` bytes of the body, the zero byte that follows them, and `stale`,
the bytes that memory holds after that zero byte (the rest of the receive
buffer, whatever it held before).  A string search stops at the first zero
byte it meets, so of `stale` only the bytes before its first zero byte are
ever read; the end of the list stands for that zero byte. -/
def body_memory (stale body : List Nat) : List Nat := body ++ 0 :: stale

/-- The trimming loop of the fallback: starting from `data_end`, step back
while `data_end > data_start` and the byte before it is CR, LF or `-`. -/
def trim_end (body : List Nat) (data_start : Nat) : Nat → Nat
  | 0 => 0
  | e + 1 =>
    if e + 1 > data_start ∧
        (body.getD e 0 = 13 ∨ body.getD e 0 = 10 ∨ body.getD e 0 = 45) then
      trim_end body data_start e
    else e + 1

/-- Enhanced multipart parser.  `body` holds the `body_len` bytes of the body
(a null `body` is the empty list); it is followed in memory by a zero byte and
then by `stale` (see `body_memory`): the string searches read the memory up
to the first zero byte from where they start, and the first search of
pattern 3 starts one byte behind `data_start`, which lies behind the zero
byte when the body ends at its first blank line.  `boundary` is the content of
the boundary C string.  Returns the extracted image bytes, `none` for the
result 0. -/
def parse_multipart_image (stale : List Nat) (body : List Nat) (boundary : List Nat) :
    Option (List Nat) :=
  if body.length = 0 then none
  else
    let mem := body_memory stale body
    match strstr (cstr mem) (str "\r\n\r\n") with
    | none => none
    | some k =>
      let data_start := k + 4
      let pattern1 := (str "\r\n--" ++ boundary ++ str "--").take 299
      let pattern2 := (str "\r\n--" ++ boundary ++ str "\r\n").take 299
      let pattern3 := (str "--" ++ boundary).take 299
      let data_end : Option Nat :=
        match strstr (cstr (mem.drop data_start)) pattern1 with
        | some e => some (data_start + e)
        | none =>
          match strstr (cstr (mem.drop data_start)) pattern2 with
          | some e => some (data_start + e)
          | none => pattern3_loop mem data_start pattern3 (mem.length + 1) data_start
      let data_end : Nat :=
        match data_end with
        | some e => e
        | none => trim_end mem data_start body.length
      let image_size := data_end - data_start
      if image_size = 0 ∨ image_size > MAX_BUFFER then none
      else some ((mem.drop data_start).take image_size)

/-- What becomes of the processed image between `stbi_write_jpg` and the
read-back of the temporary file. -/
inductive Staged where
  | write_failed
  | open_failed
  | bad_size
  | alloc_failed
  | short_read
  | ok (file_data : List Nat)
  deriving DecidableEq, Repr

/-- The collaborators of the server: the codec, the generator, the clock, the
staging of the output file, and `stale`, what the receive buffer holds behind
the zero byte that `handle_client` stores after the received data. -/
structure Env where
  decode : List Nat → Except String Decoded
  draws : Nat → Nat
  pos : Nat
  now : Nat
  stage : ImageResult → Staged
  stale : List Nat

/-- What a handler does with the connection: answer, or crash the process on
a fault of the pixel pipeline. -/
inductive Outcome where
  | closed
  | crashed
  | replied (r : Reply)
  deriving DecidableEq, Repr

/-- The second half of `handle_post_request`: process the extracted image,
stage the JPEG file and send it. -/
def process_and_send (env : Env) (image_data : List Nat) (mode : ProcessMode) : Outcome :=
  match process_image env.decode env.draws env.pos image_data mode with
  | none => .crashed
  | some (result, _) =>
    if result.success = 0 then
      .replied (send_error env.now 500
        (snprintf 512 ("Image processing failed: " ++ result.error_message)))
    else
      match env.stage result with
      | .write_failed => .replied (send_error env.now 500 "Failed to encode output image")
      | .open_failed => .replied (send_error env.now 500 "Failed to read output image")
      | .bad_size => .replied (send_error env.now 500 "Invalid output file size")
      | .alloc_failed => .replied (send_error env.now 500 "Memory allocation failed")
      | .short_read => .replied (send_error env.now 500 "Failed to read complete file")
      | .ok file_data => .replied ⟨200, "OK", "image/jpeg", file_data⟩

/-- Handle POST request; `headers` is the whole receive buffer, `body` the
`body_len` bytes after the blank line (empty for a null `body`), which end
where the received data end. -/
def handle_post_request (env : Env) (path : List Nat) (headers : List Nat) (body : List Nat) :
    Outcome :=
  if path ≠ str "/api/to-negative" ∧ path ≠ str "/api/to-positive" then
    .replied (send_error env.now 404 "Endpoint not found")
  else
    let mode : ProcessMode :=
      if path = str "/api/to-negative" then .MODE_TO_NEGATIVE else .MODE_TO_POSITIVE
    if body.length > MAX_BUFFER then .replied (send_error env.now 413 "Request too large")
    else
      match strstr (cstr headers) (str "Content-Type:") with
      | none => .replied (send_error env.now 400 "Content-Type header missing")
      | some k =>
        let ct := (cstr headers).drop (k + (str "Content-Type:").length)
        let content_type :=
          ((ct.dropWhile isspace).takeWhile (fun c => c != 13 && c != 10)).take 511
        match strstr content_type (str "multipart/form-data") with
        | none => .replied (send_error env.now 400 "Content-Type must be multipart/form-data")
        | some _ =>
          match extract_boundary content_type with
          | none => .replied (send_error env.now 400 "Invalid multipart boundary")
          | some boundary =>
            match parse_multipart_image env.stale body boundary with
            | none =>
              .replied (send_error env.now 400 "Failed to parse image from multipart data")
            | some image_data => process_and_send env image_data mode

/-- Handle GET request. -/
def handle_get_request (env : Env) (path : List Nat) : Outcome :=
  if path = str "/health" ∨ path = str "/health/" then
    .replied ⟨200, "OK", "application/json",
      str "\x7b\"status\":\"healthy\",\"service\":\"film-processor\",\"version\":\"2.0\"\x7d"⟩
  else if path = str "/" then
    .replied ⟨200, "OK", "application/json",
      str ("\x7b\"service\":\"Film Negative Processor\"," ++
        "\"version\":\"2.0.0\"," ++
        "\"endpoints\":[\"/api/to-negative\",\"/api/to-positive\",\"/health\"]," ++
        "\"documentation\":\"https://github.com/yourusername/film-processor\"\x7d")⟩
  else .replied (send_error env.now 404 "Not found")

/-- Handle OPTIONS (CORS preflight). -/
def handle_options_request : Outcome :=
  .replied ⟨204, "No Content", "text/plain", []⟩

/-- The call `sscanf(buffer, "%15s %511s %15s", method, path, version)`:
the three tokens, `none` when fewer than three conversions succeed. -/
def sscanf3 (input : List Nat) : Option (List Nat × List Nat × List Nat) :=
  match scan_s 15 input with
  | none => none
  | some (method, rest) =>
    match scan_s 511 rest with
    | none => none
    | some (path, rest) =>
      match scan_s 15 rest with
      | none => none
      | some (version, _) => some (method, path, version)

/-- The routing part of `handle_client`: find the body in `buffer` and
dispatch on the method. -/
def route (env : Env) (method path : List Nat) (buffer : List Nat) : Outcome :=
  let body : List Nat :=
    match strstr (cstr buffer) (str "\r\n\r\n") with
    | some k => buffer.drop (k + 4)
    | none => []
  if method = str "GET" then handle_get_request env path
  else if method = str "POST" then handle_post_request env path buffer body
  else if method = str "OPTIONS" then handle_options_request
  else .replied (send_error env.now 405 "Method not allowed")

/-- The single `recv(client_socket, buffer, MAX_BUFFER - 1, 0)`: of the bytes
`incoming` that the connection holds, at most `MAX_BUFFER - 1` are received. -/
def recv_buffer (incoming : List Nat) : List Nat := incoming.take (MAX_BUFFER - 1)

/-- Client handler thread.  `incoming` is what the connection holds when the
single `recv` returns; nothing received closes the connection without an
answer. -/
def handle_client (env : Env) (incoming : List Nat) : Outcome :=
  let buffer := recv_buffer incoming
  if buffer.length = 0 then .closed
  else
    match sscanf3 (cstr buffer) with
    | none => .replied (send_error env.now 400 "Malformed request")
    | some (method, path, _) => route env method path buffer

/-! ## Auxiliary definitions used in the statements -/

/-- Three consecutive stores starting at `k`. -/
def set3 (img : List Nat) (k a b d : Nat) : List Nat :=
  ((img.set k a).set (k + 1) b).set (k + 2) d

/-- The byte stored by `img[idx] = 255 - img[idx]` when the byte read is `v`. -/
def neg8 (v : Nat) : Nat := ((255 - (v : Int)) % 256).toNat

/-- Selection of the value for channel `ch` among the three colour channels. -/
def sel3 (ch : Nat) (a b d : Nat) : Nat :=
  if ch = 0 then a else if ch = 1 then b else d

/-- A sequence of stores `img[i] = v`, performed left to right. -/
def applyW : List (Int × Int) → List Nat → Option (List Nat)
  | [], img => some img
  | w :: ws, img => (wr img w.1 w.2).bind (applyW ws)

/-- The six stores of `paint`, as a list. -/
def paintW (top_idx bottom_idx : Int) (r g b : Int) : List (Int × Int) :=
  [(top_idx, r), (top_idx + 1, g), (top_idx + 2, b),
   (bottom_idx, r), (bottom_idx + 1, g), (bottom_idx + 2, b)]

/-- The stores of the loop nest `for y in [ylo, yhi) for x in [xlo, xhi)` that
paints the pixel `(x, y)` and its mirror image `(x, height - 1 - y)`. -/
def rectW (width height channels : Nat) (r g b : Int) (ylo yhi xlo xhi : Nat) :
    List (Int × Int) :=
  (List.range' ylo (yhi - ylo)).flatMap fun y =>
    (List.range' xlo (xhi - xlo)).flatMap fun x =>
      paintW (((y : Int) * width + x) * channels)
        ((((height : Int) - 1 - y) * width + x) * channels) r g b

/-- The request line of a received text: the bytes before the first CR LF
(the whole text when there is none). -/
def request_line (text : List Nat) : List Nat :=
  match strstr text (str "\r\n") with
  | some k => text.take k
  | none => text

/-- Splitting on white space: the maximal runs of non-space bytes, in order. -/
def tokens : List Nat → List (List Nat)
  | [] => []
  | c :: t =>
    if isspace c then tokens t
    else
      match t.head?, tokens t with
      | some d, tk :: tks => if isspace d then [c] :: tk :: tks else (c :: tk) :: tks
      | _, _ => [[c]]

/-- The status code of an answer, if there is one. -/
def Outcome.status : Outcome → Option Nat
  | .replied r => some r.status_code
  | _ => none

/-- A sample environment: the codec rejects every input, and the receive
buffer holds nothing behind the received data. -/
def sample_env : Env :=
  ⟨fun _ => .error "unknown image type", fun _ => 0, 0, 0, fun _ => .write_failed, []⟩

/-- The buffers `img` and `out` have the same size and agree on every byte at
an in-pixel channel offset of 3 or more (`c` channels per pixel). -/
def same_beyond_rgb (c : Nat) (img out : List Nat) : Prop :=
  out.length = img.length ∧
    ∀ i ch, 3 ≤ ch → ch < c → out.getD (i * c + ch) 0 = img.getD (i * c + ch) 0

/-- The header that `send_response` builds with `snprintf` into its buffer of
2048 bytes. -/
def response_header (status_code : Nat) (status_text content_type : String) (body_len : Nat) :
    String :=
  snprintf 2048 ("HTTP/1.1 " ++ toString status_code ++ " " ++ status_text ++ "\r\n" ++
    "Content-Type: " ++ content_type ++ "\r\n" ++
    "Content-Length: " ++ toString body_len ++ "\r\n" ++
    "Access-Control-Allow-Origin: *\r\n" ++
    "Access-Control-Allow-Methods: POST, GET, OPTIONS\r\n" ++
    "Access-Control-Allow-Headers: Content-Type\r\n" ++
    "X-Content-Type-Options: nosniff\r\n" ++
    "X-Frame-Options: DENY\r\n" ++
    "X-XSS-Protection: 1; mode=block\r\n" ++
    "Server: FilmProcessor/2.0\r\n" ++
    "Connection: close\r\n" ++
    "\r\n")

/-- The header sent for a reply: `body_len` is the length of its body. -/
def Reply.header (r : Reply) : String :=
  response_header r.status_code r.status_text r.content_type r.body.length

/-- The search part of `parse_multipart_image`: the offsets `data_start` and
`data_end` that it arrives at before the size check, `none` when it returns 0
earlier (empty body or no blank line). -/
def locate_payload (stale : List Nat) (body : List Nat) (boundary : List Nat) :
    Option (Nat × Nat) :=
  if body.length = 0 then none
  else
    let mem := body_memory stale body
    match strstr (cstr mem) (str "\r\n\r\n") with
    | none => none
    | some k =>
      let data_start := k + 4
      let pattern1 := (str "\r\n--" ++ boundary ++ str "--").take 299
      let pattern2 := (str "\r\n--" ++ boundary ++ str "\r\n").take 299
      let pattern3 := (str "--" ++ boundary).take 299
      let data_end : Option Nat :=
        match strstr (cstr (mem.drop data_start)) pattern1 with
        | some e => some (data_start + e)
        | none =>
          match strstr (cstr (mem.drop data_start)) pattern2 with
          | some e => some (data_start + e)
          | none => pattern3_loop mem data_start pattern3 (mem.length + 1) data_start
      let data_end : Nat :=
        match data_end with
        | some e => e
        | none => trim_end mem data_start body.length
      some (data_start, data_end)

/-- The offset `data_end` that `parse_multipart_image` arrives at for a body
whose first blank line is at offset `k`, computed on the body bytes alone: the
searches and the fallback as in the function, none of them reading behind the
end of the body. -/
def data_end_within (body : List Nat) (boundary : List Nat) (k : Nat) : Nat :=
  let data_start := k + 4
  let pattern1 := (str "\r\n--" ++ boundary ++ str "--").take 299
  let pattern2 := (str "\r\n--" ++ boundary ++ str "\r\n").take 299
  let pattern3 := (str "--" ++ boundary).take 299
  let data_end : Option Nat :=
    match strstr (cstr (body.drop data_start)) pattern1 with
    | some e => some (data_start + e)
    | none =>
      match strstr (cstr (body.drop data_start)) pattern2 with
      | some e => some (data_start + e)
      | none => pattern3_loop body data_start pattern3 (body.length + 1) data_start
  match data_end with
  | some e => e
  | none => trim_end body data_start body.length

/-! ## vintage_filter.c -/

namespace VintageFilter

/-- Clamp value between 0 and 255. -/
def clamp (value : Int) : Nat :=
  if value < 0 then 0 else if value > 255 then 255 else value.toNat

/-- Generate random number between -range and +range for grain effect, where
`draw` is the value `rand()` returned. -/
def random_grain (draw : Nat) (range : Nat) : Int :=
  ((draw % (range * 2 + 1) : Nat) : Int) - range

/-- Invert colors to create negative effect. -/
def apply_negative (img : List Nat) (width height channels : Nat) : Option (List Nat) :=
  forRange 0 (width * height) (fun i img => do
    let idx : Int := (i : Int) * channels
    let v0 ← rd img idx
    let img ← wr img idx (255 - v0)
    let v1 ← rd img (idx + 1)
    let img ← wr img (idx + 1) (255 - v1)
    let v2 ← rd img (idx + 2)
    wr img (idx + 2) (255 - v2)) img

/-- Apply orange/amber color cast like real film negatives. -/
def apply_film_color_cast (img : List Nat) (width height channels : Nat) : Option (List Nat) :=
  forRange 0 (width * height) (fun i img => do
    let idx : Int := (i : Int) * channels
    let r ← rd img idx
    let g ← rd img (idx + 1)
    let b ← rd img (idx + 2)
    let new_r : Int := F32.toInt (F32.add (F32.mul (F32.ofInt r) F32.c115) (F32.ofInt 20))
    let new_g : Int := F32.toInt (F32.add (F32.mul (F32.ofInt g) F32.c105) (F32.ofInt 10))
    let new_b : Int := F32.toInt (F32.mul (F32.ofInt b) F32.c085)
    let img ← wr img idx (clamp new_r)
    let img ← wr img (idx + 1) (clamp new_g)
    wr img (idx + 2) (clamp new_b)) img

/-- Remove orange/amber color cast (reverse operation). -/
def remove_film_color_cast (img : List Nat) (width height channels : Nat) : Option (List Nat) :=
  forRange 0 (width * height) (fun i img => do
    let idx : Int := (i : Int) * channels
    let r ← rd img idx
    let g ← rd img (idx + 1)
    let b ← rd img (idx + 2)
    let new_r : Int := F32.toInt (F32.div (F32.ofInt ((r : Int) - 20)) F32.c115)
    let new_g : Int := F32.toInt (F32.div (F32.ofInt ((g : Int) - 10)) F32.c105)
    let new_b : Int := F32.toInt (F32.div (F32.ofInt b) F32.c085)
    let img ← wr img idx (clamp new_r)
    let img ← wr img (idx + 1) (clamp new_g)
    wr img (idx + 2) (clamp new_b)) img

/-- Crop sprocket holes from image: the six stores of one border position are
`paint` with the colour `(0, 0, 0)`. -/
def crop_sprocket_holes (img : List Nat) (width height channels : Nat) : Option (List Nat) :=
  let border_height := height / 15
  forRange 0 border_height (fun y img =>
    forRange 0 width (fun x img =>
      let top_idx : Int := ((y : Int) * width + x) * channels
      let bottom_idx : Int := (((height : Int) - 1 - y) * width + x) * channels
      paint img top_idx bottom_idx 0 0 0) img) img

/-- Apply film grain effect.  The state carries the buffer and the number of
`rand()` calls made so far. -/
def apply_grain (draws : Nat → Nat) (img : List Nat) (pos : Nat)
    (width height channels intensity : Nat) : Option (List Nat × Nat) :=
  forRange 0 (width * height) (fun i (st : List Nat × Nat) => do
    let idx : Int := (i : Int) * channels
    let grain := random_grain (draws st.2) intensity
    let v0 ← rd st.1 idx
    let img ← wr st.1 idx (clamp (v0 + grain))
    let v1 ← rd img (idx + 1)
    let img ← wr img (idx + 1) (clamp (v1 + grain))
    let v2 ← rd img (idx + 2)
    let img ← wr img (idx + 2) (clamp (v2 + grain))
    pure (img, st.2 + 1)) (img, pos)

/-- Draw film sprocket holes at top and bottom. -/
def draw_sprocket_holes (img : List Nat) (width height channels : Nat) : Option (List Nat) := do
  let border_height := height / 15
  let hole_width := width / 25
  let hole_height := border_height / 2
  let spacing := width / 12
  let img ← forRange 0 border_height (fun y img =>
    forRange 0 width (fun x img =>
      let top_idx : Int := ((y : Int) * width + x) * channels
      let bottom_idx : Int := (((height : Int) - 1 - y) * width + x) * channels
      paint img top_idx bottom_idx 220 150 130) img) img
  let holes ← cdiv width spacing
  forRange 0 holes (fun hole_num img =>
    let hole_x := hole_num * spacing + spacing / 4
    forRange (border_height / 4) (border_height / 4 + hole_height) (fun y img =>
      forRange hole_x (min (hole_x + hole_width) width) (fun x img =>
        let top_idx : Int := ((y : Int) * width + x) * channels
        let bottom_idx : Int := (((height : Int) - 1 - y) * width + x) * channels
        paint img top_idx bottom_idx 240 240 240) img) img) img

/-- Main film negative filter function (the progress messages are left out). -/
def apply_film_negative_filter (draws : Nat → Nat) (img : List Nat) (pos : Nat)
    (width height channels : Nat) : Option (List Nat × Nat) := do
  let img ← apply_negative img width height channels
  let img ← apply_film_color_cast img width height channels
  let (img, pos) ← apply_grain draws img pos width height channels 12
  let img ← draw_sprocket_holes img width height channels
  pure (img, pos)

/-- Reverse film negative back to positive (color) image. -/
def reverse_film_negative (img : List Nat) (width height channels : Nat) : Option (List Nat) := do
  let img ← crop_sprocket_holes img width height channels
  let img ← remove_film_color_cast img width height channels
  apply_negative img width height channels

end VintageFilter

/-! ## The compositions named by the specification -/

/-- The ToNegative direction in the words of the specification,
`sprocket(grain_12(colorCastApply(invert(x))))`: each operator is applied to
the result of the one before it, and a fault of one of them faults the whole. -/
def to_negative_composition (draws : Nat → Nat) (pos : Nat) (x : List Nat) (w h c : Nat) :
    Option (List Nat × Nat) :=
  (apply_negative x w h c).bind fun inverted =>
    (apply_film_color_cast inverted w h c).bind fun tinted =>
      (apply_grain draws tinted pos w h c 12).bind fun grained =>
        (draw_sprocket_holes grained.1 w h c).map fun out => (out, grained.2)

/-- The ToPositive direction in the words of the specification,
`invert(colorCastRemove(crop(x)))`. -/
def to_positive_composition (x : List Nat) (w h c : Nat) : Option (List Nat) :=
  (crop_sprocket_holes x w h c).bind fun cropped =>
    (remove_film_color_cast cropped w h c).bind fun plain =>
      apply_negative plain w h c

/-! ## send_response on a connection -/

/-- The text that the format of `send_response` yields for its arguments: what
`snprintf` would write into a buffer without limit.  Its length is the value
`snprintf` returns. -/
def header_text (status_code : Nat) (status_text content_type : String) (body_len : Nat) :
    String :=
  "HTTP/1.1 " ++ toString status_code ++ " " ++ status_text ++ "\r\n" ++
    "Content-Type: " ++ content_type ++ "\r\n" ++
    "Content-Length: " ++ toString body_len ++ "\r\n" ++
    "Access-Control-Allow-Origin: *\r\n" ++
    "Access-Control-Allow-Methods: POST, GET, OPTIONS\r\n" ++
    "Access-Control-Allow-Headers: Content-Type\r\n" ++
    "X-Content-Type-Options: nosniff\r\n" ++
    "X-Frame-Options: DENY\r\n" ++
    "X-XSS-Protection: 1; mode=block\r\n" ++
    "Server: FilmProcessor/2.0\r\n" ++
    "Connection: close\r\n" ++
    "\r\n"

/-- A connection: the bytes put on it so far and the number of `send` calls
made on it. -/
structure Conn where
  wire : List Nat
  calls : Nat
  deriving DecidableEq, Repr

/-- One call `send(client_socket, data, len, MSG_NOSIGNAL)`.  The socket is a
function `accept`: for call number `k`, `accept k = none` is the result -1,
and `accept k = some c` accepts the first `min c len` of the bytes offered and
returns that count. -/
def send (accept : Nat → Option Nat) (conn : Conn) (data : List Nat) : Option Nat × Conn :=
  match accept conn.calls with
  | none => (none, ⟨conn.wire, conn.calls + 1⟩)
  | some c =>
    let n := min c data.length
    (some n, ⟨conn.wire ++ data.take n, conn.calls + 1⟩)

/-- The loop `while (total_sent < body_len)` of `send_response`, entered with
the given `total_sent`; `none` when it is still running after `fuel` rounds. -/
def send_body (accept : Nat → Option Nat) (body : List Nat) : Nat → Nat → Conn → Option Conn
  | 0, total_sent, conn => if total_sent < body.length then none else some conn
  | fuel + 1, total_sent, conn =>
    if total_sent < body.length then
      match send accept conn (body.drop total_sent) with
      | (none, conn) => some conn
      | (some chunk_sent, conn) => send_body accept body fuel (total_sent + chunk_sent) conn
    else some conn

/-- Send HTTP response with proper headers: the connection after the call.
`body` holds the `body_len` bytes of the body.  The result is `none` when the
call does not return in order: `header_len` exceeds the 2048 bytes of
`header` (`send` then reads past the array), or the body loop is still
running after `fuel` rounds. -/
def send_response (accept : Nat → Option Nat) (fuel : Nat) (conn : Conn) (status_code : Nat)
    (status_text content_type : String) (body : List Nat) : Option Conn :=
  let text := header_text status_code status_text content_type body.length
  let header := str (snprintf 2048 text) ++ [0]
  let header_len := text.length
  if header_len > 2048 then none
  else
    match send accept conn (header.take header_len) with
    | (none, conn) => some conn
    | (some _, conn) =>
      if body.length > 0 then send_body accept body fuel 0 conn else some conn

/-! ## Loop and buffer lemmas -/

theorem forLoop_inv {σ : Type} (body : Nat → σ → Option σ) (P : Nat → σ → Prop) :
    ∀ (n lo : Nat) (s : σ), P lo s →
      (∀ i t, lo ≤ i → i < lo + n → P i t → ∃ t', body i t = some t' ∧ P (i + 1) t') →
      ∃ t, forLoop body n lo s = some t ∧ P (lo + n) t := by
  intro n
  induction n with
  | zero => intro lo s h _; exact ⟨s, rfl, by simpa using h⟩
  | succ n ih =>
    intro lo s h hstep
    obtain ⟨t, ht, hP⟩ := hstep lo s (le_refl _) (by omega) h
    obtain ⟨u, hu, hQ⟩ := ih (lo + 1) t hP (fun i v h1 h2 hv => hstep i v (by omega) (by omega) hv)
    refine ⟨u, ?_, ?_⟩
    · simp [forLoop, ht, hu]
    · have : lo + (n + 1) = lo + 1 + n := by omega
      rw [this]; exact hQ

theorem rd_natCast (img : List Nat) (k : Nat) : rd img (k : Int) = img[k]? := by
  simp [rd]

theorem wr_natCast (img : List Nat) (k : Nat) (v : Int) (h : k < img.length) :
    wr img (k : Int) v = some (img.set k (v % 256).toNat) := by
  simp [wr, h]

theorem getD_set (img : List Nat) (k j v : Nat) (h : k < img.length) :
    (img.set k v).getD j 0 = if j = k then v else img.getD j 0 := by
  simp only [List.getD_eq_getElem?_getD, List.getElem?_set]
  by_cases hj : k = j
  · subst hj; simp [h]
  · have : ¬ j = k := fun e => hj e.symm
    simp [hj, this]

theorem getD_set_any (img : List Nat) (k j v : Nat) :
    (img.set k v).getD j 0 = if j = k ∧ k < img.length then v else img.getD j 0 := by
  by_cases h : k < img.length
  · rw [getD_set _ _ _ _ h]; simp [h]
  · rw [List.set_eq_of_length_le (by omega)]; simp [h]

theorem pix_inj {c i k a b : Nat} (ha : a < c) (hb : b < c) (h : i * c + a = k * c + b) :
    i = k ∧ a = b := by
  have h1 : (i * c + a) / c = i := by
    rw [Nat.add_comm, Nat.add_mul_div_right _ _ (by omega), Nat.div_eq_of_lt ha]; simp
  have h2 : (k * c + b) / c = k := by
    rw [Nat.add_comm, Nat.add_mul_div_right _ _ (by omega), Nat.div_eq_of_lt hb]; simp
  have hik : i = k := by rw [← h1, ← h2, h]
  subst hik
  exact ⟨rfl, by omega⟩


theorem length_set3 (img : List Nat) (k a b d : Nat) : (set3 img k a b d).length = img.length := by
  simp [set3]

theorem getD_set3 (img : List Nat) (k a b d j : Nat) (h : k + 2 < img.length) :
    (set3 img k a b d).getD j 0 =
      if j = k + 2 then d else if j = k + 1 then b else if j = k then a else img.getD j 0 := by
  unfold set3
  rw [getD_set _ _ _ _ (by simp; omega), getD_set _ _ _ _ (by simp; omega),
    getD_set _ _ _ _ (by omega)]

theorem pixelLoop_spec (c n : Nat) (hc : 3 ≤ c) (f : Nat → Nat → Nat → Nat → Nat → Nat)
    (body : Nat → List Nat → Option (List Nat))
    (hbody : ∀ i img, i * c + 2 < img.length →
      body i img = some (set3 img (i * c)
        (f i 0 (img.getD (i * c) 0) (img.getD (i * c + 1) 0) (img.getD (i * c + 2) 0))
        (f i 1 (img.getD (i * c) 0) (img.getD (i * c + 1) 0) (img.getD (i * c + 2) 0))
        (f i 2 (img.getD (i * c) 0) (img.getD (i * c + 1) 0) (img.getD (i * c + 2) 0))))
    (img : List Nat) (hlen : n * c ≤ img.length) :
    ∃ out, forLoop body n 0 img = some out ∧ out.length = img.length ∧
      ∀ i ch, ch < c → out.getD (i * c + ch) 0 =
        if i < n ∧ ch < 3 then
          f i ch (img.getD (i * c) 0) (img.getD (i * c + 1) 0) (img.getD (i * c + 2) 0)
        else img.getD (i * c + ch) 0 := by
  have key := forLoop_inv body (fun k out => out.length = img.length ∧
      ∀ i ch, ch < c → out.getD (i * c + ch) 0 =
        if i < k ∧ ch < 3 then
          f i ch (img.getD (i * c) 0) (img.getD (i * c + 1) 0) (img.getD (i * c + 2) 0)
        else img.getD (i * c + ch) 0) n 0 img ⟨rfl, by intro i ch _; simp⟩ ?_
  · obtain ⟨out, h1, h2, h3⟩ := key
    refine ⟨out, h1, h2, ?_⟩
    simpa using h3
  · intro k t _ hk ⟨hl, hP⟩
    have hkn : (k + 1) * c ≤ n * c := Nat.mul_le_mul_right c (by omega)
    have hb : k * c + 2 < t.length := by rw [hl]; rw [Nat.add_mul] at hkn; omega
    have e0 : t.getD (k * c) 0 = img.getD (k * c) 0 := by
      have := hP k 0 (by omega); simpa using this
    have e1 : t.getD (k * c + 1) 0 = img.getD (k * c + 1) 0 := by
      have := hP k 1 (by omega); simpa using this
    have e2 : t.getD (k * c + 2) 0 = img.getD (k * c + 2) 0 := by
      have := hP k 2 (by omega); simpa using this
    refine ⟨_, hbody k t hb, by rw [length_set3, hl], ?_⟩
    intro i ch hch
    rw [getD_set3 _ _ _ _ _ _ hb, e0, e1, e2, hP i ch hch]
    by_cases hik : i = k
    · subst hik
      by_cases h2 : ch = 2
      · subst h2; simp
      · by_cases h1 : ch = 1
        · subst h1; simp
        · by_cases h0 : ch = 0
          · subst h0; simp
          · have : ¬ ch < 3 := by omega
            have a2 : ¬ i * c + ch = i * c + 2 := by omega
            have a1 : ¬ i * c + ch = i * c + 1 := by omega
            have a0 : ¬ i * c + ch = i * c := by omega
            simp [this, a2, a1, a0]
    · have a2 : ¬ i * c + ch = k * c + 2 := fun e => hik (pix_inj hch (by omega) e).1
      have a1 : ¬ i * c + ch = k * c + 1 := fun e => hik (pix_inj hch (by omega) e).1
      have a0 : ¬ i * c + ch = k * c := fun e =>
        hik (pix_inj (b := 0) hch (by omega) (by simpa using e)).1
      have : (i < k + 1 ∧ ch < 3) ↔ (i < k ∧ ch < 3) := by
        constructor
        · rintro ⟨h, h'⟩; exact ⟨by omega, h'⟩
        · rintro ⟨h, h'⟩; exact ⟨by omega, h'⟩
      simp only [a2, a1, a0, if_false, this]

theorem rd_some (img : List Nat) (k : Nat) (h : k < img.length) :
    rd img (k : Int) = some (img.getD k 0) := by
  simp [rd, List.getD_eq_getElem?_getD, List.getElem?_eq_getElem h]

theorem idx_cast0 (i c : Nat) : ((i : Int) * (c : Int)) = ((i * c : Nat) : Int) := by
  push_cast; rfl

theorem idx_cast1 (k : Nat) : ((k : Nat) : Int) + 1 = ((k + 1 : Nat) : Int) := by
  push_cast; rfl

theorem idx_cast2 (k : Nat) : ((k : Nat) : Int) + 2 = ((k + 2 : Nat) : Int) := by
  push_cast; rfl

/-! ## Invert -/

theorem apply_negative_body (img : List Nat) (i c : Nat) (h : i * c + 2 < img.length) :
    (do
      let idx : Int := (i : Int) * c
      let v0 ← rd img idx
      let img ← wr img idx (255 - v0)
      let v1 ← rd img (idx + 1)
      let img ← wr img (idx + 1) (255 - v1)
      let v2 ← rd img (idx + 2)
      wr img (idx + 2) (255 - v2)) =
    some (set3 img (i * c) (neg8 (img.getD (i * c) 0)) (neg8 (img.getD (i * c + 1) 0))
      (neg8 (img.getD (i * c + 2) 0))) := by
  simp only [idx_cast0, idx_cast1, idx_cast2]
  rw [rd_some _ _ (by omega)]
  simp only [Option.some_bind, Option.bind_eq_bind]
  rw [wr_natCast _ _ _ (by omega)]
  simp only [Option.some_bind]
  rw [rd_some _ _ (by simp; omega)]
  simp only [Option.some_bind]
  rw [wr_natCast _ _ _ (by simp; omega)]
  simp only [Option.some_bind]
  rw [rd_some _ _ (by simp; omega)]
  simp only [Option.some_bind]
  rw [wr_natCast _ _ _ (by simp; omega)]
  simp [set3, neg8, getD_set_any]

theorem ext_getD (l1 l2 : List Nat) (hl : l1.length = l2.length)
    (h : ∀ j, j < l1.length → l1.getD j 0 = l2.getD j 0) : l1 = l2 := by
  apply List.ext_getElem hl
  intro j h1 h2
  have := h j h1
  simpa [List.getD_eq_getElem?_getD, List.getElem?_eq_getElem h1,
    List.getElem?_eq_getElem h2] using this

theorem sel3_same (ch : Nat) (hch : ch < 3) (g : Nat → Nat) (k : Nat) :
    sel3 ch (g k) (g (k + 1)) (g (k + 2)) = g (k + ch) := by
  unfold sel3
  rcases (by omega : ch = 0 ∨ ch = 1 ∨ ch = 2) with h | h | h <;> subst h <;> simp

theorem apply_negative_spec (img : List Nat) (w h c : Nat) (hc : 3 ≤ c)
    (hlen : img.length = w * h * c) :
    ∃ out, apply_negative img w h c = some out ∧ out.length = img.length ∧
      ∀ i ch, ch < c → out.getD (i * c + ch) 0 =
        if i < w * h ∧ ch < 3 then neg8 (img.getD (i * c + ch) 0)
        else img.getD (i * c + ch) 0 := by
  obtain ⟨out, h1, h2, h3⟩ := pixelLoop_spec c (w * h) hc
    (fun _ ch r g b => sel3 ch (neg8 r) (neg8 g) (neg8 b)) _
    (fun i im hi => apply_negative_body im i c hi) img (by omega)
  refine ⟨out, by simpa [apply_negative, forRange] using h1, h2, ?_⟩
  intro i ch hch
  rw [h3 i ch hch]
  by_cases hh : i < w * h ∧ ch < 3
  · rw [if_pos hh, if_pos hh]
    exact sel3_same ch hh.2 (fun k => neg8 (img.getD k 0)) (i * c)
  · rw [if_neg hh, if_neg hh]

theorem neg8_neg8 (v : Nat) (hv : v < 256) : neg8 (neg8 v) = v := by
  unfold neg8; omega

/-- C3. Invert is an exact involution: on a buffer of `w * h * c` bytes with
`c ≥ 3` channels, `apply_negative` succeeds, and applying it to its own result
succeeds and gives back the original buffer byte for byte. -/
theorem apply_negative_involution (img : List Nat) (w h c : Nat) (hc : 3 ≤ c)
    (hlen : img.length = w * h * c) (hbytes : ∀ v ∈ img, v < 256) :
    ∃ out, apply_negative img w h c = some out ∧ apply_negative out w h c = some img := by
  obtain ⟨out, h1, h2, h3⟩ := apply_negative_spec img w h c hc hlen
  obtain ⟨back, k1, k2, k3⟩ := apply_negative_spec out w h c hc (by rw [h2, hlen])
  refine ⟨out, h1, ?_⟩
  rw [k1]
  congr 1
  apply ext_getD _ _ (by rw [k2, h2])
  intro j hj
  have hcpos : 0 < c := by omega
  have hj' : j = j / c * c + j % c := by
    rw [Nat.mul_comm]; exact (Nat.div_add_mod j c).symm
  have hm : j % c < c := Nat.mod_lt _ hcpos
  rw [hj', k3 _ _ hm, h3 _ _ hm]
  by_cases hh : j / c < w * h ∧ j % c < 3
  · rw [if_pos hh, if_pos hh]
    apply neg8_neg8
    rw [← hj']
    have hjl : j < img.length := by rw [k2, h2] at hj; exact hj
    rw [List.getD_eq_getElem?_getD, List.getElem?_eq_getElem hjl]
    exact hbytes _ (List.getElem_mem _)
  · rw [if_neg hh, if_neg hh]

/-- C3 at a concrete buffer: one RGBA pixel and one more. -/
theorem apply_negative_involution_witness :
    ∃ out, apply_negative [0, 128, 255, 7, 1, 2, 3, 9] 2 1 4 = some out ∧
      apply_negative out 2 1 4 = some [0, 128, 255, 7, 1, 2, 3, 9] :=
  apply_negative_involution [0, 128, 255, 7, 1, 2, 3, 9] 2 1 4 (by decide) (by decide)
    (by decide)

/-! ## Grain -/

theorem forLoop_congr {σ : Type} (b1 b2 : Nat → σ → Option σ) :
    ∀ (n lo : Nat) (s : σ), (∀ i t, lo ≤ i → i < lo + n → b1 i t = b2 i t) →
      forLoop b1 n lo s = forLoop b2 n lo s := by
  intro n
  induction n with
  | zero => intro lo s _; rfl
  | succ n ih =>
    intro lo s hb
    simp only [forLoop]
    rw [hb lo s (le_refl _) (by omega)]
    cases h : b2 lo s with
    | none => rfl
    | some t =>
      simp only [Option.some_bind]
      exact ih (lo + 1) t (fun i u h1 h2 => hb i u (by omega) (by omega))

theorem forLoop_counter (step : Nat → Nat → List Nat → Option (List Nat)) :
    ∀ (n lo : Nat) (img : List Nat) (pos : Nat),
      forLoop (fun i (st : List Nat × Nat) => (step st.2 i st.1).map (fun im => (im, st.2 + 1)))
          n lo (img, pos) =
        (forLoop (fun i im => step (pos + (i - lo)) i im) n lo img).map
          (fun im => (im, pos + n)) := by
  intro n
  induction n with
  | zero => intro lo img pos; rfl
  | succ n ih =>
    intro lo img pos
    simp only [forLoop, Nat.sub_self, Nat.add_zero]
    cases h : step pos lo img with
    | none => rfl
    | some t =>
      simp only [Option.map_some', Option.some_bind]
      rw [ih (lo + 1) t (pos + 1)]
      have : forLoop (fun i im => step (pos + 1 + (i - (lo + 1))) i im) n (lo + 1) t =
          forLoop (fun i im => step (pos + (i - lo)) i im) n (lo + 1) t := by
        apply forLoop_congr
        intro i u h1 _
        have : pos + 1 + (i - (lo + 1)) = pos + (i - lo) := by omega
        simp only [this]
      rw [this]
      have e : pos + 1 + n = pos + (n + 1) := by omega
      rw [e]

theorem apply_grain_body (img : List Nat) (i c : Nat) (grain : Int)
    (h : i * c + 2 < img.length) :
    (do
      let idx : Int := (i : Int) * c
      let v0 ← rd img idx
      let img ← wr img idx (clamp (v0 + grain))
      let v1 ← rd img (idx + 1)
      let img ← wr img (idx + 1) (clamp (v1 + grain))
      let v2 ← rd img (idx + 2)
      wr img (idx + 2) (clamp (v2 + grain))) =
    some (set3 img (i * c) (clamp (img.getD (i * c) 0 + grain))
      (clamp (img.getD (i * c + 1) 0 + grain)) (clamp (img.getD (i * c + 2) 0 + grain))) := by
  have hc : ∀ z : Int, (((clamp z : Nat) : Int) % 256).toNat = clamp z := by
    intro z; unfold clamp; split_ifs <;> omega
  simp only [idx_cast0, idx_cast1, idx_cast2]
  rw [rd_some _ _ (by omega)]
  simp only [Option.some_bind, Option.bind_eq_bind]
  rw [wr_natCast _ _ _ (by omega)]
  simp only [Option.some_bind]
  rw [rd_some _ _ (by simp; omega)]
  simp only [Option.some_bind]
  rw [wr_natCast _ _ _ (by simp; omega)]
  simp only [Option.some_bind]
  rw [rd_some _ _ (by simp; omega)]
  simp only [Option.some_bind]
  rw [wr_natCast _ _ _ (by simp; omega)]
  simp [set3, getD_set_any, hc]

theorem apply_grain_spec (draws : Nat → Nat) (img : List Nat) (pos w h c k : Nat) (hc : 3 ≤ c)
    (hlen : img.length = w * h * c) :
    ∃ out, apply_grain draws img pos w h c k = some (out, pos + w * h) ∧
      out.length = img.length ∧
      ∀ i ch, ch < c → out.getD (i * c + ch) 0 =
        if i < w * h ∧ ch < 3 then
          clamp (img.getD (i * c + ch) 0 + random_grain (draws (pos + i)) k)
        else img.getD (i * c + ch) 0 := by
  obtain ⟨out, h1, h2, h3⟩ := pixelLoop_spec c (w * h) hc
    (fun i ch r g b => sel3 ch (clamp (r + random_grain (draws (pos + i)) k))
      (clamp (g + random_grain (draws (pos + i)) k)) (clamp (b + random_grain (draws (pos + i)) k)))
    (fun i im => do
      let idx : Int := (i : Int) * c
      let v0 ← rd im idx
      let im ← wr im idx (clamp (v0 + random_grain (draws (pos + (i - 0))) k))
      let v1 ← rd im (idx + 1)
      let im ← wr im (idx + 1) (clamp (v1 + random_grain (draws (pos + (i - 0))) k))
      let v2 ← rd im (idx + 2)
      wr im (idx + 2) (clamp (v2 + random_grain (draws (pos + (i - 0))) k)))
    (fun i im hi => by
      simpa using apply_grain_body im i c (random_grain (draws (pos + i)) k) hi) img (by omega)
  have hloop := forLoop_counter (fun p i im => do
      let idx : Int := (i : Int) * c
      let v0 ← rd im idx
      let im ← wr im idx (clamp (v0 + random_grain (draws p) k))
      let v1 ← rd im (idx + 1)
      let im ← wr im (idx + 1) (clamp (v1 + random_grain (draws p) k))
      let v2 ← rd im (idx + 2)
      wr im (idx + 2) (clamp (v2 + random_grain (draws p) k))) (w * h) 0 img pos
  refine ⟨out, ?_, h2, ?_⟩
  · unfold apply_grain forRange
    rw [Nat.sub_zero]
    rw [h1, Option.map_some'] at hloop
    rw [← hloop]
    apply forLoop_congr
    intro i st _ _
    simp [Option.map_eq_bind, Function.comp, Option.bind_assoc]
  · intro i ch hch
    rw [h3 i ch hch]
    by_cases hh : i < w * h ∧ ch < 3
    · rw [if_pos hh, if_pos hh]
      exact sel3_same ch hh.2 (fun j => clamp (img.getD j 0 + random_grain (draws (pos + i)) k))
        (i * c)
    · rw [if_neg hh, if_neg hh]

/-- C10. Grain is correlated and bounded: on a buffer of `w * h * c` bytes with
`c ≥ 3`, `apply_grain` with intensity 12 succeeds, advances the generator by
exactly `w * h` draws (one per pixel, pixel `i` in row-major order taking draw
`pos + i`), the grain `g_i = (n_i mod 25) - 12` lies in `[-12, 12]`, and the
three colour channels of pixel `i` become `clamp (v + g_i)` with that same
`g_i`, a value in `[0, 255]`. -/
theorem apply_grain_correlated (draws : Nat → Nat) (img : List Nat) (pos w h c : Nat)
    (hc : 3 ≤ c) (hlen : img.length = w * h * c) :
    ∃ out, apply_grain draws img pos w h c 12 = some (out, pos + w * h) ∧
      out.length = img.length ∧
      ∀ i, i < w * h →
        -12 ≤ ((draws (pos + i) % 25 : Nat) : Int) - 12 ∧
        ((draws (pos + i) % 25 : Nat) : Int) - 12 ≤ 12 ∧
        ∀ ch, ch < 3 →
          out.getD (i * c + ch) 0 =
            clamp ((img.getD (i * c + ch) 0 : Int) + (((draws (pos + i) % 25 : Nat) : Int) - 12)) ∧
          out.getD (i * c + ch) 0 ≤ 255 := by
  obtain ⟨out, h1, h2, h3⟩ := apply_grain_spec draws img pos w h c 12 hc hlen
  refine ⟨out, h1, h2, ?_⟩
  intro i hi
  refine ⟨by omega, by omega, ?_⟩
  intro ch hch
  have := h3 i ch (by omega)
  rw [if_pos ⟨hi, hch⟩] at this
  have e : random_grain (draws (pos + i)) 12 = ((draws (pos + i) % 25 : Nat) : Int) - 12 := by
    unfold random_grain; norm_num
  rw [e] at this
  refine ⟨this, ?_⟩
  rw [this]
  unfold clamp
  split_ifs <;> omega

/-- C10 at a concrete buffer of three RGB pixels and the draws `0, 7, 14, ...`. -/
theorem apply_grain_correlated_witness :
    (3 ≤ 3 ∧ [20, 20, 20, 255, 255, 255, 7, 100, 7].length = 3 * 1 * 3) ∧
    ∃ out, apply_grain (fun n => n * 7) [20, 20, 20, 255, 255, 255, 7, 100, 7] 0 3 1 3 12 =
        some (out, 0 + 3 * 1) ∧
      out.length = [20, 20, 20, 255, 255, 255, 7, 100, 7].length :=
  ⟨⟨by decide, by decide⟩,
    (apply_grain_correlated (fun n => n * 7) [20, 20, 20, 255, 255, 255, 7, 100, 7] 0 3 1 3
      (by decide) (by decide)).imp (fun _ hout => ⟨hout.1, hout.2.1⟩)⟩

/-! ## Border painting: loops as store lists -/

theorem paint_eq_applyW (img : List Nat) (t b : Int) (r g b' : Int) :
    paint img t b r g b' = applyW (paintW t b r g b') img := by
  simp [paint, paintW, applyW]

theorem applyW_append (a b : List (Int × Int)) :
    ∀ img, applyW (a ++ b) img = (applyW a img).bind (applyW b) := by
  induction a with
  | nil => intro img; simp [applyW]
  | cons w ws ih =>
    intro img
    simp only [List.cons_append, applyW]
    cases wr img w.1 w.2 with
    | none => rfl
    | some t => simp [ih]

theorem forLoop_applyW (g : Nat → List (Int × Int)) :
    ∀ (n lo : Nat) (img : List Nat),
      forLoop (fun i im => applyW (g i) im) n lo img =
        applyW ((List.range' lo n).flatMap g) img := by
  intro n
  induction n with
  | zero => intro lo img; simp [forLoop, applyW]
  | succ n ih =>
    intro lo img
    simp only [forLoop, List.range'_succ, List.flatMap_cons, applyW_append]
    cases applyW (g lo) img with
    | none => rfl
    | some t => simp [ih]

theorem wr_some_iff (img : List Nat) (i v : Int) (h0 : 0 ≤ i) (h1 : i < img.length) :
    wr img i v = some (img.set i.toNat (v % 256).toNat) := by
  have : i.toNat < img.length := by omega
  simp [wr, h0, this]

theorem applyW_spec (ws : List (Int × Int)) :
    ∀ img : List Nat, (∀ w ∈ ws, 0 ≤ w.1 ∧ w.1 < img.length) →
      ∃ out, applyW ws img = some out ∧ out.length = img.length ∧
        (∀ j : Nat, (∀ w ∈ ws, w.1 ≠ (j : Int)) → out.getD j 0 = img.getD j 0) ∧
        (∀ (j : Nat) (v : Nat), (∃ w ∈ ws, w.1 = (j : Int)) →
          (∀ w ∈ ws, w.1 = (j : Int) → (w.2 % 256).toNat = v) → out.getD j 0 = v) := by
  induction ws with
  | nil =>
    intro img _
    exact ⟨img, rfl, rfl, fun _ _ => rfl, fun j v h _ => by simp at h⟩
  | cons w ws ih =>
    intro img hb
    have hw := hb w (List.mem_cons_self _ _)
    have hlen : (img.set w.1.toNat (w.2 % 256).toNat).length = img.length := by simp
    obtain ⟨out, h1, h2, h3, h4⟩ := ih (img.set w.1.toNat (w.2 % 256).toNat)
      (fun u hu => by rw [hlen]; exact hb u (List.mem_cons_of_mem _ hu))
    refine ⟨out, ?_, by rw [h2, hlen], ?_, ?_⟩
    · simp only [applyW]
      rw [wr_some_iff _ _ _ hw.1 hw.2]
      exact h1
    · intro j hj
      rw [h3 j (fun u hu => hj u (List.mem_cons_of_mem _ hu)), getD_set_any]
      have : ¬ j = w.1.toNat := by
        intro e
        apply hj w (List.mem_cons_self _ _)
        omega
      simp [this]
    · intro j v hex hall
      by_cases hin : ∃ u ∈ ws, u.1 = (j : Int)
      · exact h4 j v hin (fun u hu => hall u (List.mem_cons_of_mem _ hu))
      · have hnone : ∀ u ∈ ws, u.1 ≠ (j : Int) := fun u hu e => hin ⟨u, hu, e⟩
        rw [h3 j hnone, getD_set_any]
        obtain ⟨u, hu, hu1⟩ := hex
        have huw : u = w := by
          rcases List.mem_cons.1 hu with e | e
          · exact e
          · exact absurd hu1 (hnone u e)
        subst huw
        have hj : j = u.1.toNat := by omega
        have hlt : u.1.toNat < img.length := by omega
        simp [hj, hlt]
        rw [← hall u (List.mem_cons_self _ _) hu1]

theorem rect_loop (w h c : Nat) (r g b : Int) (ylo yhi xlo xhi : Nat) (img : List Nat) :
    forRange ylo yhi (fun y img =>
      forRange xlo xhi (fun x img =>
        let top_idx : Int := ((y : Int) * w + x) * c
        let bottom_idx : Int := (((h : Int) - 1 - y) * w + x) * c
        paint img top_idx bottom_idx r g b) img) img =
    applyW (rectW w h c r g b ylo yhi xlo xhi) img := by
  unfold forRange rectW
  rw [← forLoop_applyW]
  apply forLoop_congr
  intro y im _ _
  rw [← forLoop_applyW]
  apply forLoop_congr
  intro x im' _ _
  exact paint_eq_applyW _ _ _ _ _ _

theorem mem_rectW (w h c : Nat) (r g b : Int) (ylo yhi xlo xhi : Nat) (wv : Int × Int) :
    wv ∈ rectW w h c r g b ylo yhi xlo xhi ↔
      ∃ y x, ylo ≤ y ∧ y < yhi ∧ xlo ≤ x ∧ x < xhi ∧
        wv ∈ paintW (((y : Int) * w + x) * c) ((((h : Int) - 1 - y) * w + x) * c) r g b := by
  unfold rectW
  simp only [List.mem_flatMap, List.mem_range'_1]
  constructor
  · rintro ⟨y, ⟨hy1, hy2⟩, x, ⟨hx1, hx2⟩, hm⟩
    exact ⟨y, x, hy1, by omega, hx1, by omega, hm⟩
  · rintro ⟨y, x, hy1, hy2, hx1, hx2, hm⟩
    exact ⟨y, ⟨hy1, by omega⟩, x, ⟨hx1, by omega⟩, hm⟩

theorem pix_bound {w h c x y ch : Nat} (hx : x < w) (hy : y < h) (hch : ch < c) :
    (y * w + x) * c + ch < w * h * c := by
  have h1 : y * w + x + 1 ≤ h * w := by
    have : (y + 1) * w ≤ h * w := Nat.mul_le_mul_right w hy
    rw [Nat.add_mul] at this; omega
  have h2 : (y * w + x + 1) * c ≤ h * w * c := Nat.mul_le_mul_right c h1
  have h3 : (y * w + x + 1) * c = (y * w + x) * c + c := by ring
  rw [h3] at h2
  rw [Nat.mul_comm w h]
  omega

theorem top_cast (w c y x : Nat) :
    (((y : Int) * w + x) * c) = (((y * w + x) * c : Nat) : Int) := by
  push_cast; rfl

theorem bottom_cast (w h c y x : Nat) (hy : y < h) :
    ((((h : Int) - 1 - y) * w + x) * c) = ((((h - 1 - y) * w + x) * c : Nat) : Int) := by
  have : ((h - 1 - y : Nat) : Int) = (h : Int) - 1 - y := by omega
  push_cast [this]; rfl

/-- Every store of `paint` at position `(x, y)` lands on one of the first three
channels of pixel `(x, y)` or of pixel `(x, h - 1 - y)`. -/
theorem paintW_shape (w h c y x : Nat) (r g b : Int) (hy : y < h) (wv : Int × Int)
    (hm : wv ∈ paintW (((y : Int) * w + x) * c) ((((h : Int) - 1 - y) * w + x) * c) r g b) :
    ∃ y' a, (y' = y ∨ y' = h - 1 - y) ∧ a < 3 ∧
      wv.1 = (((y' * w + x) * c + a : Nat) : Int) ∧
      wv.2 = if a = 0 then r else if a = 1 then g else b := by
  rw [top_cast, bottom_cast w h c y x hy] at hm
  simp only [paintW, List.mem_cons, List.mem_singleton, List.not_mem_nil, or_false] at hm
  rcases hm with e | e | e | e | e | e <;> subst e
  · exact ⟨y, 0, Or.inl rfl, by omega, by simp, by simp⟩
  · exact ⟨y, 1, Or.inl rfl, by omega, by push_cast; rfl, by simp⟩
  · exact ⟨y, 2, Or.inl rfl, by omega, by push_cast; rfl, by simp⟩
  · exact ⟨h - 1 - y, 0, Or.inr rfl, by omega, by simp, by simp⟩
  · exact ⟨h - 1 - y, 1, Or.inr rfl, by omega, by push_cast; rfl, by simp⟩
  · exact ⟨h - 1 - y, 2, Or.inr rfl, by omega, by push_cast; rfl, by simp⟩

theorem paintW_hit (w h c y x : Nat) (r g b : Int) (hc : 3 ≤ c) (hx : x < w) (hy : y < h)
    (Y X ch : Nat) (hX : X < w) (hch : ch < c) (wv : Int × Int)
    (hm : wv ∈ paintW (((y : Int) * w + x) * c) ((((h : Int) - 1 - y) * w + x) * c) r g b)
    (hit : wv.1 = (((Y * w + X) * c + ch : Nat) : Int)) :
    X = x ∧ (Y = y ∨ Y = h - 1 - y) ∧ ch < 3 ∧
      wv.2 = if ch = 0 then r else if ch = 1 then g else b := by
  obtain ⟨y', a, hy', ha, h1, h2⟩ := paintW_shape w h c y x r g b hy wv hm
  rw [h1] at hit
  have hit' : (y' * w + x) * c + a = (Y * w + X) * c + ch := by exact_mod_cast hit
  obtain ⟨e1, e2⟩ := pix_inj (by omega) hch hit'
  obtain ⟨e3, e4⟩ := pix_inj hx hX e1
  subst e2 e3 e4
  exact ⟨rfl, hy', ha, h2⟩

theorem paintW_mem (w h c y x : Nat) (r g b : Int) (hy : y < h) (ch : Nat) (hch : ch < 3) :
    ((((y * w + x) * c + ch : Nat) : Int), if ch = 0 then r else if ch = 1 then g else b) ∈
        paintW (((y : Int) * w + x) * c) ((((h : Int) - 1 - y) * w + x) * c) r g b ∧
    (((((h - 1 - y) * w + x) * c + ch : Nat) : Int), if ch = 0 then r else if ch = 1 then g else b) ∈
        paintW (((y : Int) * w + x) * c) ((((h : Int) - 1 - y) * w + x) * c) r g b := by
  rw [top_cast, bottom_cast w h c y x hy]
  rcases (by omega : ch = 0 ∨ ch = 1 ∨ ch = 2) with e | e | e <;> subst e <;>
    simp [paintW]

/-- A store list that consists exactly of the `paint` stores of the positions
satisfying `S` sets the first three channels of those pixels and of their
mirror images, and nothing else. -/
theorem painted_spec (w h c : Nat) (r g b : Int) (hc : 3 ≤ c) (S : Nat → Nat → Prop)
    (hS : ∀ y x, S y x → y < h ∧ x < w) (ws : List (Int × Int))
    (hsound : ∀ wv ∈ ws, ∃ y x, S y x ∧
      wv ∈ paintW (((y : Int) * w + x) * c) ((((h : Int) - 1 - y) * w + x) * c) r g b)
    (hcomplete : ∀ y x, S y x →
      ∀ wv ∈ paintW (((y : Int) * w + x) * c) ((((h : Int) - 1 - y) * w + x) * c) r g b, wv ∈ ws)
    (img : List Nat) (hlen : img.length = w * h * c) :
    ∃ out, applyW ws img = some out ∧ out.length = img.length ∧
      ∀ Y X ch, X < w → ch < c →
        ((ch < 3 ∧ ∃ y, S y X ∧ (Y = y ∨ Y = h - 1 - y)) →
          out.getD ((Y * w + X) * c + ch) 0 =
            ((if ch = 0 then r else if ch = 1 then g else b) % 256).toNat) ∧
        (¬ (ch < 3 ∧ ∃ y, S y X ∧ (Y = y ∨ Y = h - 1 - y)) →
          out.getD ((Y * w + X) * c + ch) 0 = img.getD ((Y * w + X) * c + ch) 0) := by
  have hb : ∀ wv ∈ ws, 0 ≤ wv.1 ∧ wv.1 < img.length := by
    intro wv hm
    obtain ⟨y, x, hs, hp⟩ := hsound wv hm
    obtain ⟨hy, hx⟩ := hS y x hs
    obtain ⟨y', a, hy', ha, h1, _⟩ := paintW_shape w h c y x r g b hy wv hp
    have hb : (y' * w + x) * c + a < w * h * c :=
      pix_bound hx (by rcases hy' with e | e <;> omega) (by omega)
    rw [h1, hlen]
    exact ⟨Int.natCast_nonneg _, by exact_mod_cast hb⟩
  obtain ⟨out, h1, h2, h3, h4⟩ := applyW_spec ws img hb
  refine ⟨out, h1, h2, ?_⟩
  intro Y X ch hX hch
  constructor
  · intro hcond
    obtain ⟨hch3, y, hs, hY⟩ := hcond
    obtain ⟨hy, _⟩ := hS y X hs
    apply h4
    · have hm := paintW_mem w h c y X r g b hy ch hch3
      rcases hY with e | e
      · subst e
        exact ⟨_, hcomplete Y X hs _ hm.1, rfl⟩
      · subst e
        exact ⟨_, hcomplete y X hs _ hm.2, rfl⟩
    · intro wv hm hit
      obtain ⟨y', x', hs', hp⟩ := hsound wv hm
      obtain ⟨hy', hx'⟩ := hS y' x' hs'
      obtain ⟨_, _, _, hv⟩ := paintW_hit w h c y' x' r g b hc hx' hy' Y X ch hX hch wv hp hit
      rw [hv]
  · intro hcond
    apply h3
    intro wv hm hit
    apply hcond
    obtain ⟨y', x', hs', hp⟩ := hsound wv hm
    obtain ⟨hy', hx'⟩ := hS y' x' hs'
    obtain ⟨e1, e2, e3, _⟩ := paintW_hit w h c y' x' r g b hc hx' hy' Y X ch hX hch wv hp hit
    subst e1
    exact ⟨e3, y', hs', e2⟩

theorem rect_spec (w h c : Nat) (r g b : Int) (hc : 3 ≤ c) (ylo yhi xlo xhi : Nat)
    (hyhi : yhi ≤ h) (hxhi : xhi ≤ w) (img : List Nat) (hlen : img.length = w * h * c) :
    ∃ out, applyW (rectW w h c r g b ylo yhi xlo xhi) img = some out ∧
      out.length = img.length ∧
      ∀ Y X ch, X < w → ch < c →
        ((ch < 3 ∧ ∃ y, ((ylo ≤ y ∧ y < yhi) ∧ xlo ≤ X ∧ X < xhi) ∧ (Y = y ∨ Y = h - 1 - y)) →
          out.getD ((Y * w + X) * c + ch) 0 =
            ((if ch = 0 then r else if ch = 1 then g else b) % 256).toNat) ∧
        (¬ (ch < 3 ∧ ∃ y, ((ylo ≤ y ∧ y < yhi) ∧ xlo ≤ X ∧ X < xhi) ∧ (Y = y ∨ Y = h - 1 - y)) →
          out.getD ((Y * w + X) * c + ch) 0 = img.getD ((Y * w + X) * c + ch) 0) := by
  apply painted_spec w h c r g b hc (fun y x => (ylo ≤ y ∧ y < yhi) ∧ xlo ≤ x ∧ x < xhi)
    (fun y x hs => ⟨by omega, by omega⟩) _ _ _ img hlen
  · intro wv hm
    obtain ⟨y, x, h1, h2, h3, h4, h5⟩ := (mem_rectW _ _ _ _ _ _ _ _ _ _ _).1 hm
    exact ⟨y, x, ⟨⟨h1, h2⟩, h3, h4⟩, h5⟩
  · intro y x hs wv hm
    exact (mem_rectW _ _ _ _ _ _ _ _ _ _ _).2 ⟨y, x, hs.1.1, hs.1.2, hs.2.1, hs.2.2, hm⟩

/-! ## Crop -/

theorem crop_sprocket_holes_spec (img : List Nat) (w h c : Nat) (hc : 3 ≤ c)
    (hlen : img.length = w * h * c) :
    ∃ out, crop_sprocket_holes img w h c = some out ∧ out.length = img.length ∧
      ∀ Y X ch, X < w → ch < c →
        ((ch < 3 ∧ (Y < h / 15 ∨ (Y < h ∧ h - 1 - Y < h / 15))) →
          out.getD ((Y * w + X) * c + ch) 0 = 0) ∧
        (¬ (ch < 3 ∧ (Y < h / 15 ∨ (Y < h ∧ h - 1 - Y < h / 15))) →
          out.getD ((Y * w + X) * c + ch) 0 = img.getD ((Y * w + X) * c + ch) 0) := by
  obtain ⟨out, h1, h2, h3⟩ := rect_spec w h c 0 0 0 hc 0 (h / 15) 0 w (by omega) (le_refl _)
    img hlen
  refine ⟨out, ?_, h2, ?_⟩
  · unfold crop_sprocket_holes
    rw [← h1]
    exact rect_loop w h c 0 0 0 0 (h / 15) 0 w img
  · intro Y X ch hX hch
    have hiff : (ch < 3 ∧ ∃ y, ((0 ≤ y ∧ y < h / 15) ∧ 0 ≤ X ∧ X < w) ∧ (Y = y ∨ Y = h - 1 - y)) ↔
        (ch < 3 ∧ (Y < h / 15 ∨ (Y < h ∧ h - 1 - Y < h / 15))) := by
      constructor
      · rintro ⟨h0, y, ⟨⟨_, hy⟩, _⟩, e | e⟩
        · exact ⟨h0, Or.inl (by omega)⟩
        · exact ⟨h0, Or.inr (by omega)⟩
      · rintro ⟨h0, e | e⟩
        · exact ⟨h0, Y, ⟨⟨by omega, e⟩, by omega, hX⟩, Or.inl rfl⟩
        · exact ⟨h0, h - 1 - Y, ⟨⟨by omega, e.2⟩, by omega, hX⟩, Or.inr (by omega)⟩
    obtain ⟨k1, k2⟩ := h3 Y X ch hX hch
    constructor
    · intro hh
      have := k1 (hiff.2 hh)
      rw [this]
      rcases (by omega : ch = 0 ∨ ch = 1 ∨ ch = 2) with e | e | e <;> subst e <;> simp
    · intro hh
      exact k2 (fun hn => hh (hiff.1 hn))

/-! ## Sprocket holes -/

theorem cdiv_some (a b : Nat) (hb : b ≠ 0) : cdiv a b = some (a / b) := by
  simp [cdiv, hb]

theorem draw_sprocket_holes_unfold (img : List Nat) (w h c : Nat) (hw : 12 ≤ w) :
    draw_sprocket_holes img w h c =
      (applyW (rectW w h c 220 150 130 0 (h / 15) 0 w) img).bind (fun img1 =>
        applyW ((List.range' 0 (w / (w / 12))).flatMap (fun k =>
          rectW w h c 240 240 240 (h / 15 / 4) (h / 15 / 4 + h / 15 / 2)
            (k * (w / 12) + w / 12 / 4) (min (k * (w / 12) + w / 12 / 4 + w / 25) w))) img1) := by
  have hsp : w / 12 ≠ 0 := by omega
  unfold draw_sprocket_holes
  simp only [Option.bind_eq_bind]
  rw [rect_loop w h c 220 150 130 0 (h / 15) 0 w img, cdiv_some _ _ hsp]
  congr 1
  funext img1
  simp only [Option.some_bind]
  rw [← forLoop_applyW]
  unfold forRange
  rw [Nat.sub_zero]
  apply forLoop_congr
  intro k im _ _
  exact rect_loop w h c 240 240 240 _ _ _ _ im

theorem draw_sprocket_holes_spec (img : List Nat) (w h c : Nat) (hc : 3 ≤ c) (hw : 12 ≤ w)
    (hlen : img.length = w * h * c) :
    ∃ out, draw_sprocket_holes img w h c = some out ∧ out.length = img.length ∧
      ∀ Y X ch, X < w → ch < c →
        ((ch < 3 ∧ ∃ y, ((h / 15 / 4 ≤ y ∧ y < h / 15 / 4 + h / 15 / 2) ∧
              ∃ k, k < w / (w / 12) ∧ k * (w / 12) + w / 12 / 4 ≤ X ∧
                X < k * (w / 12) + w / 12 / 4 + w / 25) ∧ (Y = y ∨ Y = h - 1 - y)) →
          out.getD ((Y * w + X) * c + ch) 0 = 240) ∧
        (¬ (ch < 3 ∧ ∃ y, ((h / 15 / 4 ≤ y ∧ y < h / 15 / 4 + h / 15 / 2) ∧
              ∃ k, k < w / (w / 12) ∧ k * (w / 12) + w / 12 / 4 ≤ X ∧
                X < k * (w / 12) + w / 12 / 4 + w / 25) ∧ (Y = y ∨ Y = h - 1 - y)) →
          ((ch < 3 ∧ (Y < h / 15 ∨ (Y < h ∧ h - 1 - Y < h / 15))) →
            out.getD ((Y * w + X) * c + ch) 0 = sel3 ch 220 150 130) ∧
          (¬ (ch < 3 ∧ (Y < h / 15 ∨ (Y < h ∧ h - 1 - Y < h / 15))) →
            out.getD ((Y * w + X) * c + ch) 0 = img.getD ((Y * w + X) * c + ch) 0)) := by
  obtain ⟨img1, b1, b2, b3⟩ := rect_spec w h c 220 150 130 hc 0 (h / 15) 0 w (by omega)
    (le_refl _) img hlen
  obtain ⟨out, d1, d2, d3⟩ := painted_spec w h c 240 240 240 hc
    (fun y x => (h / 15 / 4 ≤ y ∧ y < h / 15 / 4 + h / 15 / 2) ∧
      ∃ k, k < w / (w / 12) ∧ k * (w / 12) + w / 12 / 4 ≤ x ∧
        x < k * (w / 12) + w / 12 / 4 + w / 25 ∧ x < w)
    (fun y x hs => by
      obtain ⟨⟨_, hy⟩, k, _, _, _, hx⟩ := hs
      exact ⟨by omega, hx⟩)
    ((List.range' 0 (w / (w / 12))).flatMap (fun k =>
      rectW w h c 240 240 240 (h / 15 / 4) (h / 15 / 4 + h / 15 / 2)
        (k * (w / 12) + w / 12 / 4) (min (k * (w / 12) + w / 12 / 4 + w / 25) w)))
    (by
      intro wv hm
      obtain ⟨k, hk, hr⟩ := List.mem_flatMap.1 hm
      obtain ⟨y, x, h1, h2, h3, h4, h5⟩ := (mem_rectW _ _ _ _ _ _ _ _ _ _ _).1 hr
      have hk' : k < w / (w / 12) := by
        have := List.mem_range'_1.1 hk; omega
      exact ⟨y, x, ⟨⟨h1, h2⟩, k, hk', h3, by omega, by omega⟩, h5⟩)
    (by
      rintro y x ⟨⟨h1, h2⟩, k, hk, h3, h4, h5⟩ wv hm
      apply List.mem_flatMap.2
      refine ⟨k, List.mem_range'_1.2 ⟨by omega, by omega⟩, ?_⟩
      exact (mem_rectW _ _ _ _ _ _ _ _ _ _ _).2 ⟨y, x, h1, h2, h3, by omega, hm⟩)
    img1 (by rw [b2, hlen])
  refine ⟨out, ?_, by rw [d2, b2], ?_⟩
  · rw [draw_sprocket_holes_unfold img w h c hw, b1]
    exact d1
  · intro Y X ch hX hch
    obtain ⟨p1, p2⟩ := d3 Y X ch hX hch
    obtain ⟨q1, q2⟩ := b3 Y X ch hX hch
    have hiff : (ch < 3 ∧ ∃ y, ((h / 15 / 4 ≤ y ∧ y < h / 15 / 4 + h / 15 / 2) ∧
          ∃ k, k < w / (w / 12) ∧ k * (w / 12) + w / 12 / 4 ≤ X ∧
            X < k * (w / 12) + w / 12 / 4 + w / 25 ∧ X < w) ∧ (Y = y ∨ Y = h - 1 - y)) ↔
        (ch < 3 ∧ ∃ y, ((h / 15 / 4 ≤ y ∧ y < h / 15 / 4 + h / 15 / 2) ∧
          ∃ k, k < w / (w / 12) ∧ k * (w / 12) + w / 12 / 4 ≤ X ∧
            X < k * (w / 12) + w / 12 / 4 + w / 25) ∧ (Y = y ∨ Y = h - 1 - y)) := by
      constructor
      · rintro ⟨h0, y, ⟨hy, k, hk, h3, h4, _⟩, e⟩
        exact ⟨h0, y, ⟨hy, k, hk, h3, h4⟩, e⟩
      · rintro ⟨h0, y, ⟨hy, k, hk, h3, h4⟩, e⟩
        exact ⟨h0, y, ⟨hy, k, hk, h3, h4, hX⟩, e⟩
    have hbase : (ch < 3 ∧ ∃ y, ((0 ≤ y ∧ y < h / 15) ∧ 0 ≤ X ∧ X < w) ∧ (Y = y ∨ Y = h - 1 - y)) ↔
        (ch < 3 ∧ (Y < h / 15 ∨ (Y < h ∧ h - 1 - Y < h / 15))) := by
      constructor
      · rintro ⟨h0, y, ⟨⟨_, hy⟩, _⟩, e | e⟩
        · exact ⟨h0, Or.inl (by omega)⟩
        · exact ⟨h0, Or.inr (by omega)⟩
      · rintro ⟨h0, e | e⟩
        · exact ⟨h0, Y, ⟨⟨by omega, e⟩, by omega, hX⟩, Or.inl rfl⟩
        · exact ⟨h0, h - 1 - Y, ⟨⟨by omega, e.2⟩, by omega, hX⟩, Or.inr (by omega)⟩
    constructor
    · intro hh
      rw [p1 (hiff.2 hh)]
      rcases (by omega : ch = 0 ∨ ch = 1 ∨ ch = 2) with e | e | e <;> subst e <;> simp
    · intro hh
      have hout := p2 (fun hn => hh (hiff.1 hn))
      constructor
      · intro hb
        rw [hout, q1 (hbase.2 hb)]
        rcases (by omega : ch = 0 ∨ ch = 1 ∨ ch = 2) with e | e | e <;> subst e <;> simp [sel3]
      · intro hb
        rw [hout]
        exact q2 (fun hn => hb (hbase.1 hn))

/-- C9. Sprocket compositing writes exactly the specified geometry.  For a
buffer of `w * h * c` bytes with `c ≥ 3` and `w ≥ 12`, and with
`borderH = h / 15`, `holeW = w / 25`, `holeH = borderH / 2`, `spacing = w / 12`:
`draw_sprocket_holes` succeeds; every pixel `(x, y)` with `y < borderH` and its
mirror image `(x, h - 1 - y)` have first three channels `(240, 240, 240)` when
`borderH / 4 ≤ y < borderH / 4 + holeH` and some `k < w / spacing` has
`k * spacing + spacing / 4 ≤ x < k * spacing + spacing / 4 + holeW`, and
`(220, 150, 130)` otherwise; every byte of the rows `borderH .. h - 1 - borderH`
is unchanged. -/
theorem draw_sprocket_holes_geometry (img : List Nat) (w h c : Nat) (hc : 3 ≤ c) (hw : 12 ≤ w)
    (hlen : img.length = w * h * c) :
    ∃ out, draw_sprocket_holes img w h c = some out ∧ out.length = img.length ∧
      (∀ x y, x < w → y < h / 15 →
        ((h / 15 / 4 ≤ y ∧ y < h / 15 / 4 + h / 15 / 2 ∧
            ∃ k, k < w / (w / 12) ∧ k * (w / 12) + w / 12 / 4 ≤ x ∧
              x < k * (w / 12) + w / 12 / 4 + w / 25) →
          ∀ ch, ch < 3 → out.getD ((y * w + x) * c + ch) 0 = 240 ∧
            out.getD (((h - 1 - y) * w + x) * c + ch) 0 = 240) ∧
        (¬ (h / 15 / 4 ≤ y ∧ y < h / 15 / 4 + h / 15 / 2 ∧
            ∃ k, k < w / (w / 12) ∧ k * (w / 12) + w / 12 / 4 ≤ x ∧
              x < k * (w / 12) + w / 12 / 4 + w / 25) →
          ∀ ch, ch < 3 → out.getD ((y * w + x) * c + ch) 0 = sel3 ch 220 150 130 ∧
            out.getD (((h - 1 - y) * w + x) * c + ch) 0 = sel3 ch 220 150 130)) ∧
      (∀ x y ch, x < w → h / 15 ≤ y → y + h / 15 < h → ch < c →
        out.getD ((y * w + x) * c + ch) 0 = img.getD ((y * w + x) * c + ch) 0) := by
  obtain ⟨out, h1, h2, h3⟩ := draw_sprocket_holes_spec img w h c hc hw hlen
  refine ⟨out, h1, h2, ?_, ?_⟩
  · intro x y hx hy
    constructor
    · rintro ⟨r1, r2, k, hk, k1, k2⟩ ch hch
      constructor
      · exact (h3 y x ch hx (by omega)).1 ⟨hch, y, ⟨⟨r1, r2⟩, k, hk, k1, k2⟩, Or.inl rfl⟩
      · exact (h3 (h - 1 - y) x ch hx (by omega)).1
          ⟨hch, y, ⟨⟨r1, r2⟩, k, hk, k1, k2⟩, Or.inr rfl⟩
    · intro hno ch hch
      constructor
      · refine ((h3 y x ch hx (by omega)).2 ?_).1 ⟨hch, Or.inl hy⟩
        rintro ⟨_, y', ⟨⟨r1, r2⟩, k, hk, k1, k2⟩, e | e⟩
        · subst e; exact hno ⟨r1, r2, k, hk, k1, k2⟩
        · omega
      · refine ((h3 (h - 1 - y) x ch hx (by omega)).2 ?_).1 ⟨hch, Or.inr ⟨by omega, by omega⟩⟩
        rintro ⟨_, y', ⟨⟨r1, r2⟩, k, hk, k1, k2⟩, e | e⟩
        · omega
        · have : y = y' := by omega
          subst this; exact hno ⟨r1, r2, k, hk, k1, k2⟩
  · intro x y ch hx hy1 hy2 hch
    refine ((h3 y x ch hx hch).2 ?_).2 ?_
    · rintro ⟨_, y', ⟨⟨r1, r2⟩, _⟩, e | e⟩ <;> omega
    · rintro ⟨_, e | e⟩ <;> omega

/-- C9 at a concrete 12 × 30 RGB buffer. -/
theorem draw_sprocket_holes_geometry_witness :
    (3 ≤ 3 ∧ 12 ≤ 12 ∧ (List.replicate 1080 7).length = 12 * 30 * 3) ∧
    ∃ out, draw_sprocket_holes (List.replicate 1080 7) 12 30 3 = some out ∧
      out.length = (List.replicate 1080 7).length :=
  ⟨⟨by decide, by decide, List.length_replicate _ _⟩,
    (draw_sprocket_holes_geometry (List.replicate 1080 7) 12 30 3 (by decide) (by decide)
      (List.length_replicate _ _)).imp (fun _ hout => ⟨hout.1, hout.2.1⟩)⟩

/-! ## Colour cast -/

/-- The three constants are the decimal literals rounded to binary32, and the
rounding agrees with known single-precision values: `0.1f` = 0x3DCCCCCD,
`1/3` = 0x3EAAAAAB, and `2^24 + 1` is a tie that goes to the even neighbour. -/
theorem f32_round_samples :
    F32.round 115 100 = F32.c115 ∧ F32.round 105 100 = F32.c105 ∧
      F32.round 85 100 = F32.c085 ∧ F32.round 1 10 = ⟨13421773, 27⟩ ∧
      F32.round 1 3 = ⟨11184811, 25⟩ ∧ F32.round 16777217 1 = ⟨16777216, 0⟩ ∧
      F32.round 16777219 1 = ⟨16777220, 0⟩ ∧ F32.round (-3) 2 = ⟨-12582912, 23⟩ := by
  decide

theorem rgb_body (img : List Nat) (i c : Nat) (fr fg fb : Nat → Nat)
    (hr : ∀ v, fr v < 256) (hg : ∀ v, fg v < 256) (hb : ∀ v, fb v < 256)
    (h : i * c + 2 < img.length) :
    (do
      let idx : Int := (i : Int) * c
      let r ← rd img idx
      let g ← rd img (idx + 1)
      let b ← rd img (idx + 2)
      let img ← wr img idx (fr r)
      let img ← wr img (idx + 1) (fg g)
      wr img (idx + 2) (fb b)) =
    some (set3 img (i * c) (fr (img.getD (i * c) 0)) (fg (img.getD (i * c + 1) 0))
      (fb (img.getD (i * c + 2) 0))) := by
  have e : ∀ n : Nat, n < 256 → (((n : Nat) : Int) % 256).toNat = n := by
    intro n hn; omega
  simp only [idx_cast0, idx_cast1, idx_cast2]
  rw [rd_some _ _ (by omega), rd_some _ _ (by omega), rd_some _ _ (by omega)]
  simp only [Option.some_bind, Option.bind_eq_bind]
  rw [wr_natCast _ _ _ (by omega)]
  simp only [Option.some_bind]
  rw [wr_natCast _ _ _ (by simp; omega)]
  simp only [Option.some_bind]
  rw [wr_natCast _ _ _ (by simp; omega)]
  simp [set3, e _ (hr _), e _ (hg _), e _ (hb _)]

theorem clamp_lt (z : Int) : clamp z < 256 := by
  unfold clamp; split_ifs <;> omega

theorem apply_film_color_cast_spec (img : List Nat) (w h c : Nat) (hc : 3 ≤ c)
    (hlen : img.length = w * h * c) :
    ∃ out, apply_film_color_cast img w h c = some out ∧ out.length = img.length ∧
      ∀ i ch, ch < c → out.getD (i * c + ch) 0 =
        if i < w * h ∧ ch < 3 then
          sel3 ch (cast_r (img.getD (i * c) 0)) (cast_g (img.getD (i * c + 1) 0))
            (cast_b (img.getD (i * c + 2) 0))
        else img.getD (i * c + ch) 0 := by
  obtain ⟨out, h1, h2, h3⟩ := pixelLoop_spec c (w * h) hc
    (fun _ ch r g b => sel3 ch (cast_r r) (cast_g g) (cast_b b)) _
    (fun i im hi => rgb_body im i c cast_r cast_g cast_b (fun _ => clamp_lt _)
      (fun _ => clamp_lt _) (fun _ => clamp_lt _) hi) img (by omega)
  exact ⟨out, by simpa [apply_film_color_cast, forRange] using h1, h2, h3⟩

theorem remove_film_color_cast_spec (img : List Nat) (w h c : Nat) (hc : 3 ≤ c)
    (hlen : img.length = w * h * c) :
    ∃ out, remove_film_color_cast img w h c = some out ∧ out.length = img.length ∧
      ∀ i ch, ch < c → out.getD (i * c + ch) 0 =
        if i < w * h ∧ ch < 3 then
          sel3 ch (uncast_r (img.getD (i * c) 0)) (uncast_g (img.getD (i * c + 1) 0))
            (uncast_b (img.getD (i * c + 2) 0))
        else img.getD (i * c + ch) 0 := by
  obtain ⟨out, h1, h2, h3⟩ := pixelLoop_spec c (w * h) hc
    (fun _ ch r g b => sel3 ch (uncast_r r) (uncast_g g) (uncast_b b)) _
    (fun i im hi => rgb_body im i c uncast_r uncast_g uncast_b (fun _ => clamp_lt _)
      (fun _ => clamp_lt _) (fun _ => clamp_lt _) hi) img (by omega)
  exact ⟨out, by simpa [remove_film_color_cast, forRange] using h1, h2, h3⟩

set_option maxRecDepth 1000000 in
theorem cast_r_exact : ∀ r, r < 256 → cast_r r = min 255 ((r * 115 + 2000) / 100) := by
  decide!

set_option maxRecDepth 1000000 in
theorem cast_b_exact : ∀ b, b < 256 → cast_b b = b * 85 / 100 := by
  decide!

set_option maxRecDepth 1000000 in
theorem cast_g_exact : ∀ g, g < 256 → cast_g g =
    if g = 100 ∨ g = 180 ∨ g = 200 ∨ g = 220 then min 255 ((g * 105 + 1000) / 100) - 1
    else min 255 ((g * 105 + 1000) / 100) := by
  decide!

theorem getD_lt_256 (img : List Nat) (hbytes : ∀ v ∈ img, v < 256) (j : Nat) :
    img.getD j 0 < 256 := by
  by_cases hj : j < img.length
  · rw [List.getD_eq_getElem?_getD, List.getElem?_eq_getElem hj]
    exact hbytes _ (List.getElem_mem _)
  · rw [List.getD_eq_getElem?_getD, List.getElem?_eq_none (by omega)]
    simp

/-- C8, the claim as stated fails: for the pixel `(0, 100, 0)` the code stores
green `114`, while `min(255, trunc(100 * 1.05 + 10))` is `115`. -/
theorem color_cast_formula_counterexample :
    ¬ (apply_film_color_cast [0, 100, 0] 1 1 3 =
        some [min 255 ((0 * 115 + 2000) / 100), min 255 ((100 * 105 + 1000) / 100),
          0 * 85 / 100]) ∧
      apply_film_color_cast [0, 100, 0] 1 1 3 = some [20, 114, 0] := by
  decide

/-- C8, amended. On a buffer of `w * h * c` bytes (`c ≥ 3`, every byte below
256), `apply_film_color_cast` succeeds and maps the pixel `(r, g, b)` to
`r' = min(255, trunc(r * 1.15 + 20))`, `b' = trunc(b * 0.85)` with the exact
decimal products, and `g' = min(255, trunc(g * 1.05 + 10))` for every `g`
except 100, 180, 200 and 220, where the single-precision product lies just
below the integer and `g'` is one less (114, 198, 219, 240). -/
theorem apply_film_color_cast_formula (img : List Nat) (w h c : Nat) (hc : 3 ≤ c)
    (hlen : img.length = w * h * c) (hbytes : ∀ v ∈ img, v < 256) :
    ∃ out, apply_film_color_cast img w h c = some out ∧ out.length = img.length ∧
      ∀ i, i < w * h →
        out.getD (i * c) 0 = min 255 ((img.getD (i * c) 0 * 115 + 2000) / 100) ∧
        out.getD (i * c + 1) 0 =
          (if img.getD (i * c + 1) 0 = 100 ∨ img.getD (i * c + 1) 0 = 180 ∨
              img.getD (i * c + 1) 0 = 200 ∨ img.getD (i * c + 1) 0 = 220 then
            min 255 ((img.getD (i * c + 1) 0 * 105 + 1000) / 100) - 1
          else min 255 ((img.getD (i * c + 1) 0 * 105 + 1000) / 100)) ∧
        out.getD (i * c + 2) 0 = img.getD (i * c + 2) 0 * 85 / 100 := by
  obtain ⟨out, h1, h2, h3⟩ := apply_film_color_cast_spec img w h c hc hlen
  refine ⟨out, h1, h2, ?_⟩
  intro i hi
  have k0 := h3 i 0 (by omega)
  have k1 := h3 i 1 (by omega)
  have k2 := h3 i 2 (by omega)
  simp only [hi, sel3, Nat.add_zero, true_and, Nat.lt_succ_self, Nat.zero_lt_succ,
    Nat.one_lt_ofNat, if_true, if_false, Nat.succ_ne_zero, OfNat.ofNat_ne_zero,
    OfNat.ofNat_ne_one] at k0 k1 k2
  refine ⟨?_, ?_, ?_⟩
  · rw [k0]; exact cast_r_exact _ (getD_lt_256 img hbytes _)
  · rw [k1]; exact cast_g_exact _ (getD_lt_256 img hbytes _)
  · rw [k2]; exact cast_b_exact _ (getD_lt_256 img hbytes _)

/-- C8 (amended) at the two-pixel buffer `(20, 100, 20), (255, 255, 255)`. -/
theorem apply_film_color_cast_formula_witness :
    (3 ≤ 3 ∧ [20, 100, 20, 255, 255, 255].length = 2 * 1 * 3 ∧
      ∀ v ∈ [20, 100, 20, 255, 255, 255], v < 256) ∧
    ∃ out, apply_film_color_cast [20, 100, 20, 255, 255, 255] 2 1 3 = some out ∧
      out.length = [20, 100, 20, 255, 255, 255].length :=
  ⟨⟨by decide, by decide, by decide⟩,
    (apply_film_color_cast_formula [20, 100, 20, 255, 255, 255] 2 1 3 (by decide) (by decide)
      (by decide)).imp (fun _ hout => ⟨hout.1, hout.2.1⟩)⟩

/-! ## The two pipelines -/

theorem draw_sprocket_holes_narrow (img : List Nat) (w h c : Nat) (hw : w < 12) :
    draw_sprocket_holes img w h c = none := by
  have hsp : w / 12 = 0 := by omega
  unfold draw_sprocket_holes
  simp only [Option.bind_eq_bind, hsp, cdiv, if_true]
  cases forRange 0 (h / 15) _ img <;> rfl

theorem process_image_to_positive_total (decode : List Nat → Except String Decoded)
    (draws : Nat → Nat) (pos : Nat) (input : List Nat) (d : Decoded)
    (hd : decode input = .ok d) (hc : 3 ≤ d.channels)
    (hlen : d.data.length = d.width * d.height * d.channels) :
    ∃ img, process_image decode draws pos input .MODE_TO_POSITIVE =
        some (⟨some img, d.width, d.height, d.channels, 1, ""⟩, pos) ∧
      img.length = d.data.length := by
  obtain ⟨i1, a1, a2, _⟩ := crop_sprocket_holes_spec d.data d.width d.height d.channels hc hlen
  obtain ⟨i2, b1, b2, _⟩ := remove_film_color_cast_spec i1 d.width d.height d.channels hc
    (by rw [a2, hlen])
  obtain ⟨i3, c1, c2, _⟩ := apply_negative_spec i2 d.width d.height d.channels hc
    (by rw [b2, a2, hlen])
  refine ⟨i3, ?_, by rw [c2, b2, a2]⟩
  have hnc : ¬ d.channels < 3 := by omega
  simp [process_image, hd, hnc, a1, b1, c1]

theorem process_image_to_negative_total (decode : List Nat → Except String Decoded)
    (draws : Nat → Nat) (pos : Nat) (input : List Nat) (d : Decoded)
    (hd : decode input = .ok d) (hc : 3 ≤ d.channels) (hw : 12 ≤ d.width)
    (hlen : d.data.length = d.width * d.height * d.channels) :
    ∃ img, process_image decode draws pos input .MODE_TO_NEGATIVE =
        some (⟨some img, d.width, d.height, d.channels, 1, ""⟩, pos + d.width * d.height) ∧
      img.length = d.data.length := by
  obtain ⟨i1, a1, a2, _⟩ := apply_negative_spec d.data d.width d.height d.channels hc hlen
  obtain ⟨i2, b1, b2, _⟩ := apply_film_color_cast_spec i1 d.width d.height d.channels hc
    (by rw [a2, hlen])
  obtain ⟨i3, c1, c2, _⟩ := apply_grain_spec draws i2 pos d.width d.height d.channels 12 hc
    (by rw [b2, a2, hlen])
  obtain ⟨i4, d1, d2, _⟩ := draw_sprocket_holes_spec i3 d.width d.height d.channels hc hw
    (by rw [c2, b2, a2, hlen])
  refine ⟨i4, ?_, by rw [d2, c2, b2, a2]⟩
  have hnc : ¬ d.channels < 3 := by omega
  simp [process_image, hd, hnc, a1, b1, c1, d1]

/-- C2 fails on narrow images: for a valid 1 × 1 RGB buffer (any width below 12
behaves alike) `spacing = width / 12` is 0, the loop bound `width / spacing`
divides by zero, so `draw_sprocket_holes` and with it the ToNegative pipeline
of `process_image` do not run to completion. -/
theorem sprocket_division_by_zero :
    cdiv 1 (1 / 12) = none ∧
    draw_sprocket_holes [10, 20, 30] 1 1 3 = none ∧
    process_image (fun _ => .ok ⟨[10, 20, 30], 1, 1, 3⟩) (fun _ => 0) 0 []
      .MODE_TO_NEGATIVE = none := by
  decide

/-! ## C strings and `strstr` -/

theorem strstr_found (needle : List Nat) :
    ∀ (hay : List Nat) (k : Nat), k ≤ hay.length → needle <+: hay.drop k →
      (∀ j, j < k → ¬ needle <+: hay.drop j) → strstr hay needle = some k := by
  intro hay
  induction hay with
  | nil =>
    intro k hk hp _
    have : k = 0 := by simpa using hk
    subst this
    simp only [strstr]
    rw [if_pos (List.isPrefixOf_iff_prefix.2 (by simpa using hp))]
  | cons c t ih =>
    intro k hk hp hno
    cases k with
    | zero =>
      simp only [strstr]
      rw [if_pos (List.isPrefixOf_iff_prefix.2 (by simpa using hp))]
    | succ k =>
      have h0 : ¬ needle <+: (c :: t) := by simpa using hno 0 (by omega)
      simp only [strstr]
      rw [if_neg (fun h => h0 (List.isPrefixOf_iff_prefix.1 h))]
      rw [ih k (by simpa using hk) (by simpa using hp)
        (fun j hj => by simpa using hno (j + 1) (by omega))]
      rfl

theorem strstr_not_found (needle : List Nat) :
    ∀ (hay : List Nat), (∀ j, j ≤ hay.length → ¬ needle <+: hay.drop j) →
      strstr hay needle = none := by
  intro hay
  induction hay with
  | nil =>
    intro hno
    have h0 : ¬ needle <+: [] := by simpa using hno 0 (by simp)
    simp only [strstr]
    rw [if_neg (fun h => h0 (List.isPrefixOf_iff_prefix.1 h))]
  | cons c t ih =>
    intro hno
    have h0 : ¬ needle <+: (c :: t) := by simpa using hno 0 (by simp)
    simp only [strstr]
    rw [if_neg (fun h => h0 (List.isPrefixOf_iff_prefix.1 h))]
    rw [ih (fun j hj => by simpa using hno (j + 1) (by simpa using hj))]
    rfl

theorem strstr_some_spec (needle : List Nat) :
    ∀ (hay : List Nat) (k : Nat), strstr hay needle = some k →
      k ≤ hay.length ∧ needle <+: hay.drop k ∧ ∀ j, j < k → ¬ needle <+: hay.drop j := by
  intro hay
  induction hay with
  | nil =>
    intro k h
    simp only [strstr] at h
    split_ifs at h with hp
    have : k = 0 := by simpa using h.symm
    subst this
    exact ⟨le_refl _, by simpa using List.isPrefixOf_iff_prefix.1 hp, fun j hj => by omega⟩
  | cons c t ih =>
    intro k h
    simp only [strstr] at h
    split_ifs at h with hp
    · have : k = 0 := by simpa using h.symm
      subst this
      exact ⟨by simp, by simpa using List.isPrefixOf_iff_prefix.1 hp, fun j hj => by omega⟩
    · cases hs : strstr t needle with
      | none => rw [hs] at h; simp at h
      | some k' =>
        rw [hs] at h
        have hk : k = k' + 1 := by simpa using h.symm
        subst hk
        obtain ⟨a1, a2, a3⟩ := ih k' hs
        refine ⟨by simpa using a1, by simpa using a2, ?_⟩
        intro j hj
        cases j with
        | zero => simpa using fun hh => hp (List.isPrefixOf_iff_prefix.2 hh)
        | succ j => simpa using a3 j (by omega)

theorem cstr_of_nonzero (l : List Nat) (h : ∀ b ∈ l, b ≠ 0) : cstr l = l := by
  unfold cstr
  rw [List.takeWhile_eq_self_iff]
  intro b hb
  simpa using h b hb

theorem cstr_append_nonzero (l r : List Nat) (h : ∀ b ∈ l, b ≠ 0) :
    cstr (l ++ r) = l ++ cstr r := by
  unfold cstr
  rw [List.takeWhile_append_of_pos]
  intro b hb
  simpa using h b hb

theorem cstr_initial (l : List Nat) : cstr l <+: l := by
  unfold cstr
  exact List.takeWhile_prefix _

theorem str_blank : str "\r\n\r\n" = [13, 10, 13, 10] := by decide

theorem str_crlf : str "\r\n" = [13, 10] := by decide

theorem str_crlf_dashes : str "\r\n--" = [13, 10, 45, 45] := by decide

theorem str_dashes : str "--" = [45, 45] := by decide

/-- In `H ++ CR LF CR LF ++ R` the first blank line is the one after `H` when
`H` holds none and does not end in CR LF. -/
theorem blank_line_first (H R : List Nat) (hno : ¬ [13, 10, 13, 10] <:+: H)
    (hend : ¬ [13, 10] <:+ H) :
    strstr (H ++ [13, 10, 13, 10] ++ R) [13, 10, 13, 10] = some H.length := by
  apply strstr_found
  · simp
  · simp [List.append_assoc]
  · intro j hj hp
    rw [List.append_assoc, List.drop_append_of_le_length (by omega)] at hp
    have hsuf : H.drop j <:+ H := List.drop_suffix _ _
    have hlen : (H.drop j).length = H.length - j := List.length_drop _ _
    rcases hq : H.drop j with _ | ⟨a, _ | ⟨b, _ | ⟨c, _ | ⟨d, Q⟩⟩⟩⟩
    · rw [hq] at hlen; simp at hlen; omega
    · rw [hq] at hp; simp at hp
    · rw [hq] at hp hsuf
      simp at hp
      obtain ⟨rfl, rfl⟩ := hp
      exact hend hsuf
    · rw [hq] at hp; simp at hp
    · rw [hq] at hp hsuf
      simp at hp
      obtain ⟨rfl, rfl, rfl, rfl⟩ := hp
      apply hno
      exact List.IsInfix.trans ⟨[], Q, by simp⟩ hsuf.isInfix

/-- The pattern-3 loop never stops for lack of fuel: once `fuel` exceeds the
distance from `temp` to the end of the body, more fuel changes nothing. -/
theorem pattern3_loop_fuel (body : List Nat) (ds : Nat) (pat : List Nat) (hpat : pat ≠ []) :
    ∀ (fuel temp extra : Nat), body.length < temp + fuel →
      pattern3_loop body ds pat (fuel + extra) temp = pattern3_loop body ds pat fuel temp := by
  intro fuel
  induction fuel with
  | zero =>
    intro temp extra h
    cases extra with
    | zero => rfl
    | succ e =>
      have hd : body.drop (temp + 1) = [] := List.drop_of_length_le (by omega)
      have hn : strstr (cstr []) pat = none := by
        cases pat with
        | nil => exact absurd rfl hpat
        | cons a t => rfl
      simp only [Nat.zero_add, pattern3_loop, hd, hn]
  | succ f ih =>
    intro temp extra h
    have e : f + 1 + extra = (f + extra) + 1 := by omega
    rw [e]
    simp only [pattern3_loop]
    cases strstr (cstr (body.drop (temp + 1))) pat with
    | none => rfl
    | some k =>
      simp only []
      rw [ih (temp + 1 + k) extra (by omega)]

theorem strstr_none_of_absent (X needle hay L : List Nat) (hX : X <:+: needle)
    (hsub : hay <:+: L) (hno : ¬ X <:+: L) : strstr hay needle = none := by
  apply strstr_not_found
  intro j _ hp
  apply hno
  have h1 : needle <:+: hay := List.IsInfix.trans hp.isInfix (List.drop_suffix j hay).isInfix
  exact List.IsInfix.trans hX (List.IsInfix.trans h1 hsub)

theorem take_of_length_le (l : List Nat) (n : Nat) (h : l.length ≤ n) : l.take n = l :=
  List.take_of_length_le h

theorem trim_end_keep (body : List Nat) (ds e : Nat)
    (h : body.getD e 0 ≠ 13 ∧ body.getD e 0 ≠ 10 ∧ body.getD e 0 ≠ 45) :
    trim_end body ds (e + 1) = e + 1 := by
  unfold trim_end
  rw [if_neg]
  rintro ⟨_, h1 | h1 | h1⟩
  · exact h.1 h1
  · exact h.2.1 h1
  · exact h.2.2 h1

/-! ## The memory behind the body -/

theorem cstr_length_le (l : List Nat) : (cstr l).length ≤ l.length :=
  (cstr_initial l).length_le

theorem trim_end_le (body : List Nat) (ds : Nat) : ∀ n, trim_end body ds n ≤ n := by
  intro n
  induction n with
  | zero => simp [trim_end]
  | succ e ih =>
    unfold trim_end
    split
    · omega
    · omega

theorem strstr_bound (hay needle : List Nat) (k : Nat) (h : strstr hay needle = some k) :
    k + needle.length ≤ hay.length := by
  obtain ⟨h1, h2, _⟩ := strstr_some_spec needle hay k h
  have := h2.length_le
  rw [List.length_drop] at this
  omega

theorem pattern3_loop_le (body : List Nat) (ds : Nat) (pat : List Nat) (hpat : pat ≠ []) :
    ∀ (fuel temp e : Nat), pattern3_loop body ds pat fuel temp = some e → e ≤ body.length := by
  intro fuel
  induction fuel with
  | zero => intro temp e h; simp [pattern3_loop] at h
  | succ f ih =>
    intro temp e h
    simp only [pattern3_loop] at h
    cases hk : strstr (cstr (body.drop (temp + 1))) pat with
    | none => rw [hk] at h; simp at h
    | some k =>
      rw [hk] at h
      simp only [] at h
      split_ifs at h with hc
      · have hb := strstr_bound _ _ _ hk
        have hl := cstr_length_le (body.drop (temp + 1))
        rw [List.length_drop] at hl
        have hp : 0 < pat.length := List.length_pos.2 hpat
        have : e = temp + 1 + k - 2 := by simpa using h.symm
        omega
      · exact ih _ _ h

theorem pattern3_ne_nil (boundary : List Nat) : (str "--" ++ boundary).take 299 ≠ [] := by
  rw [str_dashes]
  simp

theorem cstr_append_zero (l s : List Nat) : cstr (l ++ 0 :: s) = cstr l := by
  unfold cstr
  induction l with
  | nil => simp [List.takeWhile_cons]
  | cons a t ih =>
    simp only [List.cons_append, List.takeWhile_cons]
    split
    · rw [ih]
    · rfl

theorem body_memory_length (stale body : List Nat) :
    (body_memory stale body).length = body.length + 1 + stale.length := by
  simp [body_memory]
  omega

theorem body_memory_drop (stale body : List Nat) (p : Nat) (hp : p ≤ body.length) :
    (body_memory stale body).drop p = body.drop p ++ 0 :: stale := by
  unfold body_memory
  rw [List.drop_append_of_le_length hp]

theorem body_memory_cstr_drop (stale body : List Nat) (p : Nat) (hp : p ≤ body.length) :
    cstr ((body_memory stale body).drop p) = cstr (body.drop p) := by
  rw [body_memory_drop stale body p hp, cstr_append_zero]

theorem body_memory_cstr (stale body : List Nat) : cstr (body_memory stale body) = cstr body := by
  unfold body_memory
  rw [cstr_append_zero]

theorem body_memory_getD (stale body : List Nat) (e : Nat) (he : e < body.length) :
    (body_memory stale body).getD e 0 = body.getD e 0 := by
  unfold body_memory
  rw [List.getD_eq_getElem?_getD, List.getD_eq_getElem?_getD, List.getElem?_append_left he]

theorem body_memory_take (stale body : List Nat) (s n : Nat) (h : s + n ≤ body.length) :
    ((body_memory stale body).drop s).take n = (body.drop s).take n := by
  rw [body_memory_drop stale body s (by omega), List.take_append_of_le_length]
  rw [List.length_drop]
  omega

theorem trim_end_in_body (stale body : List Nat) (ds : Nat) :
    ∀ n, n ≤ body.length → trim_end (body_memory stale body) ds n = trim_end body ds n := by
  intro n
  induction n with
  | zero => intro _; rfl
  | succ e ih =>
    intro he
    simp only [trim_end]
    rw [body_memory_getD stale body e (by omega), ih (by omega)]

theorem pattern3_loop_in_body (stale body : List Nat) (ds : Nat) (pat : List Nat)
    (hpat : pat ≠ []) :
    ∀ (fuel temp : Nat), temp + 1 ≤ body.length →
      pattern3_loop (body_memory stale body) ds pat fuel temp =
        pattern3_loop body ds pat fuel temp := by
  intro fuel
  induction fuel with
  | zero => intro temp _; rfl
  | succ f ih =>
    intro temp ht
    simp only [pattern3_loop]
    rw [body_memory_cstr_drop stale body (temp + 1) ht]
    cases hk : strstr (cstr (body.drop (temp + 1))) pat with
    | none => rfl
    | some k =>
      simp only []
      have hb := strstr_bound _ _ _ hk
      have hl := cstr_length_le (body.drop (temp + 1))
      rw [List.length_drop] at hl
      have hp : 0 < pat.length := List.length_pos.2 hpat
      by_cases h2 : temp + 1 + k ≥ 2
      · rw [body_memory_getD stale body (temp + 1 + k - 2) (by omega),
          body_memory_getD stale body (temp + 1 + k - 1) (by omega), ih (temp + 1 + k) (by omega)]
      · have hc : ¬ temp + 1 + k > ds + 2 := by omega
        rw [if_neg (fun h => hc h.1), if_neg (fun h => hc h.1), ih (temp + 1 + k) (by omega)]

theorem data_end_within_le (body boundary : List Nat) (k : Nat) (hk : k + 4 ≤ body.length) :
    data_end_within body boundary k ≤ body.length := by
  unfold data_end_within
  simp only []
  split
  · rename_i e1 h1
    split at h1
    · rename_i e2 h2
      have := strstr_bound _ _ _ h2
      have hl := cstr_length_le (body.drop (k + 4))
      rw [List.length_drop] at hl
      simp only [Option.some.injEq] at h1
      omega
    · split at h1
      · rename_i e2 h2
        have := strstr_bound _ _ _ h2
        have hl := cstr_length_le (body.drop (k + 4))
        rw [List.length_drop] at hl
        simp only [Option.some.injEq] at h1
        omega
      · exact pattern3_loop_le body (k + 4) _ (pattern3_ne_nil boundary) _ _ _ h1
  · exact trim_end_le body (k + 4) body.length

/-- For a body that goes on behind its first blank line, at offset `k`, no
search starts behind the end of the body and the offsets located are those
computed on the body bytes alone. -/
theorem locate_payload_in_body (stale body boundary : List Nat) (k : Nat)
    (hk : strstr (cstr body) (str "\r\n\r\n") = some k) (hlt : k + 4 < body.length) :
    locate_payload stale body boundary = some (k + 4, data_end_within body boundary k) := by
  have hne : body.length ≠ 0 := by omega
  have hf : pattern3_loop (body_memory stale body) (k + 4) ((str "--" ++ boundary).take 299)
      ((body_memory stale body).length + 1) (k + 4) =
      pattern3_loop body (k + 4) ((str "--" ++ boundary).take 299) (body.length + 1) (k + 4) := by
    rw [pattern3_loop_in_body stale body (k + 4) _ (pattern3_ne_nil boundary) _ _ (by omega),
      body_memory_length]
    have e : body.length + 1 + stale.length + 1 = (body.length + 1) + (stale.length + 1) := by
      omega
    rw [e, pattern3_loop_fuel body (k + 4) _ (pattern3_ne_nil boundary) _ _ _ (by omega)]
  unfold locate_payload data_end_within
  rw [if_neg hne]
  simp only [body_memory_cstr, hk, body_memory_cstr_drop stale body (k + 4) (by omega), hf,
    trim_end_in_body stale body (k + 4) body.length (le_refl _)]

theorem parse_multipart_image_eq (stale body boundary : List Nat) :
    parse_multipart_image stale body boundary =
      match locate_payload stale body boundary with
      | none => none
      | some (s, e) =>
        if e - s = 0 ∨ e - s > MAX_BUFFER then none
        else some (((body_memory stale body).drop s).take (e - s)) := by
  unfold parse_multipart_image locate_payload
  split
  · rfl
  · simp only []
    split <;> rfl

/-- For a body that goes on behind its first blank line, at offset `k`, the
extraction is the one computed on the body bytes alone, whatever memory holds
behind the body. -/
theorem parse_multipart_image_in_body (stale body boundary : List Nat) (k : Nat)
    (hk : strstr (cstr body) (str "\r\n\r\n") = some k) (hlt : k + 4 < body.length) :
    parse_multipart_image stale body boundary =
      if data_end_within body boundary k - (k + 4) = 0 ∨
          data_end_within body boundary k - (k + 4) > MAX_BUFFER then none
      else some ((body.drop (k + 4)).take (data_end_within body boundary k - (k + 4))) := by
  have hle := data_end_within_le body boundary k (by omega)
  rw [parse_multipart_image_eq, locate_payload_in_body stale body boundary k hk hlt]
  simp only []
  rw [body_memory_take stale body (k + 4) _ (by omega)]

set_option maxRecDepth 100000 in
/-- C4, the claim as stated fails: the fallback trims trailing CR, LF and `-`
bytes of the payload (`"DATA-"` comes back as `"DATA"`, a payload of `"-"`
alone is rejected); a header block that ends in CR LF moves the blank line
forward so that the payload comes back with CR LF in front; and a boundary of
296 characters is cut by the 300-byte pattern buffer, so that a payload
without `"--" B` is cut at the shortened pattern. -/
theorem parse_multipart_missing_terminator_counterexample :
    (∀ stale, parse_multipart_image stale (str "X: y" ++ str "\r\n\r\n" ++ str "DATA-")
        (str "b") = some (str "DATA")) ∧
      (∀ stale, parse_multipart_image stale (str "X: y" ++ str "\r\n\r\n" ++ str "-")
        (str "b") = none) ∧
      (∀ stale, parse_multipart_image stale (str "X: y\r\n" ++ str "\r\n\r\n" ++ str "DATA")
        (str "b") = some (str "\r\nDATA")) ∧
      (¬ (str "--" ++ List.replicate 296 97) <:+:
          (str "x\r\n--" ++ List.replicate 295 97 ++ str "z") ∧
        ∀ stale, parse_multipart_image stale
          (str "X: y" ++ str "\r\n\r\n" ++ (str "x\r\n--" ++ List.replicate 295 97 ++ str "z"))
          (List.replicate 296 97) = some (str "x")) := by
  refine ⟨fun stale => ?_, fun stale => ?_, fun stale => ?_, by decide, fun stale => ?_⟩
  · rw [parse_multipart_image_in_body stale _ _ 4 (by decide) (by decide)]
    decide
  · rw [parse_multipart_image_in_body stale _ _ 4 (by decide) (by decide)]
    decide
  · rw [parse_multipart_image_in_body stale _ _ 4 (by decide) (by decide)]
    decide
  · rw [parse_multipart_image_in_body stale _ _ 4 (by decide) (by decide)]
    decide

/-- C4, amended. For every boundary `B` of at most 295 characters, every header
block `H` free of zero bytes that contains no CR LF CR LF and does not end in
CR LF, and every non-empty payload `P` of at most 20971520 bytes (zero bytes
allowed) that contains no `"--" B` and does not end in CR, LF or `-`:
`parse_multipart_image` applied to `H ++ CRLFCRLF ++ P` returns exactly `P`. -/
theorem parse_multipart_missing_terminator (stale B H P : List Nat) (hB : B.length ≤ 295)
    (hH0 : ∀ b ∈ H, b ≠ 0) (hH : ¬ str "\r\n\r\n" <:+: H) (hHend : ¬ str "\r\n" <:+ H)
    (hP : P ≠ []) (hPlen : P.length ≤ MAX_BUFFER) (hPB : ¬ (str "--" ++ B) <:+: P)
    (hlast : ∀ b, P.getLast? = some b → b ≠ 13 ∧ b ≠ 10 ∧ b ≠ 45) :
    parse_multipart_image stale (H ++ str "\r\n\r\n" ++ P) B = some P := by
  rw [str_blank] at hH ⊢
  rw [str_crlf] at hHend
  rw [str_dashes] at hPB
  have hPpos : 0 < P.length := List.length_pos.2 hP
  have hbody : (H ++ [13, 10, 13, 10] ++ P).length = H.length + 4 + P.length := by
    simp; omega
  have hcs : cstr (H ++ [13, 10, 13, 10] ++ P) = H ++ [13, 10, 13, 10] ++ cstr P := by
    rw [List.append_assoc, cstr_append_nonzero _ _ hH0,
      cstr_append_nonzero [13, 10, 13, 10] P (by decide), List.append_assoc]
  have hdrop : (H ++ [13, 10, 13, 10] ++ P).drop (H.length + 4) = P := by
    rw [List.drop_append_of_le_length (by simp)]
    simp
  have hdrop1 : (H ++ [13, 10, 13, 10] ++ P).drop (H.length + 4 + 1) = P.drop 1 := by
    rw [← List.drop_drop, hdrop]
  have hpat : ∀ T : List Nat, ([45, 45] ++ B) <:+: (str "\r\n--" ++ B ++ T).take 299 := by
    intro T
    rw [List.take_append_eq_append_take, take_of_length_le _ _
      (by simp [str_crlf_dashes]; omega)]
    exact ⟨[13, 10], List.take (299 - (str "\r\n--" ++ B).length) T,
      by simp [str_crlf_dashes]⟩
  have p1 : strstr (cstr P) ((str "\r\n--" ++ B ++ str "--").take 299) = none :=
    strstr_none_of_absent ([45, 45] ++ B) _ _ P (hpat _) (cstr_initial P).isInfix hPB
  have p2 : strstr (cstr P) ((str "\r\n--" ++ B ++ str "\r\n").take 299) = none :=
    strstr_none_of_absent ([45, 45] ++ B) _ _ P (hpat _) (cstr_initial P).isInfix hPB
  have p3 : strstr (cstr (P.drop 1)) ((str "--" ++ B).take 299) = none := by
    rw [take_of_length_le _ _ (by simp [str_dashes]; omega)]
    refine strstr_none_of_absent ([45, 45] ++ B) _ _ P ?_
      (List.IsInfix.trans (cstr_initial _).isInfix (List.drop_suffix 1 P).isInfix) hPB
    rw [str_dashes]
  have htrim : trim_end (H ++ [13, 10, 13, 10] ++ P) (H.length + 4)
      (H ++ [13, 10, 13, 10] ++ P).length = H.length + 4 + P.length := by
    rw [hbody]
    have e : H.length + 4 + P.length = (H.length + 4 + P.length - 1) + 1 := by omega
    rw [e]
    rw [trim_end_keep]
    apply hlast
    rw [List.getLast?_eq_getElem?, List.getD_eq_getElem?_getD,
      List.getElem?_append_right (by simp; omega)]
    have hi : H.length + 4 + P.length - 1 - (H ++ [13, 10, 13, 10]).length = P.length - 1 := by
      simp; omega
    rw [hi, List.getElem?_eq_getElem (by omega)]
    simp
  have hk : strstr (cstr (H ++ [13, 10, 13, 10] ++ P)) (str "\r\n\r\n") = some H.length := by
    rw [str_blank, hcs, blank_line_first H (cstr P) hH hHend]
  rw [parse_multipart_image_in_body stale _ B H.length hk (by rw [hbody]; omega)]
  unfold data_end_within
  simp only [hdrop, p1, p2]
  rw [pattern3_loop]
  simp only [hdrop1, p3, htrim]
  have hsz : H.length + 4 + P.length - (H.length + 4) = P.length := by omega
  rw [hsz, if_neg (by omega)]
  simp

/-- A pattern whose first byte does not recur in it cannot start inside `P`
and run into the copy of the pattern that follows `P`. -/
theorem no_early_match (P R rest : List Nat) (c : Nat) (hc : c ∉ rest)
    (hno : ¬ (c :: rest) <:+: P) :
    ∀ j, j < P.length → ¬ (c :: rest) <+: (P ++ (c :: rest) ++ R).drop j := by
  intro j hj hp
  rw [List.append_assoc, List.drop_append_of_le_length (by omega)] at hp
  have hsuf : P.drop j <:+ P := List.drop_suffix _ _
  have hQlen : (P.drop j).length = P.length - j := List.length_drop _ _
  generalize P.drop j = Q at hp hsuf hQlen
  have hQpre : Q <+: Q ++ (c :: rest ++ R) := List.prefix_append _ _
  by_cases hle : (c :: rest).length ≤ Q.length
  · have : (c :: rest) <+: Q := List.prefix_of_prefix_length_le hp hQpre hle
    exact hno (List.IsInfix.trans this.isInfix hsuf.isInfix)
  · have hQp : Q <+: (c :: rest) := List.prefix_of_prefix_length_le hQpre hp (by omega)
    obtain ⟨X, hX⟩ := hQp
    rw [← hX] at hp
    have hXp : X <+: (Q ++ X) ++ R := by
      have := (List.prefix_append_right_inj Q).1 (by simpa [List.append_assoc] using hp)
      simpa [List.append_assoc] using this
    cases Q with
    | nil => simp at hQlen; omega
    | cons q Q' =>
      cases X with
      | nil =>
        have : (q :: Q').length = (c :: rest).length := by rw [← hX]; simp
        omega
      | cons x X' =>
        simp only [List.cons_append, List.cons.injEq] at hX
        obtain ⟨hq, hrest⟩ := hX
        have hx : x = q := by
          simp only [List.cons_append] at hXp
          exact (List.cons_prefix_cons.1 hXp).1
        apply hc
        rw [← hrest, hx, hq]
        simp

theorem found_after (P pat T : List Nat)
    (hno : ∀ j, j < P.length → ¬ pat <+: (P ++ pat ++ T).drop j) :
    strstr (P ++ pat ++ T) (pat ++ T) = some P.length := by
  apply strstr_found
  · simp
  · rw [List.append_assoc, List.drop_append_of_le_length (le_refl _)]
    simp
  · intro j hj hp
    exact hno j hj (List.IsPrefix.trans (List.prefix_append pat T) hp)

theorem final_pattern_absent (P pat : List Nat)
    (hno : ∀ j, j < P.length → ¬ pat <+: (P ++ pat ++ [13, 10]).drop j) :
    strstr (P ++ pat ++ [13, 10]) (pat ++ [45, 45]) = none := by
  apply strstr_not_found
  intro j _ hp
  by_cases hj : j < P.length
  · exact hno j hj (List.IsPrefix.trans (List.prefix_append pat _) hp)
  · have hlen := hp.length_le
    simp only [List.length_drop, List.length_append, List.length_cons, List.length_nil] at hlen
    have hjP : j = P.length := by omega
    subst hjP
    rw [List.append_assoc, List.drop_append_of_le_length (le_refl _)] at hp
    rw [List.drop_length, List.nil_append] at hp
    have := (List.prefix_append_right_inj pat).1 hp
    simp at this

/-- The terminated extraction for a payload without zero byte.  For every
boundary `B` of at most 255 characters that holds no zero byte and no CR,
every header block `H` free of zero bytes that contains no CR LF CR LF and
does not end in CR LF, and every non-empty payload `P` of at most 20971520
bytes that holds no zero byte and no `CRLF "--" B`: `parse_multipart_image`
applied to `H ++ CRLFCRLF ++ P ++ CRLF ++ "--" ++ B ++ T`, with `T` either
`"--"` or CRLF, returns exactly `P`, whatever memory holds behind the body. -/
theorem parse_multipart_terminated (stale B H P T : List Nat) (hB : B.length ≤ 255)
    (hB0 : ∀ b ∈ B, b ≠ 0) (hBcr : ∀ b ∈ B, b ≠ 13)
    (hH0 : ∀ b ∈ H, b ≠ 0) (hH : ¬ str "\r\n\r\n" <:+: H) (hHend : ¬ str "\r\n" <:+ H)
    (hP : P ≠ []) (hPlen : P.length ≤ MAX_BUFFER) (hP0 : ∀ b ∈ P, b ≠ 0)
    (hPB : ¬ (str "\r\n" ++ str "--" ++ B) <:+: P)
    (hT : T = str "--" ∨ T = str "\r\n") :
    parse_multipart_image stale
      (H ++ str "\r\n\r\n" ++ P ++ str "\r\n" ++ str "--" ++ B ++ T) B = some P := by
  rw [str_blank] at hH
  rw [str_crlf] at hHend
  rw [str_crlf, str_dashes] at hPB
  rw [str_crlf, str_dashes] at hT
  have hPpos : 0 < P.length := List.length_pos.2 hP
  have hT0 : ∀ b ∈ T, b ≠ 0 := by
    rcases hT with e | e <;> subst e <;> decide
  have hTlen : T.length = 2 := by
    rcases hT with e | e <;> subst e <;> rfl
  have hsmall : ∀ b : Nat, b ∈ [13, 10, 13, 10] ∨ b ∈ [10, 45, 45] → b ≠ 0 := by
    intro b hb
    simp at hb
    omega
  have hbody : H ++ str "\r\n\r\n" ++ P ++ str "\r\n" ++ str "--" ++ B ++ T =
      H ++ [13, 10, 13, 10] ++ (P ++ (13 :: ([10, 45, 45] ++ B)) ++ T) := by
    simp [str_blank, str_crlf, str_dashes, List.append_assoc]
  have hdata0 : ∀ b ∈ P ++ (13 :: ([10, 45, 45] ++ B)) ++ T, b ≠ 0 := by
    intro b hb
    rcases List.mem_append.1 hb with h | h
    · rcases List.mem_append.1 h with h' | h'
      · exact hP0 b h'
      · rcases List.mem_cons.1 h' with e | e
        · omega
        · rcases List.mem_append.1 e with e' | e'
          · exact hsmall b (Or.inr e')
          · exact hB0 b e'
    · exact hT0 b h
  have hno : ∀ j, j < P.length →
      ¬ (13 :: ([10, 45, 45] ++ B)) <+: (P ++ (13 :: ([10, 45, 45] ++ B)) ++ T).drop j := by
    apply no_early_match
    · intro hmem
      simp only [List.mem_append, List.mem_cons, List.mem_singleton, List.not_mem_nil,
        or_false] at hmem
      rcases hmem with (h | h | h) | h
      · omega
      · omega
      · omega
      · exact hBcr 13 h rfl
    · simpa [List.append_assoc] using hPB
  have hp1 : (str "\r\n--" ++ B ++ str "--").take 299 = (13 :: ([10, 45, 45] ++ B)) ++ [45, 45] := by
    rw [take_of_length_le _ _ (by simp [str_crlf_dashes, str_dashes]; omega)]
    simp [str_crlf_dashes, str_dashes]
  have hp2 : (str "\r\n--" ++ B ++ str "\r\n").take 299 = (13 :: ([10, 45, 45] ++ B)) ++ [13, 10] := by
    rw [take_of_length_le _ _ (by simp [str_crlf_dashes, str_crlf]; omega)]
    simp [str_crlf_dashes, str_crlf]
  have hlen : (H ++ [13, 10, 13, 10] ++ (P ++ (13 :: ([10, 45, 45] ++ B)) ++ T)).length ≠ 0 := by
    simp
  have hcs : cstr (H ++ [13, 10, 13, 10] ++ (P ++ (13 :: ([10, 45, 45] ++ B)) ++ T)) =
      H ++ [13, 10, 13, 10] ++ (P ++ (13 :: ([10, 45, 45] ++ B)) ++ T) := by
    apply cstr_of_nonzero
    intro b hb
    rcases List.mem_append.1 hb with h | h
    · rcases List.mem_append.1 h with h' | h'
      · exact hH0 b h'
      · exact hsmall b (Or.inl h')
    · exact hdata0 b h
  have hdrop : (H ++ [13, 10, 13, 10] ++ (P ++ (13 :: ([10, 45, 45] ++ B)) ++ T)).drop
      (H.length + 4) = P ++ (13 :: ([10, 45, 45] ++ B)) ++ T := by
    rw [List.drop_append_of_le_length (by simp)]
    simp
  have htake : (P ++ (13 :: ([10, 45, 45] ++ B)) ++ T).take P.length = P := by
    rw [List.append_assoc, List.take_append_of_le_length (le_refl _)]
    simp
  rw [hbody]
  have hk : strstr (cstr (H ++ [13, 10, 13, 10] ++ (P ++ (13 :: ([10, 45, 45] ++ B)) ++ T)))
      (str "\r\n\r\n") = some H.length := by
    rw [str_blank, hcs, blank_line_first H _ hH hHend]
  rw [parse_multipart_image_in_body stale _ B H.length hk
    (by simp only [List.length_append, List.length_cons, List.length_nil]; omega)]
  unfold data_end_within
  simp only [hdrop, cstr_of_nonzero _ hdata0, hp1, hp2]
  have hsz : H.length + 4 + P.length - (H.length + 4) = P.length := by omega
  rcases hT with e | e
  · subst e
    rw [found_after P _ [45, 45] hno]
    simp only [hsz]
    rw [if_neg (by omega), htake]
  · subst e
    rw [final_pattern_absent P _ hno, found_after P _ [13, 10] hno]
    simp only [hsz]
    rw [if_neg (by omega), htake]

set_option maxRecDepth 100000 in
/-- C1 fails for a payload with a zero byte, which the claim names and every
PNG or JPEG file holds.  The searches for the boundary are string searches and
stop at the first zero byte of the payload, so the terminator behind it is not
found and the fallback returns everything up to the end of the body, less
trailing CR, LF and `-` bytes: the payload `A`, zero comes back with
`CRLF "--b"` behind it, and so do the first 16 bytes of a PNG file, for the
final and for the non-final terminator.  What does hold: for every boundary
`B` of at most 255 characters that holds no zero byte and no CR, every header
block `H` free of zero bytes that contains no CR LF CR LF and does not end in
CR LF, and every non-empty payload `P` of at most 20971520 bytes that holds no
zero byte and no `CRLF "--" B`, the extraction from
`H ++ CRLFCRLF ++ P ++ CRLF ++ "--" ++ B ++ T`, with `T` either `"--"` or CRLF,
returns exactly `P`. -/
theorem parse_multipart_zero_byte_payload :
    (∀ stale, parse_multipart_image stale
        (str "X: y" ++ str "\r\n\r\n" ++ [65, 0] ++ str "\r\n" ++ str "--" ++ str "b" ++ str "--")
        (str "b") = some ([65, 0] ++ str "\r\n--b")) ∧
    (∀ stale, parse_multipart_image stale
        (str "Content-Disposition: form-data; name=\"image\"; filename=\"a.png\"\r\nContent-Type: image/png" ++
          str "\r\n\r\n" ++ [137, 80, 78, 71, 13, 10, 26, 10, 0, 0, 0, 13, 73, 72, 68, 82] ++
          str "\r\n" ++ str "--" ++ str "XyZ" ++ str "--")
        (str "XyZ") =
      some ([137, 80, 78, 71, 13, 10, 26, 10, 0, 0, 0, 13, 73, 72, 68, 82] ++ str "\r\n--XyZ")) ∧
    (∀ stale, parse_multipart_image stale
        (str "Content-Disposition: form-data; name=\"image\"; filename=\"a.png\"\r\nContent-Type: image/png" ++
          str "\r\n\r\n" ++ [137, 80, 78, 71, 13, 10, 26, 10, 0, 0, 0, 13, 73, 72, 68, 82] ++
          str "\r\n" ++ str "--" ++ str "XyZ" ++ str "\r\n")
        (str "XyZ") =
      some ([137, 80, 78, 71, 13, 10, 26, 10, 0, 0, 0, 13, 73, 72, 68, 82] ++ str "\r\n--XyZ")) ∧
    (∀ stale B H P T : List Nat, B.length ≤ 255 → (∀ b ∈ B, b ≠ 0) → (∀ b ∈ B, b ≠ 13) →
      (∀ b ∈ H, b ≠ 0) → ¬ str "\r\n\r\n" <:+: H → ¬ str "\r\n" <:+ H →
      P ≠ [] → P.length ≤ MAX_BUFFER → (∀ b ∈ P, b ≠ 0) →
      ¬ (str "\r\n" ++ str "--" ++ B) <:+: P → (T = str "--" ∨ T = str "\r\n") →
      parse_multipart_image stale
        (H ++ str "\r\n\r\n" ++ P ++ str "\r\n" ++ str "--" ++ B ++ T) B = some P) := by
  refine ⟨fun stale => ?_, fun stale => ?_, fun stale => ?_, ?_⟩
  · rw [parse_multipart_image_in_body stale _ _ 4 (by decide) (by decide)]
    decide
  · rw [parse_multipart_image_in_body stale _ _ 87 (by decide) (by decide)]
    decide
  · rw [parse_multipart_image_in_body stale _ _ 87 (by decide) (by decide)]
    decide
  · intro stale B H P T hB hB0 hBcr hH0 hH hHend hP hPlen hP0 hPB hT
    exact parse_multipart_terminated stale B H P T hB hB0 hBcr hH0 hH hHend hP hPlen hP0 hPB hT

/-- The terminated extraction at header `X: y`, payload `DATA`, boundary `b`,
final terminator. -/
theorem parse_multipart_zero_byte_payload_witness :
    parse_multipart_image (str "zz")
        (str "X: y" ++ str "\r\n\r\n" ++ str "DATA" ++ str "\r\n" ++ str "--" ++ str "b" ++
          str "--") (str "b") = some (str "DATA") :=
  parse_multipart_zero_byte_payload.2.2.2 (str "zz") (str "b") (str "X: y") (str "DATA")
    (str "--") (by decide) (by decide) (by decide) (by decide) (by decide) (by decide)
    (by decide) (by decide) (by decide) (by decide) (Or.inl rfl)

/-! ## Request-line scanning -/

theorem tokens_cons_space (a : Nat) (s : List Nat) (h : isspace a = true) :
    tokens (a :: s) = tokens s := by
  simp [tokens, h]

theorem tokens_cons_nonspace (a : Nat) (s : List Nat) (h : isspace a = false) :
    tokens (a :: s) =
      match s.head?, tokens s with
      | some d, tk :: tks => if isspace d then [a] :: tk :: tks else (a :: tk) :: tks
      | _, _ => [[a]] := by
  simp [tokens, h]

theorem tokens_nil_allspace : ∀ s : List Nat, tokens s = [] → ∀ c ∈ s, isspace c = true := by
  intro s
  induction s with
  | nil => intro _ c hc; simp at hc
  | cons a s ih =>
    intro h c hc
    by_cases ha : isspace a = true
    · rw [tokens_cons_space a s ha] at h
      rcases List.mem_cons.1 hc with e | e
      · rw [e]; exact ha
      · exact ih h c e
    · exfalso
      have ha' : isspace a = false := by simpa using ha
      rw [tokens_cons_nonspace a s ha'] at h
      split at h
      · split at h <;> simp at h
      · simp at h

theorem tokens_shape : ∀ (s t : List Nat) (ts : List (List Nat)), tokens s = t :: ts →
    ∃ ws rest, s = ws ++ t ++ rest ∧ (∀ c ∈ ws, isspace c = true) ∧ t ≠ [] ∧
      (∀ c ∈ t, isspace c = false) ∧ (∀ c, rest.head? = some c → isspace c = true) ∧
      tokens rest = ts := by
  intro s
  induction s with
  | nil => intro t ts h; simp [tokens] at h
  | cons a s ih =>
    intro t ts h
    by_cases ha : isspace a = true
    · rw [tokens_cons_space a s ha] at h
      obtain ⟨ws, rest, e, h1, h2, h3, h4, h5⟩ := ih t ts h
      refine ⟨a :: ws, rest, by rw [e]; simp, ?_, h2, h3, h4, h5⟩
      intro c hc
      rcases List.mem_cons.1 hc with e' | e'
      · rw [e']; exact ha
      · exact h1 c e'
    · have ha' : isspace a = false := by simpa using ha
      rw [tokens_cons_nonspace a s ha'] at h
      split at h
      · rename_i d tk tks hd htk
        split at h
        · rename_i hdsp
          simp only [List.cons.injEq] at h
          obtain ⟨rfl, rfl⟩ := h
          refine ⟨[], s, by simp, by simp, by simp, by simpa using ha', ?_, htk⟩
          intro c hc
          rw [hd] at hc
          rw [← Option.some.inj hc]; exact hdsp
        · rename_i hdsp
          simp only [List.cons.injEq] at h
          obtain ⟨rfl, rfl⟩ := h
          obtain ⟨ws, rest, e, h1, h2, h3, h4, h5⟩ := ih tk _ htk
          have hws : ws = [] := by
            cases ws with
            | nil => rfl
            | cons w ws' =>
              exfalso
              rw [e] at hd
              simp at hd
              exact hdsp (hd ▸ h1 w (List.mem_cons_self _ _))
          subst hws
          refine ⟨[], rest, by rw [e]; simp, by simp, by simp, ?_, h4, h5⟩
          intro c hc
          rcases List.mem_cons.1 hc with e' | e'
          · rw [e']; exact ha'
          · exact h3 c e'
      · rename_i hno
        simp only [List.cons.injEq] at h
        obtain ⟨rfl, rfl⟩ := h
        have hts : tokens s = [] := by
          cases hs : s.head? with
          | none =>
            have : s = [] := by simpa using hs
            rw [this]; rfl
          | some d =>
            cases hk : tokens s with
            | nil => rfl
            | cons tk tks => exact absurd hk (hno d tk tks hs)
        refine ⟨[], s, by simp, by simp, by simp, by simpa using ha', ?_, hts⟩
        intro c hc
        have hmem : c ∈ s := by
          cases s with
          | nil => simp at hc
          | cons x xs =>
            simp at hc
            rw [hc]; exact List.mem_cons_self _ _
        exact tokens_nil_allspace s hts c hmem

theorem tokens_append (rest : List Nat) (hrest : ∀ c, rest.head? = some c → isspace c = true) :
    ∀ a : List Nat, tokens (a ++ rest) = tokens a ++ tokens rest := by
  intro a
  induction a with
  | nil => simp [tokens]
  | cons c a ih =>
    by_cases hc : isspace c = true
    · rw [List.cons_append, tokens_cons_space _ _ hc, tokens_cons_space _ _ hc, ih]
    · have hc' : isspace c = false := by simpa using hc
      rw [List.cons_append, tokens_cons_nonspace _ _ hc', tokens_cons_nonspace _ _ hc', ih]
      cases a with
      | nil =>
        simp only [List.nil_append, List.head?_nil, tokens]
        cases rest with
        | nil => simp [tokens]
        | cons d r =>
          have hd : isspace d = true := hrest d rfl
          simp only [List.head?_cons]
          cases tokens (d :: r) with
          | nil => simp
          | cons tk tks => simp [hd]
      | cons e a' =>
        simp only [List.cons_append, List.head?_cons]
        cases hk : tokens (e :: a') with
        | nil =>
          have he : isspace e = true :=
            tokens_nil_allspace _ hk e (List.mem_cons_self _ _)
          simp only [List.nil_append]
          cases tokens rest with
          | nil => simp
          | cons tk tks => simp [he]
        | cons tk tks =>
          simp only [List.cons_append]
          split <;> simp

theorem scan_s_none_of_allspace (w : Nat) (s : List Nat) (h : ∀ c ∈ s, isspace c = true) :
    scan_s w s = none := by
  have : s.dropWhile isspace = [] := by
    rw [List.dropWhile_eq_nil_iff]; exact h
  simp [scan_s, this]

theorem scan_s_shape (w : Nat) (hw : 0 < w) (ws t rest : List Nat)
    (h1 : ∀ c ∈ ws, isspace c = true) (h2 : t ≠ []) (h3 : ∀ c ∈ t, isspace c = false)
    (h4 : ∀ c, rest.head? = some c → isspace c = true) :
    scan_s w (ws ++ t ++ rest) = some (t.take w, t.drop w ++ rest) := by
  have hd : (ws ++ t ++ rest).dropWhile isspace = t ++ rest := by
    rw [List.append_assoc, List.dropWhile_append_of_pos h1]
    cases t with
    | nil => exact absurd rfl h2
    | cons a t' =>
      have ha : isspace a = false := h3 a (List.mem_cons_self _ _)
      simp [List.dropWhile_cons, ha]
  have ht : (t ++ rest).takeWhile (fun c => !isspace c) = t := by
    rw [List.takeWhile_append_of_pos (by intro c hc; simp [h3 c hc])]
    cases rest with
    | nil => simp
    | cons d r =>
      have : isspace d = true := h4 d rfl
      simp [List.takeWhile_cons, this]
  have hne : (t.take w).isEmpty = false := by
    cases t with
    | nil => exact absurd rfl h2
    | cons a t' =>
      cases w with
      | zero => omega
      | succ w' => simp
  have hdrop : (t ++ rest).drop (t.take w).length = t.drop w ++ rest := by
    rw [List.length_take]
    by_cases hle : w ≤ t.length
    · rw [Nat.min_eq_left hle, List.drop_append_of_le_length hle]
    · rw [Nat.min_eq_right (by omega), List.drop_append_of_le_length (le_refl _),
        List.drop_length, List.drop_of_length_le (by omega)]
  simp only [scan_s, hd, ht, hne, hdrop]
  simp

theorem scan_s_tokens (w : Nat) (hw : 0 < w) (s t : List Nat) (ts : List (List Nat))
    (h : tokens s = t :: ts) (hlen : t.length ≤ w) :
    ∃ rest, scan_s w s = some (t, rest) ∧ tokens rest = ts := by
  obtain ⟨ws, rest, e, h1, h2, h3, h4, h5⟩ := tokens_shape s t ts h
  refine ⟨rest, ?_, h5⟩
  rw [e, scan_s_shape w hw ws t rest h1 h2 h3 h4, List.take_of_length_le hlen,
    List.drop_of_length_le hlen]
  simp

theorem scan_s_tokens_cut (w : Nat) (hw : 0 < w) (s t : List Nat) (ts : List (List Nat))
    (h : tokens s = t :: ts) : ∃ rest, scan_s w s = some (t.take w, rest) := by
  obtain ⟨ws, rest, e, h1, h2, h3, h4, _⟩ := tokens_shape s t ts h
  exact ⟨_, by rw [e, scan_s_shape w hw ws t rest h1 h2 h3 h4]⟩

theorem scan_s_none_of_tokens (w : Nat) (s : List Nat) (h : tokens s = []) :
    scan_s w s = none :=
  scan_s_none_of_allspace w s (tokens_nil_allspace s h)

theorem tokens_request_line (text : List Nat) :
    ∃ rest, tokens text = tokens (request_line text) ++ tokens rest := by
  unfold request_line
  cases hk : strstr text (str "\r\n") with
  | none => exact ⟨[], by simp [tokens]⟩
  | some k =>
    obtain ⟨_, hp, _⟩ := strstr_some_spec _ _ _ hk
    refine ⟨text.drop k, ?_⟩
    simp only []
    rw [← tokens_append (text.drop k) ?_ (text.take k), List.take_append_drop]
    intro c hc
    obtain ⟨r, hr⟩ := hp
    rw [← hr, str_crlf] at hc
    simp at hc
    rw [← hc]; decide

theorem recv_buffer_length (incoming : List Nat) : (recv_buffer incoming).length < MAX_BUFFER := by
  unfold recv_buffer MAX_BUFFER
  rw [List.length_take]
  omega

theorem recv_buffer_ne_nil (incoming : List Nat) (h : incoming ≠ []) :
    (recv_buffer incoming).length ≠ 0 := by
  cases incoming with
  | nil => exact absurd rfl h
  | cons a t =>
    unfold recv_buffer MAX_BUFFER
    rw [List.length_take]
    simp

set_option maxRecDepth 100000 in
/-- C7, the claim as stated fails.  `sscanf` reads tokens across line ends:
the request line `GET /` has two tokens, the third is taken from the next
line, and the request is answered 200.  A token longer than its field is
split: `GET /aaa...` (600 letters) has two tokens in all and is answered 404
(the path is cut at 511 characters and the rest becomes the version); and for
the three-token line `OPTIONSOPTIONSOPTIONS / HTTP/1.1` the method is the
first 15 characters and the path is the rest of the first token. -/
theorem handle_client_request_line_counterexample :
    ((tokens (request_line (str "GET /\r\nHost: x\r\n\r\n"))).length = 2 ∧
      handle_client sample_env (str "GET /\r\nHost: x\r\n\r\n") ≠
        .replied (send_error sample_env.now 400 "Malformed request") ∧
      (handle_client sample_env (str "GET /\r\nHost: x\r\n\r\n")).status = some 200) ∧
    ((tokens (str "GET /" ++ List.replicate 600 97 ++ str "\r\n\r\n")).length = 2 ∧
      (handle_client sample_env (str "GET /" ++ List.replicate 600 97 ++ str "\r\n\r\n")).status =
        some 404) ∧
    (tokens (request_line (str "OPTIONSOPTIONSOPTIONS / HTTP/1.1\r\n\r\n")) =
        [str "OPTIONSOPTIONSOPTIONS", str "/", str "HTTP/1.1"] ∧
      sscanf3 (cstr (recv_buffer (str "OPTIONSOPTIONSOPTIONS / HTTP/1.1\r\n\r\n"))) =
        some (str "OPTIONSOPTIONSO", str "PTIONS", str "/")) := by
  decide

/-- C7, amended.  White space for `sscanf` includes CR and LF, and the three
fields hold at most 15, 511 and 15 characters.  For every non-empty received
request: if the whole received text (all lines, up to the first zero byte)
splits on white space into fewer than three tokens, the first of at most 15
and the second of at most 511 characters, `handle_client` answers
400 "Malformed request" and routes nothing; if the request line has at least
three tokens, the first of at most 15 and the second of at most 511
characters, then method and path are the first two tokens, the version is the
first 15 characters of the third, and the request is routed on them. -/
theorem handle_client_request_line (env : Env) (incoming : List Nat) (hne : incoming ≠ []) :
    ((tokens (cstr (recv_buffer incoming))).length < 3 →
      (∀ t, (tokens (cstr (recv_buffer incoming)))[0]? = some t → t.length ≤ 15) →
      (∀ t, (tokens (cstr (recv_buffer incoming)))[1]? = some t → t.length ≤ 511) →
      handle_client env incoming = .replied (send_error env.now 400 "Malformed request")) ∧
    (∀ t1 t2 t3 more,
      tokens (request_line (cstr (recv_buffer incoming))) = t1 :: t2 :: t3 :: more →
      t1.length ≤ 15 → t2.length ≤ 511 →
      sscanf3 (cstr (recv_buffer incoming)) = some (t1, t2, t3.take 15) ∧
      handle_client env incoming = route env t1 t2 (recv_buffer incoming)) := by
  have hbuf := recv_buffer_ne_nil incoming hne
  constructor
  · intro hlt h0 h1
    have hnone : sscanf3 (cstr (recv_buffer incoming)) = none := by
      unfold sscanf3
      rcases hk : tokens (cstr (recv_buffer incoming)) with _ | ⟨t1, _ | ⟨t2, _ | ⟨t3, more⟩⟩⟩
      · rw [scan_s_none_of_tokens _ _ hk]
      · obtain ⟨r1, e1, k1⟩ := scan_s_tokens 15 (by omega) _ t1 [] hk
          (h0 t1 (by rw [hk]; rfl))
        rw [e1]
        simp only []
        rw [scan_s_none_of_tokens _ _ k1]
      · obtain ⟨r1, e1, k1⟩ := scan_s_tokens 15 (by omega) _ t1 [t2] hk
          (h0 t1 (by rw [hk]; rfl))
        obtain ⟨r2, e2, k2⟩ := scan_s_tokens 511 (by omega) r1 t2 [] k1
          (h1 t2 (by rw [hk]; rfl))
        rw [e1]
        simp only []
        rw [e2]
        simp only []
        rw [scan_s_none_of_tokens _ _ k2]
      · rw [hk] at hlt
        simp only [List.length_cons] at hlt
        omega
    unfold handle_client
    simp only [hbuf, if_false, hnone]
  · intro t1 t2 t3 more hk h1 h2
    obtain ⟨rest, hr⟩ := tokens_request_line (cstr (recv_buffer incoming))
    rw [hk] at hr
    simp only [List.cons_append] at hr
    obtain ⟨r1, e1, k1⟩ := scan_s_tokens 15 (by omega) _ t1 _ hr h1
    obtain ⟨r2, e2, k2⟩ := scan_s_tokens 511 (by omega) r1 t2 _ k1 h2
    obtain ⟨r3, e3⟩ := scan_s_tokens_cut 15 (by omega) r2 t3 _ k2
    have hs : sscanf3 (cstr (recv_buffer incoming)) = some (t1, t2, t3.take 15) := by
      unfold sscanf3
      rw [e1]
      simp only []
      rw [e2]
      simp only []
      rw [e3]
    refine ⟨hs, ?_⟩
    unfold handle_client
    simp only [hbuf, if_false, hs]

/-! ## Status codes of the handlers -/

theorem process_and_send_status (env : Env) (image_data : List Nat) (mode : ProcessMode) :
    (process_and_send env image_data mode).status = none ∨
      (process_and_send env image_data mode).status = some 500 ∨
      (process_and_send env image_data mode).status = some 200 := by
  unfold process_and_send
  split
  · exact Or.inl rfl
  · split
    · exact Or.inr (Or.inl rfl)
    · split <;> first | exact Or.inr (Or.inl rfl) | exact Or.inr (Or.inr rfl)

theorem handle_post_request_status_ne_413 (env : Env) (path headers body : List Nat)
    (hb : body.length ≤ MAX_BUFFER) :
    (handle_post_request env path headers body).status ≠ some 413 := by
  have hnb : ¬ body.length > MAX_BUFFER := by omega
  unfold handle_post_request
  simp only [hnb, if_false]
  split
  · simp [Outcome.status, send_error]
  · split
    · simp [Outcome.status, send_error]
    · split
      · simp [Outcome.status, send_error]
      · split
        · simp [Outcome.status, send_error]
        · split
          · simp [Outcome.status, send_error]
          · rcases process_and_send_status env _ _ with h | h | h <;> rw [h] <;> simp

theorem handle_get_request_status (env : Env) (path : List Nat) :
    (handle_get_request env path).status = some 200 ∨
      (handle_get_request env path).status = some 404 := by
  unfold handle_get_request
  split
  · exact Or.inl rfl
  · split
    · exact Or.inl rfl
    · exact Or.inr rfl

theorem route_status_ne_413 (env : Env) (method path buffer : List Nat)
    (hb : buffer.length < MAX_BUFFER) : (route env method path buffer).status ≠ some 413 := by
  unfold route
  simp only []
  split
  · rcases handle_get_request_status env path with h | h <;> rw [h] <;> simp
  · split
    · apply handle_post_request_status_ne_413
      split
      · rw [List.length_drop]; omega
      · simp
    · split
      · simp [handle_options_request, Outcome.status]
      · simp [Outcome.status, send_error]

theorem handle_client_status_ne_413 (env : Env) (incoming : List Nat) :
    (handle_client env incoming).status ≠ some 413 := by
  unfold handle_client
  simp only []
  split
  · simp [Outcome.status]
  · split
    · simp [Outcome.status, send_error]
    · exact route_status_ne_413 env _ _ _ (recv_buffer_length incoming)

/-- C5 fails through the connection handler.  Called directly with a body of
20971521 bytes `handle_post_request` answers 413, but `handle_client` receives
at most 20971519 bytes, so for a POST to `/api/to-negative` with a body of
20971521 bytes the body it passes on is shorter than the limit and the answer
is not 413. -/
theorem oversized_post_not_413 (env : Env) :
    handle_post_request env (str "/api/to-negative") [] (List.replicate 20971521 65) =
        .replied (send_error env.now 413 "Request too large") ∧
      (handle_client env
        (str ("POST /api/to-negative HTTP/1.1\r\n" ++
            "Content-Type: multipart/form-data; boundary=b\r\n\r\n") ++
          List.replicate 20971521 65)).status ≠ some 413 := by
  constructor
  · have h1 : ¬ (str "/api/to-negative" ≠ str "/api/to-negative" ∧
        str "/api/to-negative" ≠ str "/api/to-positive") := by decide
    have h2 : (List.replicate 20971521 65).length > MAX_BUFFER := by
      rw [List.length_replicate]; decide
    unfold handle_post_request
    rw [if_neg h1]
    simp only [h2, if_true]
  · exact handle_client_status_ne_413 env _

/-- C6 fails when the body names a content type.  The header block of this
POST to `/api/to-negative` holds no `Content-Type:`, but the search runs over
the whole receive buffer and finds the one in the body, so the request goes on
to the multipart extractor and the pipeline and is answered 500 or 200 (or
the pipeline faults), never 400. -/
theorem content_type_found_in_body (env : Env) :
    strstr (str "POST /api/to-negative HTTP/1.1\r\nHost: x") (str "Content-Type:") = none ∧
      handle_client env
          (str "POST /api/to-negative HTTP/1.1\r\nHost: x" ++ str "\r\n\r\n" ++
            str "Content-Type: multipart/form-data; boundary=b\r\n\r\nDATA\r\n--b--") =
        process_and_send env (str "DATA") .MODE_TO_NEGATIVE ∧
      (process_and_send env (str "DATA") .MODE_TO_NEGATIVE).status ≠ some 400 := by
  refine ⟨by decide, rfl, ?_⟩
  rcases process_and_send_status env (str "DATA") .MODE_TO_NEGATIVE with h | h | h <;>
    rw [h] <;> simp

/-! ## Concrete instances of the theorems with hypotheses -/

/-- C4 (amended) at header `X: y`, payload `DATA`, boundary `b`. -/
theorem parse_multipart_missing_terminator_witness :
    parse_multipart_image (str "zz") (str "X: y" ++ str "\r\n\r\n" ++ str "DATA") (str "b") =
      some (str "DATA") :=
  parse_multipart_missing_terminator (str "zz") (str "b") (str "X: y") (str "DATA") (by decide)
    (by decide) (by decide) (by decide) (by decide) (by decide) (by decide)
    (by intro b hb; have e : b = 65 := by simpa [str] using hb.symm
        subst e; decide)

/-- C7 (amended) at the two-token request `GET /` and at
`GET /health HTTP/1.1`. -/
theorem handle_client_request_line_witness :
    handle_client sample_env (str "GET /") =
        .replied (send_error sample_env.now 400 "Malformed request") ∧
      (sscanf3 (cstr (recv_buffer (str "GET /health HTTP/1.1\r\n\r\n"))) =
          some (str "GET", str "/health", (str "HTTP/1.1").take 15) ∧
        handle_client sample_env (str "GET /health HTTP/1.1\r\n\r\n") =
          route sample_env (str "GET") (str "/health")
            (recv_buffer (str "GET /health HTTP/1.1\r\n\r\n"))) :=
  have e : tokens (cstr (recv_buffer (str "GET /"))) = [str "GET", str "/"] := by decide
  ⟨(handle_client_request_line sample_env (str "GET /") (by decide)).1
      (by rw [e]; decide)
      (by intro t ht; rw [e] at ht; simp at ht; subst ht; decide)
      (by intro t ht; rw [e] at ht; simp at ht; subst ht; decide),
    (handle_client_request_line sample_env (str "GET /health HTTP/1.1\r\n\r\n")
      (by decide)).2 (str "GET") (str "/health") (str "HTTP/1.1") [] (by decide) (by decide)
      (by decide)⟩

/-! ## Colour-cast round trip -/

set_option maxRecDepth 1000000 in
theorem round_trip_r : ∀ r, r < 205 →
    uncast_r (cast_r r) ≤ r ∧ r - uncast_r (cast_r r) ≤ 1 := by
  decide!

set_option maxRecDepth 1000000 in
theorem round_trip_g : ∀ g, g < 234 →
    uncast_g (cast_g g) ≤ g ∧ g - uncast_g (cast_g g) ≤ 1 := by
  decide!

set_option maxRecDepth 1000000 in
theorem round_trip_b : ∀ b, b < 256 →
    uncast_b (cast_b b) ≤ b ∧ b - uncast_b (cast_b b) ≤ 2 := by
  decide!

theorem cast_then_uncast_spec (img : List Nat) (w h c : Nat) (hc : 3 ≤ c)
    (hlen : img.length = w * h * c) :
    ∃ mid out, apply_film_color_cast img w h c = some mid ∧
      remove_film_color_cast mid w h c = some out ∧ out.length = img.length ∧
      ∀ i, i < w * h →
        out.getD (i * c) 0 = uncast_r (cast_r (img.getD (i * c) 0)) ∧
        out.getD (i * c + 1) 0 = uncast_g (cast_g (img.getD (i * c + 1) 0)) ∧
        out.getD (i * c + 2) 0 = uncast_b (cast_b (img.getD (i * c + 2) 0)) := by
  obtain ⟨mid, a1, a2, a3⟩ := apply_film_color_cast_spec img w h c hc hlen
  obtain ⟨out, b1, b2, b3⟩ := remove_film_color_cast_spec mid w h c hc (by rw [a2, hlen])
  refine ⟨mid, out, a1, b1, by rw [b2, a2], ?_⟩
  intro i hi
  have m0 := a3 i 0 (by omega)
  have m1 := a3 i 1 (by omega)
  have m2 := a3 i 2 (by omega)
  have k0 := b3 i 0 (by omega)
  have k1 := b3 i 1 (by omega)
  have k2 := b3 i 2 (by omega)
  simp only [hi, sel3, Nat.add_zero, true_and, Nat.lt_succ_self, Nat.zero_lt_succ,
    Nat.one_lt_ofNat, if_true, if_false, Nat.succ_ne_zero, OfNat.ofNat_ne_zero,
    OfNat.ofNat_ne_one] at m0 m1 m2 k0 k1 k2
  rw [m0] at k0
  rw [m1] at k1
  rw [m2] at k2
  exact ⟨k0, k1, k2⟩

/-- C13. Colour-cast round trip on non-saturating values.  On a buffer of
`w * h * c` bytes (`c ≥ 3`), `apply_film_color_cast` followed by
`remove_film_color_cast` succeeds, and for every pixel the value `v'` that
comes back for a channel value `v` satisfies `v' ≤ v` and `v - v' ≤ 1` for a red
value `v ≤ 204` and for a green value `v ≤ 233`, and `v - v' ≤ 2` for every blue
value; the bound 2 is attained: blue 7 becomes 5 and comes back as 5. -/
theorem color_cast_round_trip (img : List Nat) (w h c : Nat) (hc : 3 ≤ c)
    (hlen : img.length = w * h * c) (hbytes : ∀ v ∈ img, v < 256) :
    (∃ mid out, apply_film_color_cast img w h c = some mid ∧
      remove_film_color_cast mid w h c = some out ∧ out.length = img.length ∧
      ∀ i, i < w * h →
        (img.getD (i * c) 0 ≤ 204 →
          out.getD (i * c) 0 ≤ img.getD (i * c) 0 ∧
            img.getD (i * c) 0 - out.getD (i * c) 0 ≤ 1) ∧
        (img.getD (i * c + 1) 0 ≤ 233 →
          out.getD (i * c + 1) 0 ≤ img.getD (i * c + 1) 0 ∧
            img.getD (i * c + 1) 0 - out.getD (i * c + 1) 0 ≤ 1) ∧
        (out.getD (i * c + 2) 0 ≤ img.getD (i * c + 2) 0 ∧
          img.getD (i * c + 2) 0 - out.getD (i * c + 2) 0 ≤ 2)) ∧
    (apply_film_color_cast [0, 0, 7] 1 1 3 = some [20, 10, 5] ∧
      remove_film_color_cast [20, 10, 5] 1 1 3 = some [0, 0, 5]) := by
  refine ⟨?_, by decide⟩
  obtain ⟨mid, out, h1, h2, h3, h4⟩ := cast_then_uncast_spec img w h c hc hlen
  refine ⟨mid, out, h1, h2, h3, ?_⟩
  intro i hi
  obtain ⟨k0, k1, k2⟩ := h4 i hi
  rw [k0, k1, k2]
  exact ⟨fun hr => round_trip_r _ (by omega), fun hg => round_trip_g _ (by omega),
    round_trip_b _ (getD_lt_256 img hbytes _)⟩

/-- C13 at the buffer `(204, 233, 7), (0, 100, 255)`. -/
theorem color_cast_round_trip_witness :
    (3 ≤ 3 ∧ [204, 233, 7, 0, 100, 255].length = 2 * 1 * 3 ∧
      ∀ v ∈ [204, 233, 7, 0, 100, 255], v < 256) ∧
    ∃ mid out, apply_film_color_cast [204, 233, 7, 0, 100, 255] 2 1 3 = some mid ∧
      remove_film_color_cast mid 2 1 3 = some out ∧
      out.length = [204, 233, 7, 0, 100, 255].length :=
  ⟨⟨by decide, by decide, by decide⟩,
    (color_cast_round_trip [204, 233, 7, 0, 100, 255] 2 1 3 (by decide) (by decide)
      (by decide)).1.imp (fun _ hmid => hmid.imp (fun _ hout => ⟨hout.1, hout.2.1, hout.2.2.1⟩))⟩

/-! ## Channels beyond the first three -/

theorem same_beyond_rgb_trans (c : Nat) (a b d : List Nat) (h1 : same_beyond_rgb c a b)
    (h2 : same_beyond_rgb c b d) : same_beyond_rgb c a d :=
  ⟨by rw [h2.1, h1.1], fun i ch h3 hch => by rw [h2.2 i ch h3 hch, h1.2 i ch h3 hch]⟩

theorem same_beyond_rgb_of_pixel_spec (c n : Nat) (img out : List Nat) (f : Nat → Nat → Nat)
    (hl : out.length = img.length)
    (h : ∀ i ch, ch < c → out.getD (i * c + ch) 0 =
      if i < n ∧ ch < 3 then f i ch else img.getD (i * c + ch) 0) :
    same_beyond_rgb c img out := by
  refine ⟨hl, ?_⟩
  intro i ch h3 hch
  rw [h i ch hch, if_neg (by omega)]

theorem apply_negative_frame (img : List Nat) (w h c : Nat) (hc : 3 ≤ c)
    (hlen : img.length = w * h * c) :
    ∃ out, apply_negative img w h c = some out ∧ same_beyond_rgb c img out := by
  obtain ⟨out, h1, h2, h3⟩ := apply_negative_spec img w h c hc hlen
  exact ⟨out, h1, same_beyond_rgb_of_pixel_spec c (w * h) img out _ h2 h3⟩

theorem apply_film_color_cast_frame (img : List Nat) (w h c : Nat) (hc : 3 ≤ c)
    (hlen : img.length = w * h * c) :
    ∃ out, apply_film_color_cast img w h c = some out ∧ same_beyond_rgb c img out := by
  obtain ⟨out, h1, h2, h3⟩ := apply_film_color_cast_spec img w h c hc hlen
  exact ⟨out, h1, same_beyond_rgb_of_pixel_spec c (w * h) img out _ h2 h3⟩

theorem remove_film_color_cast_frame (img : List Nat) (w h c : Nat) (hc : 3 ≤ c)
    (hlen : img.length = w * h * c) :
    ∃ out, remove_film_color_cast img w h c = some out ∧ same_beyond_rgb c img out := by
  obtain ⟨out, h1, h2, h3⟩ := remove_film_color_cast_spec img w h c hc hlen
  exact ⟨out, h1, same_beyond_rgb_of_pixel_spec c (w * h) img out _ h2 h3⟩

theorem apply_grain_frame (draws : Nat → Nat) (img : List Nat) (pos w h c k : Nat) (hc : 3 ≤ c)
    (hlen : img.length = w * h * c) :
    ∃ out, apply_grain draws img pos w h c k = some (out, pos + w * h) ∧
      same_beyond_rgb c img out := by
  obtain ⟨out, h1, h2, h3⟩ := apply_grain_spec draws img pos w h c k hc hlen
  exact ⟨out, h1, same_beyond_rgb_of_pixel_spec c (w * h) img out _ h2 h3⟩

theorem pixel_split (w i : Nat) (hw : 0 < w) : i = i / w * w + i % w ∧ i % w < w :=
  ⟨by rw [Nat.mul_comm]; exact (Nat.div_add_mod i w).symm, Nat.mod_lt _ hw⟩

theorem crop_sprocket_holes_frame (img : List Nat) (w h c : Nat) (hc : 3 ≤ c) (hw : 0 < w)
    (hlen : img.length = w * h * c) :
    ∃ out, crop_sprocket_holes img w h c = some out ∧ same_beyond_rgb c img out := by
  obtain ⟨out, h1, h2, h3⟩ := crop_sprocket_holes_spec img w h c hc hlen
  refine ⟨out, h1, h2, ?_⟩
  intro i ch hch3 hch
  obtain ⟨e, hx⟩ := pixel_split w i hw
  rw [e]
  exact (h3 (i / w) (i % w) ch hx hch).2 (fun hn => by omega)

theorem draw_sprocket_holes_frame (img : List Nat) (w h c : Nat) (hc : 3 ≤ c) (hw : 12 ≤ w)
    (hlen : img.length = w * h * c) :
    ∃ out, draw_sprocket_holes img w h c = some out ∧ same_beyond_rgb c img out := by
  obtain ⟨out, h1, h2, h3⟩ := draw_sprocket_holes_spec img w h c hc hw hlen
  refine ⟨out, h1, h2, ?_⟩
  intro i ch hch3 hch
  obtain ⟨e, hx⟩ := pixel_split w i (by omega)
  rw [e]
  exact ((h3 (i / w) (i % w) ch hx hch).2 (fun hn => by omega)).2 (fun hn => by omega)

theorem to_negative_frame (draws : Nat → Nat) (img : List Nat) (pos w h c : Nat) (hc : 3 ≤ c)
    (hw : 12 ≤ w) (hlen : img.length = w * h * c) :
    ∃ out, process_image (fun _ => .ok ⟨img, w, h, c⟩) draws pos [] .MODE_TO_NEGATIVE =
        some (⟨some out, w, h, c, 1, ""⟩, pos + w * h) ∧ same_beyond_rgb c img out := by
  obtain ⟨i1, a1, a2⟩ := apply_negative_frame img w h c hc hlen
  obtain ⟨i2, b1, b2⟩ := apply_film_color_cast_frame i1 w h c hc (by rw [a2.1, hlen])
  obtain ⟨i3, c1, c2⟩ := apply_grain_frame draws i2 pos w h c 12 hc (by rw [b2.1, a2.1, hlen])
  obtain ⟨i4, d1, d2⟩ := draw_sprocket_holes_frame i3 w h c hc hw
    (by rw [c2.1, b2.1, a2.1, hlen])
  refine ⟨i4, ?_, same_beyond_rgb_trans c _ _ _ (same_beyond_rgb_trans c _ _ _
    (same_beyond_rgb_trans c _ _ _ a2 b2) c2) d2⟩
  have hnc : ¬ c < 3 := by omega
  simp [process_image, hnc, a1, b1, c1, d1]

theorem to_positive_frame (draws : Nat → Nat) (img : List Nat) (pos w h c : Nat) (hc : 3 ≤ c)
    (hw : 0 < w) (hlen : img.length = w * h * c) :
    ∃ out, process_image (fun _ => .ok ⟨img, w, h, c⟩) draws pos [] .MODE_TO_POSITIVE =
        some (⟨some out, w, h, c, 1, ""⟩, pos) ∧ same_beyond_rgb c img out := by
  obtain ⟨i1, a1, a2⟩ := crop_sprocket_holes_frame img w h c hc hw hlen
  obtain ⟨i2, b1, b2⟩ := remove_film_color_cast_frame i1 w h c hc (by rw [a2.1, hlen])
  obtain ⟨i3, c1, c2⟩ := apply_negative_frame i2 w h c hc (by rw [b2.1, a2.1, hlen])
  refine ⟨i3, ?_, same_beyond_rgb_trans c _ _ _ (same_beyond_rgb_trans c _ _ _ a2 b2) c2⟩
  have hnc : ¬ c < 3 := by omega
  simp [process_image, hnc, a1, b1, c1]

/-- C20. Channels beyond the first three are untouched by every operator.  On
a buffer of `w * h * c` bytes with `c ≥ 4` and `w ≥ 12`, each of invert,
colour-cast apply, colour-cast remove, grain synthesis, sprocket compositing
and crop succeeds and leaves the byte at every in-pixel channel offset of 3
or more equal to its input value, and so do the ToNegative and the ToPositive
pipeline of `process_image`. -/
theorem channels_beyond_rgb_untouched (draws : Nat → Nat) (img : List Nat) (pos w h c : Nat)
    (hc : 4 ≤ c) (hw : 12 ≤ w) (hlen : img.length = w * h * c) :
    (∃ out, apply_negative img w h c = some out ∧ same_beyond_rgb c img out) ∧
    (∃ out, apply_film_color_cast img w h c = some out ∧ same_beyond_rgb c img out) ∧
    (∃ out, remove_film_color_cast img w h c = some out ∧ same_beyond_rgb c img out) ∧
    (∃ out, apply_grain draws img pos w h c 12 = some (out, pos + w * h) ∧
      same_beyond_rgb c img out) ∧
    (∃ out, draw_sprocket_holes img w h c = some out ∧ same_beyond_rgb c img out) ∧
    (∃ out, crop_sprocket_holes img w h c = some out ∧ same_beyond_rgb c img out) ∧
    (∃ out, process_image (fun _ => .ok ⟨img, w, h, c⟩) draws pos [] .MODE_TO_NEGATIVE =
        some (⟨some out, w, h, c, 1, ""⟩, pos + w * h) ∧ same_beyond_rgb c img out) ∧
    (∃ out, process_image (fun _ => .ok ⟨img, w, h, c⟩) draws pos [] .MODE_TO_POSITIVE =
        some (⟨some out, w, h, c, 1, ""⟩, pos) ∧ same_beyond_rgb c img out) :=
  ⟨apply_negative_frame img w h c (by omega) hlen,
    apply_film_color_cast_frame img w h c (by omega) hlen,
    remove_film_color_cast_frame img w h c (by omega) hlen,
    apply_grain_frame draws img pos w h c 12 (by omega) hlen,
    draw_sprocket_holes_frame img w h c (by omega) hw hlen,
    crop_sprocket_holes_frame img w h c (by omega) (by omega) hlen,
    to_negative_frame draws img pos w h c (by omega) hw hlen,
    to_positive_frame draws img pos w h c (by omega) (by omega) hlen⟩

/-- C20 at a 12 × 1 RGBA buffer. -/
theorem channels_beyond_rgb_untouched_witness :
    (4 ≤ 4 ∧ 12 ≤ 12 ∧ (List.replicate 48 9).length = 12 * 1 * 4) ∧
    ∃ out, process_image (fun _ => .ok ⟨List.replicate 48 9, 12, 1, 4⟩) (fun _ => 0) 0 []
        .MODE_TO_NEGATIVE = some (⟨some out, 12, 1, 4, 1, ""⟩, 0 + 12 * 1) ∧
      same_beyond_rgb 4 (List.replicate 48 9) out :=
  ⟨⟨by decide, by decide, List.length_replicate _ _⟩,
    (channels_beyond_rgb_untouched (fun _ => 0) (List.replicate 48 9) 0 12 1 4 (by decide)
      (by decide) (List.length_replicate _ _)).2.2.2.2.2.2.1⟩

/-! ## Outcome of `process_image` -/

theorem snprintf_short (size : Nat) (s : String) (h : s.length + 1 ≤ size) :
    snprintf size s = s := by
  unfold snprintf
  have : s.toList.take (size - 1) = s.toList := by
    apply List.take_of_length_le
    simp only [String.length] at h
    simp only [String.toList]
    omega
  rw [this]
  cases s
  rfl

theorem process_image_decode_error (decode : List Nat → Except String Decoded)
    (draws : Nat → Nat) (pos : Nat) (input : List Nat) (mode : ProcessMode) (reason : String)
    (hd : decode input = .error reason) :
    process_image decode draws pos input mode =
      some (⟨none, 0, 0, 0, 0, snprintf 256 ("Failed to load image: " ++ reason)⟩, pos) := by
  simp [process_image, hd]

theorem process_image_few_channels (decode : List Nat → Except String Decoded)
    (draws : Nat → Nat) (pos : Nat) (input : List Nat) (mode : ProcessMode) (d : Decoded)
    (hd : decode input = .ok d) (hc : d.channels < 3) :
    process_image decode draws pos input mode =
      some (⟨none, 0, 0, 0, 0, "Image must have at least 3 channels (RGB)"⟩, pos) := by
  have : snprintf 256 "Image must have at least 3 channels (RGB)" =
      "Image must have at least 3 channels (RGB)" := by decide
  simp [process_image, hd, hc, this]

theorem process_image_result_shape (decode : List Nat → Except String Decoded)
    (draws : Nat → Nat) (pos : Nat) (input : List Nat) (mode : ProcessMode) (d : Decoded)
    (hd : decode input = .ok d) (hc : 3 ≤ d.channels) (r : ImageResult) (p : Nat)
    (h : process_image decode draws pos input mode = some (r, p)) :
    ∃ img, r = ⟨some img, d.width, d.height, d.channels, 1, ""⟩ := by
  have hnc : ¬ d.channels < 3 := by omega
  simp only [process_image, hd, hnc, if_false] at h
  cases mode with
  | MODE_TO_NEGATIVE =>
    simp only [Option.bind_eq_bind, Option.bind_eq_some, Option.pure_def, Option.some.injEq,
      Prod.mk.injEq, Prod.exists] at h
    obtain ⟨_, _, _, _, _, _, _, img, _, e, _⟩ := h
    exact ⟨img, e.symm⟩
  | MODE_TO_POSITIVE =>
    simp only [Option.bind_eq_bind, Option.bind_eq_some, Option.pure_def, Option.some.injEq,
      Prod.mk.injEq] at h
    obtain ⟨_, _, _, _, img, _, e, _⟩ := h
    exact ⟨img, e.symm⟩

/-- The outcome of `process_image` where it returns.  The codec is a function
that returns a diagnostic string or a buffer with its width, height and
channel count.  On decode failure the result is a failure whose message is the
first 255 characters of `"Failed to load image: "` followed by the diagnostic,
which is the whole of it for a diagnostic of at most 233 characters; on fewer
than 3 channels it is a failure with the fixed message.  When decoding gives
at least 3 channels and a buffer of `width * height * channels` bytes, and the
mode is ToPositive or the width is at least 12, `process_image` succeeds.
Whenever `process_image` returns, the result is a success exactly if decoding
succeeded with at least 3 channels, and a failure carries no buffer: data is
null and width, height and channels are 0. -/
theorem process_image_outcome (decode : List Nat → Except String Decoded)
    (draws : Nat → Nat) (pos : Nat) (input : List Nat) (mode : ProcessMode) :
    (∀ reason, decode input = .error reason →
      process_image decode draws pos input mode =
        some (⟨none, 0, 0, 0, 0, snprintf 256 ("Failed to load image: " ++ reason)⟩, pos) ∧
      (reason.length ≤ 233 →
        snprintf 256 ("Failed to load image: " ++ reason) =
          "Failed to load image: " ++ reason)) ∧
    (∀ d, decode input = .ok d → d.channels < 3 →
      process_image decode draws pos input mode =
        some (⟨none, 0, 0, 0, 0, "Image must have at least 3 channels (RGB)"⟩, pos)) ∧
    (∀ d, decode input = .ok d → 3 ≤ d.channels →
      d.data.length = d.width * d.height * d.channels →
      (mode = .MODE_TO_POSITIVE ∨ 12 ≤ d.width) →
      ∃ img p, process_image decode draws pos input mode =
        some (⟨some img, d.width, d.height, d.channels, 1, ""⟩, p)) ∧
    (∀ r p, process_image decode draws pos input mode = some (r, p) →
      (r.success = 1 ↔ ∃ d, decode input = .ok d ∧ 3 ≤ d.channels) ∧
      (r.success ≠ 1 → r.data = none ∧ r.width = 0 ∧ r.height = 0 ∧ r.channels = 0)) := by
  refine ⟨?_, ?_, ?_, ?_⟩
  · intro reason hd
    refine ⟨process_image_decode_error decode draws pos input mode reason hd, ?_⟩
    intro hlen
    apply snprintf_short
    have : ("Failed to load image: " ++ reason).length = 22 + reason.length := by
      rw [String.length_append]; rfl
    omega
  · intro d hd hc
    exact process_image_few_channels decode draws pos input mode d hd hc
  · intro d hd hc hlen hmode
    cases mode with
    | MODE_TO_NEGATIVE =>
      have hw : 12 ≤ d.width := by
        rcases hmode with e | e
        · cases e
        · exact e
      obtain ⟨img, h1, _⟩ :=
        process_image_to_negative_total decode draws pos input d hd hc hw hlen
      exact ⟨img, _, h1⟩
    | MODE_TO_POSITIVE =>
      obtain ⟨img, h1, _⟩ := process_image_to_positive_total decode draws pos input d hd hc hlen
      exact ⟨img, _, h1⟩
  · intro r p h
    cases hd : decode input with
    | error reason =>
      rw [process_image_decode_error decode draws pos input mode reason hd] at h
      simp only [Option.some.injEq, Prod.mk.injEq] at h
      obtain ⟨rfl, _⟩ := h
      exact ⟨⟨fun hs => by simp at hs, fun ⟨d, hd', _⟩ => by cases hd'⟩,
        fun _ => ⟨rfl, rfl, rfl, rfl⟩⟩
    | ok d =>
      by_cases hc : d.channels < 3
      · rw [process_image_few_channels decode draws pos input mode d hd hc] at h
        simp only [Option.some.injEq, Prod.mk.injEq] at h
        obtain ⟨rfl, _⟩ := h
        refine ⟨⟨fun hs => by simp at hs, ?_⟩, fun _ => ⟨rfl, rfl, rfl, rfl⟩⟩
        rintro ⟨d', hd', hc'⟩
        cases hd'
        omega
      · obtain ⟨img, rfl⟩ :=
          process_image_result_shape decode draws pos input mode d hd (by omega) r p h
        exact ⟨⟨fun _ => ⟨d, rfl, by omega⟩, fun _ => rfl⟩, fun hs => absurd rfl hs⟩

theorem process_image_to_negative_narrow (decode : List Nat → Except String Decoded)
    (draws : Nat → Nat) (pos : Nat) (input : List Nat) (d : Decoded)
    (hd : decode input = .ok d) (hc : 3 ≤ d.channels) (hw : d.width < 12) :
    process_image decode draws pos input .MODE_TO_NEGATIVE = none := by
  have hnc : ¬ d.channels < 3 := by omega
  simp only [process_image, hd, hnc, if_false]
  cases apply_negative d.data d.width d.height d.channels with
  | none => rfl
  | some a =>
    simp only [Option.bind_eq_bind, Option.some_bind]
    cases apply_film_color_cast a d.width d.height d.channels with
    | none => rfl
    | some b =>
      simp only [Option.some_bind]
      cases apply_grain draws b pos d.width d.height d.channels 12 with
      | none => rfl
      | some g =>
        simp only [Option.some_bind]
        rw [draw_sprocket_holes_narrow _ _ _ _ hw]
        rfl

set_option maxRecDepth 100000 in
/-- C11 fails for a narrow image in mode ToNegative.  When decoding succeeds
with at least 3 channels and a width below 12, the sprocket operator divides
by `width / 12 = 0` and `process_image` does not return a result at all, where
the claim says it succeeds: so for the decoded 1 × 1 RGB image `(10, 20, 30)`.
What does hold: on decode failure the result is a failure whose message is
the first 255 characters of `"Failed to load image: "` followed by the
diagnostic (the whole of it for a diagnostic of at most 233 characters); on
fewer than 3 channels it is a failure with the fixed message; with at least 3
channels and a buffer of `width * height * channels` bytes `process_image`
succeeds in mode ToPositive and, for a width of at least 12, in mode
ToNegative; and whenever it returns, the result is a success exactly if
decoding succeeded with at least 3 channels, and a failure carries no
buffer. -/
theorem process_image_narrow_image :
    process_image (fun _ => .ok ⟨[10, 20, 30], 1, 1, 3⟩) (fun _ => 0) 0 []
        .MODE_TO_NEGATIVE = none ∧
    (∀ (decode : List Nat → Except String Decoded) (draws : Nat → Nat) (pos : Nat)
      (input : List Nat) (d : Decoded), decode input = .ok d → 3 ≤ d.channels →
      d.width < 12 → process_image decode draws pos input .MODE_TO_NEGATIVE = none) ∧
    (∀ (decode : List Nat → Except String Decoded) (draws : Nat → Nat) (pos : Nat)
      (input : List Nat) (mode : ProcessMode),
      (∀ reason, decode input = .error reason →
        process_image decode draws pos input mode =
          some (⟨none, 0, 0, 0, 0, snprintf 256 ("Failed to load image: " ++ reason)⟩, pos) ∧
        (reason.length ≤ 233 →
          snprintf 256 ("Failed to load image: " ++ reason) =
            "Failed to load image: " ++ reason)) ∧
      (∀ d, decode input = .ok d → d.channels < 3 →
        process_image decode draws pos input mode =
          some (⟨none, 0, 0, 0, 0, "Image must have at least 3 channels (RGB)"⟩, pos)) ∧
      (∀ d, decode input = .ok d → 3 ≤ d.channels →
        d.data.length = d.width * d.height * d.channels →
        (mode = .MODE_TO_POSITIVE ∨ 12 ≤ d.width) →
        ∃ img p, process_image decode draws pos input mode =
          some (⟨some img, d.width, d.height, d.channels, 1, ""⟩, p)) ∧
      (∀ r p, process_image decode draws pos input mode = some (r, p) →
        (r.success = 1 ↔ ∃ d, decode input = .ok d ∧ 3 ≤ d.channels) ∧
        (r.success ≠ 1 → r.data = none ∧ r.width = 0 ∧ r.height = 0 ∧ r.channels = 0))) :=
  ⟨by decide,
    fun decode draws pos input d hd hc hw =>
      process_image_to_negative_narrow decode draws pos input d hd hc hw,
    fun decode draws pos input mode => process_image_outcome decode draws pos input mode⟩

/-- The outcome of `process_image` at a decoder that yields a 12 × 1 RGB image,
mode ToNegative: it succeeds. -/
theorem process_image_narrow_image_witness :
    ∃ img p, process_image (fun _ => .ok ⟨List.replicate 36 7, 12, 1, 3⟩) (fun _ => 0) 0 []
      .MODE_TO_NEGATIVE = some (⟨some img, 12, 1, 3, 1, ""⟩, p) :=
  (process_image_narrow_image.2.2 (fun _ => .ok ⟨List.replicate 36 7, 12, 1, 3⟩) (fun _ => 0) 0
    [] .MODE_TO_NEGATIVE).2.2.1 ⟨List.replicate 36 7, 12, 1, 3⟩ rfl (by decide)
    (List.length_replicate _ _) (Or.inr (by decide))

/-! ## Forward then reverse -/

theorem pixel_index_lt {w h x y : Nat} (hx : x < w) (hy : y < h) : y * w + x < w * h := by
  have := @pix_bound w h 1 x y 0 hx hy (by omega)
  simpa using this

set_option maxRecDepth 100000 in
theorem uncast_zero : uncast_r 0 = 0 ∧ uncast_g 0 = 0 ∧ uncast_b 0 = 0 ∧ neg8 0 = 255 := by
  decide

/-- The border bands come out of the ToPositive pipeline white, whatever they
held. -/
theorem to_positive_border (draws : Nat → Nat) (img : List Nat) (pos w h c : Nat) (hc : 3 ≤ c)
    (hlen : img.length = w * h * c) :
    ∃ out, process_image (fun _ => .ok ⟨img, w, h, c⟩) draws pos [] .MODE_TO_POSITIVE =
        some (⟨some out, w, h, c, 1, ""⟩, pos) ∧ out.length = img.length ∧
      ∀ Y X ch, X < w → ch < 3 → (Y < h / 15 ∨ (Y < h ∧ h - 1 - Y < h / 15)) →
        out.getD ((Y * w + X) * c + ch) 0 = 255 := by
  obtain ⟨i1, a1, a2, a3⟩ := crop_sprocket_holes_spec img w h c hc hlen
  obtain ⟨i2, b1, b2, b3⟩ := remove_film_color_cast_spec i1 w h c hc (by rw [a2, hlen])
  obtain ⟨i3, c1, c2, c3⟩ := apply_negative_spec i2 w h c hc (by rw [b2, a2, hlen])
  refine ⟨i3, ?_, by rw [c2, b2, a2], ?_⟩
  · have hnc : ¬ c < 3 := by omega
    simp [process_image, hnc, a1, b1, c1]
  · intro Y X ch hX hch hY
    have hYh : Y < h := by omega
    have hi : Y * w + X < w * h := pixel_index_lt hX hYh
    have z : ∀ k, k < 3 → i1.getD ((Y * w + X) * c + k) 0 = 0 :=
      fun k hk => (a3 Y X k hX (by omega)).1 ⟨hk, hY⟩
    have z0 : i1.getD ((Y * w + X) * c) 0 = 0 := by simpa using z 0 (by omega)
    rw [c3 _ ch (by omega), if_pos ⟨hi, hch⟩, b3 _ ch (by omega), if_pos ⟨hi, hch⟩, z0,
      z 1 (by omega), z 2 (by omega), uncast_zero.1, uncast_zero.2.1, uncast_zero.2.2.1]
    have : sel3 ch 0 0 0 = 0 := by unfold sel3; split_ifs <;> rfl
    rw [this, uncast_zero.2.2.2]

set_option maxRecDepth 100000 in
/-- C12, the claim as stated fails: a white 12 × 1 RGB image whose grain draws
are all 12 (grain 0) goes through the ToNegative pipeline to `(20, 10, 0)`
pixels and comes back from the ToPositive pipeline exactly as it was. -/
theorem forward_reverse_counterexample :
    process_image (fun _ => .ok ⟨List.replicate 36 255, 12, 1, 3⟩) (fun _ => 12) 0 []
        .MODE_TO_NEGATIVE =
      some (⟨some ((List.range 36).map (fun j => if j % 3 = 0 then 20 else
        if j % 3 = 1 then 10 else 0)), 12, 1, 3, 1, ""⟩, 12) ∧
    process_image (fun _ => .ok ⟨(List.range 36).map (fun j => if j % 3 = 0 then 20 else
        if j % 3 = 1 then 10 else 0), 12, 1, 3⟩) (fun _ => 12) 12 [] .MODE_TO_POSITIVE =
      some (⟨some (List.replicate 36 255), 12, 1, 3, 1, ""⟩, 12) := by
  decide

/-- C12, amended.  For every pixel buffer of `w * h * c` bytes with `w ≥ 12` and
`c ≥ 3` in which some byte of the first three channels of a border row (rows
`0 .. h/15 - 1` and `h - h/15 .. h - 1`) is not 255, and for every sequence of
grain draws, both pipelines succeed and the ToPositive pipeline applied to the
output of the ToNegative pipeline yields a buffer that differs from the
original: the border bands come back white. -/
theorem forward_reverse_differs (draws : Nat → Nat) (img : List Nat) (pos w h c : Nat)
    (hc : 3 ≤ c) (hw : 12 ≤ w) (hlen : img.length = w * h * c)
    (hborder : ∃ Y X ch, X < w ∧ ch < 3 ∧ (Y < h / 15 ∨ (Y < h ∧ h - 1 - Y < h / 15)) ∧
      img.getD ((Y * w + X) * c + ch) 0 ≠ 255) :
    ∃ mid out,
      process_image (fun _ => .ok ⟨img, w, h, c⟩) draws pos [] .MODE_TO_NEGATIVE =
        some (⟨some mid, w, h, c, 1, ""⟩, pos + w * h) ∧
      process_image (fun _ => .ok ⟨mid, w, h, c⟩) draws (pos + w * h) [] .MODE_TO_POSITIVE =
        some (⟨some out, w, h, c, 1, ""⟩, pos + w * h) ∧
      out ≠ img := by
  obtain ⟨mid, m1, m2⟩ := process_image_to_negative_total (fun _ => .ok ⟨img, w, h, c⟩) draws pos
    [] ⟨img, w, h, c⟩ rfl hc hw hlen
  obtain ⟨out, o1, _, o3⟩ := to_positive_border draws mid (pos + w * h) w h c hc
    (by rw [m2]; exact hlen)
  refine ⟨mid, out, m1, o1, ?_⟩
  obtain ⟨Y, X, ch, hX, hch, hY, hne⟩ := hborder
  intro e
  rw [← e, o3 Y X ch hX hch hY] at hne
  exact hne rfl

/-- C12 (amended) at a black 12 × 15 RGB image. -/
theorem forward_reverse_differs_witness :
    ∃ mid out,
      process_image (fun _ => .ok ⟨List.replicate 540 0, 12, 15, 3⟩) (fun _ => 12) 0 []
          .MODE_TO_NEGATIVE = some (⟨some mid, 12, 15, 3, 1, ""⟩, 0 + 12 * 15) ∧
      process_image (fun _ => .ok ⟨mid, 12, 15, 3⟩) (fun _ => 12) (0 + 12 * 15) []
          .MODE_TO_POSITIVE = some (⟨some out, 12, 15, 3, 1, ""⟩, 0 + 12 * 15) ∧
      out ≠ List.replicate 540 0 :=
  forward_reverse_differs (fun _ => 12) (List.replicate 540 0) 0 12 15 3 (by decide) (by decide)
    (List.length_replicate _ _) ⟨0, 0, 0, by decide, by decide, Or.inl (by decide), by decide⟩

/-! ## Routing of a parsed request -/

theorem handle_client_parsed (env : Env) (incoming method path version : List Nat)
    (hne : incoming ≠ [])
    (hparse : sscanf3 (cstr (recv_buffer incoming)) = some (method, path, version)) :
    handle_client env incoming = route env method path (recv_buffer incoming) := by
  unfold handle_client
  simp only [recv_buffer_ne_nil incoming hne, if_false, hparse]

/-- C15. For every parsed request (the `sscanf` call yields method, path and
version) whose method is not exactly `GET`, `POST` or `OPTIONS`,
`handle_client` answers 405 "Method not allowed", whatever the path; and every
`POST` whose path is neither `/api/to-negative` nor `/api/to-positive` is
answered 404. -/
theorem handle_client_unsupported (env : Env) (incoming method path version : List Nat)
    (hne : incoming ≠ [])
    (hparse : sscanf3 (cstr (recv_buffer incoming)) = some (method, path, version)) :
    (method ≠ str "GET" → method ≠ str "POST" → method ≠ str "OPTIONS" →
      handle_client env incoming = .replied (send_error env.now 405 "Method not allowed")) ∧
    (method = str "POST" → path ≠ str "/api/to-negative" → path ≠ str "/api/to-positive" →
      handle_client env incoming = .replied (send_error env.now 404 "Endpoint not found") ∧
      (handle_client env incoming).status = some 404) := by
  rw [handle_client_parsed env incoming method path version hne hparse]
  constructor
  · intro h1 h2 h3
    unfold route
    simp only [h1, h2, h3, if_false]
  · intro h1 h2 h3
    have hg : ¬ str "POST" = str "GET" := by decide
    have e : route env method path (recv_buffer incoming) =
        .replied (send_error env.now 404 "Endpoint not found") := by
      unfold route handle_post_request
      simp only [h1, hg, if_false, if_true]
      rw [if_pos ⟨h2, h3⟩]
    rw [e]
    exact ⟨rfl, rfl⟩

/-- C15 at `DELETE /api/to-negative` and at `POST /api/other`. -/
theorem handle_client_unsupported_witness :
    handle_client sample_env (str "DELETE /api/to-negative HTTP/1.1\r\n\r\n") =
        .replied (send_error sample_env.now 405 "Method not allowed") ∧
      handle_client sample_env (str "POST /api/other HTTP/1.1\r\n\r\n") =
        .replied (send_error sample_env.now 404 "Endpoint not found") :=
  ⟨(handle_client_unsupported sample_env (str "DELETE /api/to-negative HTTP/1.1\r\n\r\n")
      (str "DELETE") (str "/api/to-negative") (str "HTTP/1.1") (by decide) (by decide)).1
      (by decide) (by decide) (by decide),
    ((handle_client_unsupported sample_env (str "POST /api/other HTTP/1.1\r\n\r\n")
      (str "POST") (str "/api/other") (str "HTTP/1.1") (by decide) (by decide)).2
      rfl (by decide) (by decide)).1⟩

/-- C16, the claim as stated fails for the path `/health/`: it is neither `/`
nor `/health`, and the answer is the 200 health document, not 404. -/
theorem handle_get_counterexample :
    str "/health/" ≠ str "/" ∧ str "/health/" ≠ str "/health" ∧
      (handle_client sample_env (str "GET /health/ HTTP/1.1\r\n\r\n")).status = some 200 := by
  decide

/-- C16, amended. For every parsed request with method `GET`: path `/` is
answered 200 with the JSON service descriptor; path `/health` and also path
`/health/` are answered 200 with a JSON body that begins `{"status":"healthy"`;
every other path is answered 404. -/
theorem handle_client_get (env : Env) (incoming path version : List Nat)
    (hne : incoming ≠ [])
    (hparse : sscanf3 (cstr (recv_buffer incoming)) = some (str "GET", path, version)) :
    (path = str "/" →
      handle_client env incoming = .replied ⟨200, "OK", "application/json",
        str ("\x7b\"service\":\"Film Negative Processor\"," ++
          "\"version\":\"2.0.0\"," ++
          "\"endpoints\":[\"/api/to-negative\",\"/api/to-positive\",\"/health\"]," ++
          "\"documentation\":\"https://github.com/yourusername/film-processor\"\x7d")⟩) ∧
    (path = str "/health" ∨ path = str "/health/" →
      ∃ r, handle_client env incoming = .replied r ∧ r.status_code = 200 ∧
        r.content_type = "application/json" ∧
        str "\x7b\"status\":\"healthy\"" <+: r.body) ∧
    (path ≠ str "/" → path ≠ str "/health" → path ≠ str "/health/" →
      handle_client env incoming = .replied (send_error env.now 404 "Not found") ∧
      (handle_client env incoming).status = some 404) := by
  rw [handle_client_parsed env incoming (str "GET") path version hne hparse]
  refine ⟨?_, ?_, ?_⟩
  · intro h
    subst h
    rfl
  · intro h
    refine ⟨⟨200, "OK", "application/json",
      str "\x7b\"status\":\"healthy\",\"service\":\"film-processor\",\"version\":\"2.0\"\x7d"⟩,
      ?_, rfl, rfl, by decide⟩
    unfold route handle_get_request
    simp only [if_true]
    rw [if_pos h]
  · intro h1 h2 h3
    have e : route env (str "GET") path (recv_buffer incoming) =
        .replied (send_error env.now 404 "Not found") := by
      unfold route handle_get_request
      simp only [if_true]
      rw [if_neg (by rintro (e | e); exact h2 e; exact h3 e), if_neg h1]
    rw [e]
    exact ⟨rfl, rfl⟩

/-- C16 (amended) at `GET /unknown`. -/
theorem handle_client_get_witness :
    handle_client sample_env (str "GET /unknown HTTP/1.1\r\n\r\n") =
      .replied (send_error sample_env.now 404 "Not found") :=
  ((handle_client_get sample_env (str "GET /unknown HTTP/1.1\r\n\r\n") (str "/unknown")
    (str "HTTP/1.1") (by decide) (by decide)).2.2 (by decide) (by decide) (by decide)).1

/-- C17. For every parsed request with method `OPTIONS`, whatever its path,
headers or body, the response has status 204, an empty body, and a header
with `Content-Length: 0`. -/
theorem handle_client_options (env : Env) (incoming path version : List Nat)
    (hne : incoming ≠ [])
    (hparse : sscanf3 (cstr (recv_buffer incoming)) = some (str "OPTIONS", path, version)) :
    ∃ r, handle_client env incoming = .replied r ∧ r.status_code = 204 ∧ r.body = [] ∧
      str "HTTP/1.1 204 No Content\r\n" <+: str r.header ∧
      str "\r\nContent-Length: 0\r\n" <:+: str r.header := by
  refine ⟨⟨204, "No Content", "text/plain", []⟩, ?_, rfl, rfl, by decide, by decide⟩
  rw [handle_client_parsed env incoming (str "OPTIONS") path version hne hparse]
  rfl

/-- C17 at `OPTIONS /anything`. -/
theorem handle_client_options_witness :
    ∃ r, handle_client sample_env (str "OPTIONS /anything HTTP/1.1\r\n\r\n") = .replied r ∧
      r.status_code = 204 ∧ r.body = [] ∧
      str "HTTP/1.1 204 No Content\r\n" <+: str r.header ∧
      str "\r\nContent-Length: 0\r\n" <:+: str r.header :=
  handle_client_options sample_env (str "OPTIONS /anything HTTP/1.1\r\n\r\n") (str "/anything")
    (str "HTTP/1.1") (by decide) (by decide)

/-! ## The payload range of the multipart extractor -/

set_option maxRecDepth 100000 in
/-- When the body ends at its first blank line, `data_start` is the zero byte
behind the body and the first search of pattern 3 starts one byte further on:
it reads what memory holds there.  With `A`, CR LF, `--b` behind the body
`X: y` CR LF CR LF the extraction succeeds with the zero byte and `A`; with
nothing behind the body it fails. -/
theorem parse_multipart_reads_behind_body :
    parse_multipart_image (str "A\r\n--b") (str "X: y\r\n\r\n") (str "b") = some [0, 65] ∧
      parse_multipart_image [] (str "X: y\r\n\r\n") (str "b") = none := by
  decide

/-- The operators of `vintage_filter.c` are those of `film_processor.c`. -/
theorem vintage_filter_operators :
    VintageFilter.clamp = clamp ∧ VintageFilter.random_grain = random_grain ∧
      VintageFilter.apply_negative = apply_negative ∧
      VintageFilter.apply_film_color_cast = apply_film_color_cast ∧
      VintageFilter.remove_film_color_cast = remove_film_color_cast ∧
      VintageFilter.crop_sprocket_holes = crop_sprocket_holes ∧
      VintageFilter.apply_grain = apply_grain ∧
      VintageFilter.draw_sprocket_holes = draw_sprocket_holes :=
  ⟨rfl, rfl, rfl, rfl, rfl, rfl, rfl, rfl⟩

theorem apply_film_negative_filter_eq (draws : Nat → Nat) (x : List Nat) (pos w h c : Nat) :
    VintageFilter.apply_film_negative_filter draws x pos w h c =
      to_negative_composition draws pos x w h c := by
  obtain ⟨_, _, e1, e2, _, _, e3, e4⟩ := vintage_filter_operators
  unfold VintageFilter.apply_film_negative_filter to_negative_composition
  rw [e1, e2, e3, e4]
  cases apply_negative x w h c with
  | none => rfl
  | some a =>
    simp only [Option.bind_eq_bind, Option.some_bind]
    cases apply_film_color_cast a w h c with
    | none => rfl
    | some b =>
      simp only [Option.some_bind]
      cases apply_grain draws b pos w h c 12 with
      | none => rfl
      | some g =>
        simp only [Option.some_bind]
        cases draw_sprocket_holes g.1 w h c <;> rfl

theorem reverse_film_negative_eq (x : List Nat) (w h c : Nat) :
    VintageFilter.reverse_film_negative x w h c = to_positive_composition x w h c := by
  obtain ⟨_, _, e1, _, e2, e3, _, _⟩ := vintage_filter_operators
  unfold VintageFilter.reverse_film_negative to_positive_composition
  rw [e1, e2, e3]
  rfl

theorem process_image_to_negative_eq (decode : List Nat → Except String Decoded)
    (draws : Nat → Nat) (pos : Nat) (input : List Nat) (d : Decoded)
    (hd : decode input = .ok d) (hc : 3 ≤ d.channels) :
    process_image decode draws pos input .MODE_TO_NEGATIVE =
      (to_negative_composition draws pos d.data d.width d.height d.channels).map
        (fun r => (⟨some r.1, d.width, d.height, d.channels, 1, ""⟩, r.2)) := by
  have hnc : ¬ d.channels < 3 := by omega
  simp only [process_image, hd, hnc, if_false, to_negative_composition]
  cases apply_negative d.data d.width d.height d.channels with
  | none => rfl
  | some a =>
    simp only [Option.bind_eq_bind, Option.some_bind]
    cases apply_film_color_cast a d.width d.height d.channels with
    | none => rfl
    | some b =>
      simp only [Option.some_bind]
      cases apply_grain draws b pos d.width d.height d.channels 12 with
      | none => rfl
      | some g =>
        simp only [Option.some_bind]
        cases draw_sprocket_holes g.1 d.width d.height d.channels <;> rfl

theorem process_image_to_positive_eq (decode : List Nat → Except String Decoded)
    (draws : Nat → Nat) (pos : Nat) (input : List Nat) (d : Decoded)
    (hd : decode input = .ok d) (hc : 3 ≤ d.channels) :
    process_image decode draws pos input .MODE_TO_POSITIVE =
      (to_positive_composition d.data d.width d.height d.channels).map
        (fun out => (⟨some out, d.width, d.height, d.channels, 1, ""⟩, pos)) := by
  have hnc : ¬ d.channels < 3 := by omega
  simp only [process_image, hd, hnc, if_false, to_positive_composition]
  cases crop_sprocket_holes d.data d.width d.height d.channels with
  | none => rfl
  | some a =>
    simp only [Option.bind_eq_bind, Option.some_bind]
    cases remove_film_color_cast a d.width d.height d.channels with
    | none => rfl
    | some b =>
      simp only [Option.some_bind]
      cases apply_negative b d.width d.height d.channels <;> rfl

/-- C21. On a decoded buffer with at least 3 channels `process_image` computes
`sprocket(grain_12(colorCastApply(invert(x))))` in mode ToNegative and
`invert(colorCastRemove(crop(x)))` in mode ToPositive, returning the decoder's
dimensions with the result; `apply_film_negative_filter` and
`reverse_film_negative` of `vintage_filter.c` compute the same two
compositions, so for the same buffer and the same grain draws the command-line
tool and the library produce the same buffer (and consume the same draws), or
both fault.  On a buffer of `width * height * channels` bytes the ToPositive
composition yields a buffer, and so does the ToNegative one for a width of at
least 12. -/
theorem operator_order_fixed (decode : List Nat → Except String Decoded)
    (draws : Nat → Nat) (pos : Nat) (input : List Nat) (d : Decoded)
    (hd : decode input = .ok d) (hc : 3 ≤ d.channels) :
    process_image decode draws pos input .MODE_TO_NEGATIVE =
        (to_negative_composition draws pos d.data d.width d.height d.channels).map
          (fun r => (⟨some r.1, d.width, d.height, d.channels, 1, ""⟩, r.2)) ∧
      process_image decode draws pos input .MODE_TO_POSITIVE =
        (to_positive_composition d.data d.width d.height d.channels).map
          (fun out => (⟨some out, d.width, d.height, d.channels, 1, ""⟩, pos)) ∧
      VintageFilter.apply_film_negative_filter draws d.data pos d.width d.height d.channels =
        to_negative_composition draws pos d.data d.width d.height d.channels ∧
      VintageFilter.reverse_film_negative d.data d.width d.height d.channels =
        to_positive_composition d.data d.width d.height d.channels ∧
      (process_image decode draws pos input .MODE_TO_NEGATIVE).map (fun r => (r.1.data, r.2)) =
        (VintageFilter.apply_film_negative_filter draws d.data pos d.width d.height
          d.channels).map (fun r => (some r.1, r.2)) ∧
      (process_image decode draws pos input .MODE_TO_POSITIVE).map (fun r => r.1.data) =
        (VintageFilter.reverse_film_negative d.data d.width d.height d.channels).map some ∧
      (d.data.length = d.width * d.height * d.channels →
        (∃ out, to_positive_composition d.data d.width d.height d.channels = some out) ∧
        (12 ≤ d.width → ∃ out,
          to_negative_composition draws pos d.data d.width d.height d.channels = some out)) := by
  have n1 := process_image_to_negative_eq decode draws pos input d hd hc
  have p1 := process_image_to_positive_eq decode draws pos input d hd hc
  have n2 := apply_film_negative_filter_eq draws d.data pos d.width d.height d.channels
  have p2 := reverse_film_negative_eq d.data d.width d.height d.channels
  refine ⟨n1, p1, n2, p2, ?_, ?_, ?_⟩
  · rw [n1, n2]
    cases to_negative_composition draws pos d.data d.width d.height d.channels <;> rfl
  · rw [p1, p2]
    cases to_positive_composition d.data d.width d.height d.channels <;> rfl
  · intro hlen
    constructor
    · obtain ⟨img, h1, _⟩ := process_image_to_positive_total decode draws pos input d hd hc hlen
      rw [p1] at h1
      cases hq : to_positive_composition d.data d.width d.height d.channels with
      | none => rw [hq] at h1; simp at h1
      | some out => exact ⟨out, rfl⟩
    · intro hw
      obtain ⟨img, h1, _⟩ :=
        process_image_to_negative_total decode draws pos input d hd hc hw hlen
      rw [n1] at h1
      cases hq : to_negative_composition draws pos d.data d.width d.height d.channels with
      | none => rw [hq] at h1; simp at h1
      | some out => exact ⟨out, rfl⟩

/-- C21 at a decoder that yields a 12 × 1 RGB image: the library result is the
result of the command-line filter. -/
theorem operator_order_fixed_witness :
    (process_image (fun _ => .ok ⟨List.replicate 36 7, 12, 1, 3⟩) (fun _ => 3) 0 []
        .MODE_TO_NEGATIVE).map (fun r => (r.1.data, r.2)) =
      (VintageFilter.apply_film_negative_filter (fun _ => 3) (List.replicate 36 7) 0 12 1 3).map
        (fun r => (some r.1, r.2)) :=
  (operator_order_fixed (fun _ => .ok ⟨List.replicate 36 7, 12, 1, 3⟩) (fun _ => 3) 0 []
    ⟨List.replicate 36 7, 12, 1, 3⟩ rfl (by decide)).2.2.2.2.1

/-! ## Shape of the processed buffer -/

theorem forLoop_preserves {σ : Type} (body : Nat → σ → Option σ) (P : σ → Prop)
    (hstep : ∀ i s t, P s → body i s = some t → P t) :
    ∀ (n lo : Nat) (s t : σ), P s → forLoop body n lo s = some t → P t := by
  intro n
  induction n with
  | zero =>
    intro lo s t hs h
    simp only [forLoop, Option.some.injEq] at h
    exact h ▸ hs
  | succ n ih =>
    intro lo s t hs h
    simp only [forLoop, Option.bind_eq_some] at h
    obtain ⟨u, hu, hrest⟩ := h
    exact ih (lo + 1) u t (hstep lo s u hs hu) hrest

theorem wr_length (img out : List Nat) (i v : Int) (h : wr img i v = some out) :
    out.length = img.length := by
  unfold wr at h
  split_ifs at h
  simp only [Option.some.injEq] at h
  rw [← h, List.length_set]

theorem paint_length (img out : List Nat) (t b : Int) (r g b' : Int)
    (h : paint img t b r g b' = some out) : out.length = img.length := by
  simp only [paint, Option.bind_eq_bind, Option.bind_eq_some] at h
  obtain ⟨a1, h1, a2, h2, a3, h3, a4, h4, a5, h5, h6⟩ := h
  rw [wr_length _ _ _ _ h6, wr_length _ _ _ _ h5, wr_length _ _ _ _ h4, wr_length _ _ _ _ h3,
    wr_length _ _ _ _ h2, wr_length _ _ _ _ h1]

theorem apply_negative_length (img out : List Nat) (w h c : Nat)
    (hr : apply_negative img w h c = some out) : out.length = img.length := by
  refine forLoop_preserves _ (fun s => s.length = img.length) ?_ _ _ img out rfl hr
  intro i s t hs hb
  simp only [Option.bind_eq_bind, Option.bind_eq_some] at hb
  obtain ⟨_, _, a1, h1, _, _, a2, h2, _, _, h3⟩ := hb
  rw [wr_length _ _ _ _ h3, wr_length _ _ _ _ h2, wr_length _ _ _ _ h1, hs]

theorem apply_film_color_cast_length (img out : List Nat) (w h c : Nat)
    (hr : apply_film_color_cast img w h c = some out) : out.length = img.length := by
  refine forLoop_preserves _ (fun s => s.length = img.length) ?_ _ _ img out rfl hr
  intro i s t hs hb
  simp only [Option.bind_eq_bind, Option.bind_eq_some] at hb
  obtain ⟨_, _, _, _, _, _, a1, h1, a2, h2, h3⟩ := hb
  rw [wr_length _ _ _ _ h3, wr_length _ _ _ _ h2, wr_length _ _ _ _ h1, hs]

theorem remove_film_color_cast_length (img out : List Nat) (w h c : Nat)
    (hr : remove_film_color_cast img w h c = some out) : out.length = img.length := by
  refine forLoop_preserves _ (fun s => s.length = img.length) ?_ _ _ img out rfl hr
  intro i s t hs hb
  simp only [Option.bind_eq_bind, Option.bind_eq_some] at hb
  obtain ⟨_, _, _, _, _, _, a1, h1, a2, h2, h3⟩ := hb
  rw [wr_length _ _ _ _ h3, wr_length _ _ _ _ h2, wr_length _ _ _ _ h1, hs]

theorem apply_grain_length (draws : Nat → Nat) (img : List Nat) (pos w h c k : Nat)
    (out : List Nat × Nat) (hr : apply_grain draws img pos w h c k = some out) :
    out.1.length = img.length := by
  refine forLoop_preserves _ (fun s : List Nat × Nat => s.1.length = img.length) ?_ _ _
    (img, pos) out rfl hr
  intro i s t hs hb
  simp only [Option.bind_eq_bind, Option.bind_eq_some, Option.pure_def, Option.some.injEq] at hb
  obtain ⟨_, _, a1, h1, _, _, a2, h2, _, _, a3, h3, e⟩ := hb
  rw [← e]
  simp only []
  rw [wr_length _ _ _ _ h3, wr_length _ _ _ _ h2, wr_length _ _ _ _ h1, hs]

theorem rect_length (w h c : Nat) (r g b : Int) (ylo yhi : Nat) (xr : Nat → Nat × Nat)
    (img out : List Nat)
    (hr : forRange ylo yhi (fun y img =>
      forRange (xr y).1 (xr y).2 (fun x img =>
        paint img (((y : Int) * w + x) * c) ((((h : Int) - 1 - y) * w + x) * c) r g b) img)
      img = some out) : out.length = img.length := by
  refine forLoop_preserves _ (fun s => s.length = img.length) ?_ _ _ img out rfl hr
  intro y s t hs hb
  refine forLoop_preserves _ (fun u => u.length = img.length) ?_ _ _ s t hs hb
  intro x u v hu hp
  rw [paint_length _ _ _ _ _ _ _ hp, hu]

theorem crop_sprocket_holes_length (img out : List Nat) (w h c : Nat)
    (hr : crop_sprocket_holes img w h c = some out) : out.length = img.length :=
  rect_length w h c 0 0 0 0 (h / 15) (fun _ => (0, w)) img out hr

theorem draw_sprocket_holes_length (img out : List Nat) (w h c : Nat)
    (hr : draw_sprocket_holes img w h c = some out) : out.length = img.length := by
  simp only [draw_sprocket_holes, Option.bind_eq_bind, Option.bind_eq_some] at hr
  obtain ⟨mid, h1, holes, _, h2⟩ := hr
  have e1 : mid.length = img.length :=
    rect_length w h c 220 150 130 0 (h / 15) (fun _ => (0, w)) img mid h1
  rw [← e1]
  refine forLoop_preserves _ (fun s => s.length = mid.length) ?_ _ _ mid out rfl h2
  intro n s t hs hb
  rw [← hs]
  exact rect_length w h c 240 240 240 (h / 15 / 4) (h / 15 / 4 + h / 15 / 2)
    (fun _ => (n * (w / 12) + w / 12 / 4, min (n * (w / 12) + w / 12 / 4 + w / 25) w)) s t hb

theorem process_image_length (decode : List Nat → Except String Decoded)
    (draws : Nat → Nat) (pos : Nat) (input : List Nat) (mode : ProcessMode) (d : Decoded)
    (hd : decode input = .ok d) (hc : 3 ≤ d.channels) (r : ImageResult) (p : Nat)
    (h : process_image decode draws pos input mode = some (r, p)) :
    ∃ img, r = ⟨some img, d.width, d.height, d.channels, 1, ""⟩ ∧
      img.length = d.data.length := by
  have hnc : ¬ d.channels < 3 := by omega
  simp only [process_image, hd, hnc, if_false] at h
  cases mode with
  | MODE_TO_NEGATIVE =>
    simp only [Option.bind_eq_bind, Option.bind_eq_some, Option.pure_def, Option.some.injEq,
      Prod.mk.injEq, Prod.exists] at h
    obtain ⟨a, h1, b, h2, g, q, h3, img, h4, e, _⟩ := h
    refine ⟨img, e.symm, ?_⟩
    have e3 := apply_grain_length draws b pos d.width d.height d.channels 12 (g, q) h3
    simp only [] at e3
    rw [draw_sprocket_holes_length _ _ _ _ _ h4, e3, apply_film_color_cast_length _ _ _ _ _ h2,
      apply_negative_length _ _ _ _ _ h1]
  | MODE_TO_POSITIVE =>
    simp only [Option.bind_eq_bind, Option.bind_eq_some, Option.pure_def, Option.some.injEq,
      Prod.mk.injEq] at h
    obtain ⟨a, h1, b, h2, img, h3, e, _⟩ := h
    refine ⟨img, e.symm, ?_⟩
    rw [apply_negative_length _ _ _ _ _ h3, remove_film_color_cast_length _ _ _ _ _ h2,
      crop_sprocket_holes_length _ _ _ _ _ h1]

/-- C22. Whenever `process_image` succeeds, in either mode, decoding succeeded
and the width, height and channel count of the result are exactly those the
decoder reported; the returned buffer has as many bytes as the decoded one,
which is `width * height * channels` for a decoded buffer of that size. -/
theorem process_image_preserves_shape (decode : List Nat → Except String Decoded)
    (draws : Nat → Nat) (pos : Nat) (input : List Nat) (mode : ProcessMode)
    (r : ImageResult) (p : Nat)
    (h : process_image decode draws pos input mode = some (r, p)) (hs : r.success = 1) :
    ∃ d img, decode input = .ok d ∧ r.data = some img ∧
      r.width = d.width ∧ r.height = d.height ∧ r.channels = d.channels ∧
      img.length = d.data.length ∧
      (d.data.length = d.width * d.height * d.channels →
        img.length = r.width * r.height * r.channels) := by
  cases hd : decode input with
  | error reason =>
    rw [process_image_decode_error decode draws pos input mode reason hd] at h
    simp only [Option.some.injEq, Prod.mk.injEq] at h
    obtain ⟨rfl, _⟩ := h
    simp at hs
  | ok d =>
    by_cases hc : d.channels < 3
    · rw [process_image_few_channels decode draws pos input mode d hd hc] at h
      simp only [Option.some.injEq, Prod.mk.injEq] at h
      obtain ⟨rfl, _⟩ := h
      simp at hs
    · obtain ⟨img, rfl, hl⟩ :=
        process_image_length decode draws pos input mode d hd (by omega) r p h
      exact ⟨d, img, rfl, rfl, rfl, rfl, rfl, hl, fun e => by rw [hl, e]⟩

set_option maxRecDepth 100000 in
/-- C22 at a decoder that yields the 1 × 1 RGB image `(10, 20, 30)`, mode
ToPositive: the result `(255, 246, 220)` has the decoder's shape. -/
theorem process_image_preserves_shape_witness :
    process_image (fun _ => .ok ⟨[10, 20, 30], 1, 1, 3⟩) (fun _ => 0) 0 [] .MODE_TO_POSITIVE =
        some (⟨some [255, 246, 220], 1, 1, 3, 1, ""⟩, 0) ∧
      ∃ d img, (Except.ok ⟨[10, 20, 30], 1, 1, 3⟩ : Except String Decoded) = .ok d ∧
        some [255, 246, 220] = some img ∧ 1 = d.width ∧ 1 = d.height ∧ 3 = d.channels ∧
        img.length = d.data.length ∧
        (d.data.length = d.width * d.height * d.channels → img.length = 1 * 1 * 3) :=
  ⟨by decide,
    process_image_preserves_shape (fun _ => .ok ⟨[10, 20, 30], 1, 1, 3⟩) (fun _ => 0) 0 []
      .MODE_TO_POSITIVE ⟨some [255, 246, 220], 1, 1, 3, 1, ""⟩ 0 (by decide) rfl⟩

/-! ## The border bands after the ToPositive pipeline -/

theorem process_image_to_positive_draws (decode : List Nat → Except String Decoded)
    (draws draws' : Nat → Nat) (pos pos' : Nat) (input : List Nat) :
    process_image decode draws pos input .MODE_TO_POSITIVE =
      (process_image decode draws' pos' input .MODE_TO_POSITIVE).map (fun r => (r.1, pos)) := by
  simp only [process_image]
  cases decode input with
  | error reason => rfl
  | ok d =>
    simp only []
    split
    · rfl
    · cases crop_sprocket_holes d.data d.width d.height d.channels with
      | none => rfl
      | some a =>
        simp only [Option.bind_eq_bind, Option.some_bind]
        cases remove_film_color_cast a d.width d.height d.channels with
        | none => rfl
        | some b =>
          simp only [Option.some_bind]
          cases apply_negative b d.width d.height d.channels <;> rfl

/-- C27. For every pixel buffer of `w * h * c` bytes with `c ≥ 3` the ToPositive
pipeline yields one buffer `out`, the same for every sequence of draws and
every cursor, and leaves the cursor where it was (no draw is consumed); in
`out` every pixel of the rows `0 .. h/15 - 1` and `h - h/15 .. h - 1` has the
first three channels `(255, 255, 255)`, whatever the input held. -/
theorem to_positive_border_white (img : List Nat) (w h c : Nat) (hc : 3 ≤ c)
    (hlen : img.length = w * h * c) :
    ∃ out, (∀ (draws : Nat → Nat) (pos : Nat),
        process_image (fun _ => .ok ⟨img, w, h, c⟩) draws pos [] .MODE_TO_POSITIVE =
          some (⟨some out, w, h, c, 1, ""⟩, pos)) ∧
      out.length = img.length ∧
      ∀ Y X, X < w → (Y < h / 15 ∨ (h - h / 15 ≤ Y ∧ Y < h)) →
        out.getD ((Y * w + X) * c) 0 = 255 ∧ out.getD ((Y * w + X) * c + 1) 0 = 255 ∧
          out.getD ((Y * w + X) * c + 2) 0 = 255 := by
  obtain ⟨out, h1, h2, h3⟩ := to_positive_border (fun _ => 0) img 0 w h c hc hlen
  refine ⟨out, ?_, h2, ?_⟩
  · intro draws pos
    rw [process_image_to_positive_draws _ draws (fun _ => 0) pos 0, h1]
    rfl
  · intro Y X hX hY
    have hY' : Y < h / 15 ∨ (Y < h ∧ h - 1 - Y < h / 15) := by omega
    exact ⟨by simpa using h3 Y X 0 hX (by omega) hY', h3 Y X 1 hX (by omega) hY',
      h3 Y X 2 hX (by omega) hY'⟩

/-- C27 at a black 1 × 15 RGB image: the first pixel of the top row comes out
white. -/
theorem to_positive_border_white_witness :
    ∃ out, (∀ (draws : Nat → Nat) (pos : Nat),
        process_image (fun _ => .ok ⟨List.replicate 45 0, 1, 15, 3⟩) draws pos []
          .MODE_TO_POSITIVE = some (⟨some out, 1, 15, 3, 1, ""⟩, pos)) ∧
      out.getD ((0 * 1 + 0) * 3) 0 = 255 ∧ out.getD ((0 * 1 + 0) * 3 + 1) 0 = 255 ∧
        out.getD ((0 * 1 + 0) * 3 + 2) 0 = 255 :=
  have ⟨out, h1, _, h3⟩ := to_positive_border_white (List.replicate 45 0) 1 15 3 (by decide)
    (List.length_replicate _ _)
  ⟨out, h1, h3 0 0 (by decide) (Or.inl (by decide))⟩

/-! ## The size check behind the single read -/

/-- C28. `handle_client` receives at most `MAX_BUFFER - 1` = 20971519 bytes.
For a parsed `POST` it calls `handle_post_request` with a body whose length is
the number of bytes received minus the offset just past the first
CR LF CR LF of the received text (0 when `strstr` finds none), which is below
20971520; and no request handled by `handle_client` is answered with status
413. -/
theorem size_check_never_fires (env : Env) (incoming : List Nat) :
    (recv_buffer incoming).length ≤ MAX_BUFFER - 1 ∧ MAX_BUFFER - 1 = 20971519 ∧
    (∀ path version, incoming ≠ [] →
      sscanf3 (cstr (recv_buffer incoming)) = some (str "POST", path, version) →
      ∃ body, handle_client env incoming =
          handle_post_request env path (recv_buffer incoming) body ∧
        body.length = (match strstr (cstr (recv_buffer incoming)) (str "\r\n\r\n") with
          | some k => (recv_buffer incoming).length - (k + 4)
          | none => 0) ∧
        body.length < 20971520 ∧ ¬ body.length > MAX_BUFFER) ∧
    (handle_client env incoming).status ≠ some 413 := by
  have hlen := recv_buffer_length incoming
  refine ⟨by omega, rfl, ?_, handle_client_status_ne_413 env incoming⟩
  intro path version hne hparse
  have hg : ¬ str "POST" = str "GET" := by decide
  refine ⟨match strstr (cstr (recv_buffer incoming)) (str "\r\n\r\n") with
    | some k => (recv_buffer incoming).drop (k + 4)
    | none => [], ?_, ?_, ?_⟩
  · rw [handle_client_parsed env incoming (str "POST") path version hne hparse]
    unfold route
    simp only [hg, if_false, if_true]
  · split
    · rw [List.length_drop]
    · rfl
  · have hm : MAX_BUFFER = 20971520 := rfl
    constructor
    · split
      · rw [List.length_drop]; omega
      · simp
    · split
      · rw [List.length_drop]; omega
      · simp

/-- C28 at a `POST` with the three body bytes `abc`. -/
theorem size_check_never_fires_witness :
    ∃ body, handle_client sample_env (str "POST /api/to-negative HTTP/1.1\r\n\r\nabc") =
        handle_post_request sample_env (str "/api/to-negative")
          (recv_buffer (str "POST /api/to-negative HTTP/1.1\r\n\r\nabc")) body ∧
      body.length = (match strstr (cstr (recv_buffer
          (str "POST /api/to-negative HTTP/1.1\r\n\r\nabc"))) (str "\r\n\r\n") with
        | some k => (recv_buffer (str "POST /api/to-negative HTTP/1.1\r\n\r\nabc")).length - (k + 4)
        | none => 0) ∧
      body.length < 20971520 ∧ ¬ body.length > MAX_BUFFER :=
  (size_check_never_fires sample_env (str "POST /api/to-negative HTTP/1.1\r\n\r\nabc")).2.2.1
    (str "/api/to-negative") (str "HTTP/1.1") (by decide) (by decide)

/-! ## Boundary extraction -/

theorem str_boundary : str "boundary=" = [98, 111, 117, 110, 100, 97, 114, 121, 61] := by decide

/-- In `pre ++ "boundary=" ++ R` the first `boundary=` is the one after `pre`
when `pre` holds none. -/
theorem boundary_marker_first (pre R : List Nat) (hpre : ¬ str "boundary=" <:+: pre) :
    strstr (pre ++ str "boundary=" ++ R) (str "boundary=") = some pre.length := by
  rw [str_boundary] at hpre ⊢
  apply strstr_found
  · simp
  · rw [List.append_assoc, List.drop_append_of_le_length (le_refl _), List.drop_length,
      List.nil_append]
    exact List.prefix_append _ _
  · exact no_early_match pre R [111, 117, 110, 100, 97, 114, 121, 61] 98 (by decide) hpre

theorem takeWhile_all (p : Nat → Bool) (T R : List Nat) (hT : ∀ c ∈ T, p c = true)
    (hR : ∀ c, R.head? = some c → p c = false) : (T ++ R).takeWhile p = T := by
  induction T with
  | nil =>
    cases R with
    | nil => rfl
    | cons a t =>
      have := hR a rfl
      simp [List.takeWhile_cons, this]
  | cons a t ih =>
    have ha := hT a (List.mem_cons_self _ _)
    simp only [List.cons_append, List.takeWhile_cons, ha, if_true]
    rw [ih (fun c hc => hT c (List.mem_cons_of_mem _ hc))]

/-- C25. For every token `T` of at most 255 characters that contains no double
quote, CR or LF, and every `pre` that does not contain `boundary=`,
`extract_boundary` applied to `pre ++ "boundary=" ++ T` and to
`pre ++ "boundary=\"" ++ T ++ "\""` returns exactly `T`; applied to a value
that contains no `boundary=` it returns no boundary. -/
theorem extract_boundary_strips_quotes :
    (∀ pre T : List Nat, T.length ≤ 255 → (∀ c ∈ T, c ≠ 34 ∧ c ≠ 13 ∧ c ≠ 10) →
      ¬ str "boundary=" <:+: pre →
      extract_boundary (pre ++ str "boundary=" ++ T) = some T ∧
      extract_boundary (pre ++ str "boundary=\"" ++ T ++ str "\"") = some T) ∧
    (∀ value : List Nat, ¬ str "boundary=" <:+: value → extract_boundary value = none) := by
  constructor
  · intro pre T hlen hT hpre
    have hp : ∀ c ∈ T, (fun c : Nat => c != 34 && c != 13 && c != 10) c = true := by
      intro c hc
      obtain ⟨h1, h2, h3⟩ := hT c hc
      simp [h1, h2, h3]
    constructor
    · unfold extract_boundary
      rw [boundary_marker_first pre T hpre]
      simp only []
      have hd : (pre ++ str "boundary=" ++ T).drop (pre.length + (str "boundary=").length) = T := by
        rw [← List.length_append, List.drop_append_of_le_length (le_refl _), List.drop_length,
          List.nil_append]
      rw [hd]
      have hh : ¬ T.head? = some 34 := by
        intro hq
        cases T with
        | nil => simp at hq
        | cons a t =>
          simp only [List.head?_cons, Option.some.injEq] at hq
          exact (hT a (List.mem_cons_self _ _)).1 hq
      rw [if_neg hh]
      have := takeWhile_all _ T [] hp (by simp)
      rw [List.append_nil] at this
      rw [this, List.take_of_length_le hlen]
    · have e : pre ++ str "boundary=\"" ++ T ++ str "\"" =
          pre ++ str "boundary=" ++ (34 :: (T ++ [34])) := by
        have e1 : str "boundary=\"" = str "boundary=" ++ [34] := by decide
        have e2 : str "\"" = [34] := by decide
        rw [e1, e2]
        simp [List.append_assoc]
      rw [e]
      unfold extract_boundary
      rw [boundary_marker_first pre _ hpre]
      simp only []
      have hd : (pre ++ str "boundary=" ++ (34 :: (T ++ [34]))).drop
          (pre.length + (str "boundary=").length) = 34 :: (T ++ [34]) := by
        rw [← List.length_append, List.drop_append_of_le_length (le_refl _), List.drop_length,
          List.nil_append]
      rw [hd]
      simp only [List.head?_cons, if_true, List.drop_succ_cons, List.drop_zero]
      rw [takeWhile_all _ T [34] hp (by simp), List.take_of_length_le hlen]
  · intro value hno
    unfold extract_boundary
    rw [strstr_none_of_absent (str "boundary=") _ _ value (List.infix_refl _)
      (List.infix_refl _) hno]

/-- C25 at `multipart/form-data; boundary=` followed by the token `abc`, bare
and quoted, and at a value without `boundary=`. -/
theorem extract_boundary_strips_quotes_witness :
    (extract_boundary (str "multipart/form-data; " ++ str "boundary=" ++ str "abc") =
        some (str "abc") ∧
      extract_boundary (str "multipart/form-data; " ++ str "boundary=\"" ++ str "abc" ++
        str "\"") = some (str "abc")) ∧
    extract_boundary (str "multipart/form-data") = none :=
  ⟨extract_boundary_strips_quotes.1 (str "multipart/form-data; ") (str "abc") (by decide)
      (by decide) (by decide),
    extract_boundary_strips_quotes.2 (str "multipart/form-data") (by decide)⟩

/-! ## Response serialization -/

theorem str_length (s : String) : (str s).length = s.length := by
  unfold str
  rw [List.length_map]
  rfl

/-- With every `send` accepting at least one byte the body loop puts the whole
rest of the body on the connection, given one round of fuel per byte. -/
theorem send_body_spec (accept : Nat → Option Nat) (body : List Nat)
    (hacc : ∀ k, ∃ c, accept k = some c ∧ 1 ≤ c) :
    ∀ (fuel total : Nat) (conn : Conn), body.length - total ≤ fuel →
      ∃ n, send_body accept body fuel total conn =
        some ⟨conn.wire ++ body.drop total, n⟩ := by
  intro fuel
  induction fuel with
  | zero =>
    intro total conn hf
    have hd : body.drop total = [] := List.drop_of_length_le (by omega)
    refine ⟨conn.calls, ?_⟩
    simp only [send_body]
    rw [if_neg (by omega), hd, List.append_nil]
  | succ f ih =>
    intro total conn hf
    simp only [send_body]
    by_cases ht : total < body.length
    · obtain ⟨c, hc, hc1⟩ := hacc conn.calls
      rw [if_pos ht]
      simp only [send, hc]
      have hlen : (body.drop total).length = body.length - total := List.length_drop _ _
      obtain ⟨n, hn⟩ := ih (total + min c (body.drop total).length)
        ⟨conn.wire ++ (body.drop total).take (min c (body.drop total).length), conn.calls + 1⟩
        (by rw [hlen]; omega)
      refine ⟨n, ?_⟩
      rw [hn]
      simp only [Option.some.injEq, Conn.mk.injEq, and_true]
      rw [List.append_assoc, ← List.drop_drop, List.take_append_drop]
    · have hd : body.drop total = [] := List.drop_of_length_le (by omega)
      refine ⟨conn.calls, ?_⟩
      rw [if_neg ht, hd, List.append_nil]

/-- What `send_response` puts on the connection when every `send` succeeds and
accepts at least one byte: the part of the header that the first `send`
accepts, then the whole body. -/
theorem send_response_wire (accept : Nat → Option Nat) (fuel : Nat) (conn : Conn)
    (status_code : Nat) (status_text content_type : String) (body : List Nat) (c0 : Nat)
    (hfit : (header_text status_code status_text content_type body.length).length ≤ 2047)
    (hacc : ∀ k, ∃ c, accept k = some c ∧ 1 ≤ c) (h0 : accept conn.calls = some c0)
    (hfuel : body.length ≤ fuel) :
    ∃ n, send_response accept fuel conn status_code status_text content_type body =
      some ⟨conn.wire ++
        (str (header_text status_code status_text content_type body.length)).take c0 ++ body,
        n⟩ := by
  have hs := snprintf_short 2048 (header_text status_code status_text content_type body.length)
    (by omega)
  have htake : (str (header_text status_code status_text content_type body.length) ++ [0]).take
      (header_text status_code status_text content_type body.length).length =
      str (header_text status_code status_text content_type body.length) := by
    rw [← str_length, List.take_append_of_le_length (le_refl _), List.take_length]
  have hmin : ∀ l : List Nat, l.take (min c0 l.length) = l.take c0 := by
    intro l
    rcases Nat.le_total c0 l.length with h | h
    · rw [Nat.min_eq_left h]
    · rw [Nat.min_eq_right h, List.take_length, List.take_of_length_le h]
  unfold send_response
  simp only []
  rw [if_neg (by omega), hs, htake]
  simp only [send, h0, hmin]
  by_cases hb : body.length > 0
  · rw [if_pos hb]
    obtain ⟨n, hn⟩ := send_body_spec accept body hacc fuel 0
      ⟨conn.wire ++ (str (header_text status_code status_text content_type body.length)).take c0,
        conn.calls + 1⟩ (by omega)
    exact ⟨n, by rw [hn, List.drop_zero]⟩
  · rw [if_neg hb]
    have : body = [] := List.eq_nil_of_length_eq_zero (by omega)
    exact ⟨conn.calls + 1, by rw [this, List.append_nil]⟩

set_option maxRecDepth 100000 in
/-- C23 fails when the first `send` accepts only part of the header: the
header is sent with a single call whose result is only tested for an error, so
the rest of the header is never sent.  With a socket that accepts 10 bytes per
call, the response 200 `text/plain` with body `hello` goes out as the 10 bytes
`HTTP/1.1 2` followed by `hello`.  A content type of 2048 characters or more
makes `header_len` exceed the 2048 bytes of `header`, and the call reads past
the array.  What does hold: when the header text has at most 2047 characters,
every `send` succeeds and accepts at least one byte, and the loop is given one
round per body byte, the connection receives the part of the header that the
first `send` accepts followed by exactly the body bytes in order, each once.
So the bytes sent are never the whole response when the first `send` accepts
less than the header, and they are the status line, the header lines, a blank
line and the body when it accepts the whole header. -/
theorem send_response_short_header_write :
    ((send_response (fun _ => some 10) 5 ⟨[], 0⟩ 200 "OK" "text/plain" (str "hello")).map
        Conn.wire = some (str "HTTP/1.1 2" ++ str "hello") ∧
      (header_text 200 "OK" "text/plain" 5).length = 325) ∧
    (∀ (accept : Nat → Option Nat) (fuel : Nat) (conn : Conn) (status_code : Nat)
      (status_text content_type : String) (body : List Nat), 2048 ≤ content_type.length →
      send_response accept fuel conn status_code status_text content_type body = none) ∧
    (∀ (accept : Nat → Option Nat) (fuel : Nat) (conn : Conn) (status_code : Nat)
      (status_text content_type : String) (body : List Nat) (c0 : Nat),
      (header_text status_code status_text content_type body.length).length ≤ 2047 →
      (∀ k, ∃ c, accept k = some c ∧ 1 ≤ c) → accept conn.calls = some c0 →
      body.length ≤ fuel →
      (∃ n, send_response accept fuel conn status_code status_text content_type body =
        some ⟨conn.wire ++
          (str (header_text status_code status_text content_type body.length)).take c0 ++ body,
          n⟩) ∧
      (c0 < (header_text status_code status_text content_type body.length).length →
        ∀ n, send_response accept fuel conn status_code status_text content_type body ≠
          some ⟨conn.wire ++
            str (header_text status_code status_text content_type body.length) ++ body, n⟩) ∧
      ((header_text status_code status_text content_type body.length).length ≤ c0 →
        ∃ n, send_response accept fuel conn status_code status_text content_type body =
          some ⟨conn.wire ++
            str ("HTTP/1.1 " ++ toString status_code ++ " " ++ status_text ++ "\r\n" ++
              "Content-Type: " ++ content_type ++ "\r\n" ++
              "Content-Length: " ++ toString body.length ++ "\r\n" ++
              "Access-Control-Allow-Origin: *\r\n" ++
              "Access-Control-Allow-Methods: POST, GET, OPTIONS\r\n" ++
              "Access-Control-Allow-Headers: Content-Type\r\n" ++
              "X-Content-Type-Options: nosniff\r\n" ++
              "X-Frame-Options: DENY\r\n" ++
              "X-XSS-Protection: 1; mode=block\r\n" ++
              "Server: FilmProcessor/2.0\r\n" ++
              "Connection: close\r\n" ++
              "\r\n") ++ body, n⟩)) := by
  refine ⟨by decide, ?_, ?_⟩
  · intro accept fuel conn status_code status_text content_type body hct
    unfold send_response
    simp only []
    rw [if_pos]
    have h1 : 0 < "HTTP/1.1 ".length := by decide
    simp only [header_text, String.length_append]
    omega
  intro accept fuel conn status_code status_text content_type body c0 hfit hacc h0 hfuel
  have key := send_response_wire accept fuel conn status_code status_text content_type body c0
    hfit hacc h0 hfuel
  refine ⟨key, ?_, ?_⟩
  · intro hc0 n hn
    obtain ⟨m, hm⟩ := key
    rw [hm] at hn
    simp only [Option.some.injEq, Conn.mk.injEq] at hn
    have hl := congrArg List.length hn.1
    simp only [List.length_append, List.length_take, str_length] at hl
    omega
  · intro hc0
    obtain ⟨n, hn⟩ := key
    refine ⟨n, ?_⟩
    rw [hn, List.take_of_length_le (by rw [str_length]; exact hc0)]
    rfl

set_option maxRecDepth 100000 in
/-- The serialization at a socket that accepts everything offered: the
response 204 of the preflight goes out whole. -/
theorem send_response_short_header_write_witness :
    ∃ n, send_response (fun _ => some 4096) 0 ⟨[], 0⟩ 204 "No Content" "text/plain" [] =
      some ⟨[] ++ (str (header_text 204 "No Content" "text/plain"
        ([] : List Nat).length)).take 4096 ++ [], n⟩ :=
  (send_response_short_header_write.2.2 (fun _ => some 4096) 0 ⟨[], 0⟩ 204 "No Content"
    "text/plain" [] 4096 (by decide) (fun _ => ⟨4096, rfl, by decide⟩) rfl (le_refl _)).1

/-! ## Terminated bodies and the order of the patterns -/

theorem found_after_tail (P pat T R : List Nat)
    (hno : ∀ j, j < P.length → ¬ pat <+: (P ++ pat ++ (T ++ R)).drop j) :
    strstr (P ++ pat ++ (T ++ R)) (pat ++ T) = some P.length := by
  apply strstr_found
  · simp
  · rw [List.append_assoc, List.drop_append_of_le_length (le_refl _), List.drop_length,
      List.nil_append, ← List.append_assoc]
    exact List.prefix_append _ _
  · intro j hj hp
    exact hno j hj (List.IsPrefix.trans (List.prefix_append pat T) hp)

set_option maxRecDepth 100000 in
/-- C26, the claim as stated fails in two ways.  A header block that ends in
CR LF moves the blank line forward, so the payload `DATA` comes back with
CR LF in front; and with the boundary CR LF the payload `a` CR LF `--`, which
holds no `CRLF "--" B`, completes an earlier match of the final pattern and
comes back as `a`. -/
theorem parse_multipart_exact_counterexample :
    (¬ str "\r\n\r\n" <:+: str "X: y\r\n" ∧
      ∀ stale, parse_multipart_image stale
        (str "X: y\r\n" ++ str "\r\n\r\n" ++ str "DATA" ++ str "\r\n" ++ str "--" ++ str "b" ++
          str "--" ++ str "\r\n") (str "b") = some (str "\r\nDATA")) ∧
    (¬ (str "\r\n" ++ str "--" ++ str "\r\n") <:+: str "a\r\n--" ∧
      ∀ stale, parse_multipart_image stale
        (str "X: y" ++ str "\r\n\r\n" ++ str "a\r\n--" ++ str "\r\n" ++ str "--" ++ str "\r\n" ++
          str "--" ++ str "\r\n") (str "\r\n") = some (str "a")) := by
  refine ⟨⟨by decide, fun stale => ?_⟩, by decide, fun stale => ?_⟩
  · rw [parse_multipart_image_in_body stale _ _ 4 (by decide) (by decide)]
    decide
  · rw [parse_multipart_image_in_body stale _ _ 4 (by decide) (by decide)]
    decide

/-- C26, amended. For every boundary `B` of at most 255 characters that holds
no zero byte and no CR, every header block `H` free of zero bytes that
contains no CR LF CR LF and does not end in CR LF, and every non-empty payload
`P` of at most 20971520 bytes that holds no zero byte and no `CRLF "--" B`:
`parse_multipart_image` applied to
`H ++ CRLFCRLF ++ P ++ CRLF ++ "--" ++ B ++ "--" ++ CRLF` returns exactly `P`. -/
theorem parse_multipart_exact (stale B H P : List Nat) (hB : B.length ≤ 255)
    (hB0 : ∀ b ∈ B, b ≠ 0) (hBcr : ∀ b ∈ B, b ≠ 13)
    (hH0 : ∀ b ∈ H, b ≠ 0) (hH : ¬ str "\r\n\r\n" <:+: H) (hHend : ¬ str "\r\n" <:+ H)
    (hP : P ≠ []) (hPlen : P.length ≤ MAX_BUFFER) (hP0 : ∀ b ∈ P, b ≠ 0)
    (hPB : ¬ (str "\r\n" ++ str "--" ++ B) <:+: P) :
    parse_multipart_image stale
      (H ++ str "\r\n\r\n" ++ P ++ str "\r\n" ++ str "--" ++ B ++ str "--" ++ str "\r\n") B =
      some P := by
  rw [str_blank] at hH
  rw [str_crlf] at hHend
  rw [str_crlf, str_dashes] at hPB
  have hPpos : 0 < P.length := List.length_pos.2 hP
  have hsmall : ∀ b : Nat, b ∈ [13, 10, 13, 10] ∨ b ∈ [10, 45, 45] ∨ b ∈ [45, 45, 13, 10] →
      b ≠ 0 := by
    intro b hb
    simp at hb
    omega
  have hbody : H ++ str "\r\n\r\n" ++ P ++ str "\r\n" ++ str "--" ++ B ++ str "--" ++ str "\r\n" =
      H ++ [13, 10, 13, 10] ++ (P ++ (13 :: ([10, 45, 45] ++ B)) ++ ([45, 45] ++ [13, 10])) := by
    simp [str_blank, str_crlf, str_dashes, List.append_assoc]
  have hdata0 : ∀ b ∈ P ++ (13 :: ([10, 45, 45] ++ B)) ++ ([45, 45] ++ [13, 10]), b ≠ 0 := by
    intro b hb
    rcases List.mem_append.1 hb with h | h
    · rcases List.mem_append.1 h with h' | h'
      · exact hP0 b h'
      · rcases List.mem_cons.1 h' with e | e
        · omega
        · rcases List.mem_append.1 e with e' | e'
          · exact hsmall b (Or.inr (Or.inl e'))
          · exact hB0 b e'
    · exact hsmall b (Or.inr (Or.inr h))
  have hno : ∀ j, j < P.length →
      ¬ (13 :: ([10, 45, 45] ++ B)) <+:
        (P ++ (13 :: ([10, 45, 45] ++ B)) ++ ([45, 45] ++ [13, 10])).drop j := by
    apply no_early_match
    · intro hmem
      simp only [List.mem_append, List.mem_cons, List.mem_singleton, List.not_mem_nil,
        or_false] at hmem
      rcases hmem with (h | h | h) | h
      · omega
      · omega
      · omega
      · exact hBcr 13 h rfl
    · simpa [List.append_assoc] using hPB
  have hp1 : (str "\r\n--" ++ B ++ str "--").take 299 =
      (13 :: ([10, 45, 45] ++ B)) ++ [45, 45] := by
    rw [take_of_length_le _ _ (by simp [str_crlf_dashes, str_dashes]; omega)]
    simp [str_crlf_dashes, str_dashes]
  have hlen : (H ++ [13, 10, 13, 10] ++
      (P ++ (13 :: ([10, 45, 45] ++ B)) ++ ([45, 45] ++ [13, 10]))).length ≠ 0 := by
    simp
  have hcs : cstr (H ++ [13, 10, 13, 10] ++
      (P ++ (13 :: ([10, 45, 45] ++ B)) ++ ([45, 45] ++ [13, 10]))) =
      H ++ [13, 10, 13, 10] ++ (P ++ (13 :: ([10, 45, 45] ++ B)) ++ ([45, 45] ++ [13, 10])) := by
    apply cstr_of_nonzero
    intro b hb
    rcases List.mem_append.1 hb with h | h
    · rcases List.mem_append.1 h with h' | h'
      · exact hH0 b h'
      · exact hsmall b (Or.inl h')
    · exact hdata0 b h
  have hdrop : (H ++ [13, 10, 13, 10] ++
      (P ++ (13 :: ([10, 45, 45] ++ B)) ++ ([45, 45] ++ [13, 10]))).drop (H.length + 4) =
      P ++ (13 :: ([10, 45, 45] ++ B)) ++ ([45, 45] ++ [13, 10]) := by
    rw [List.drop_append_of_le_length (by simp)]
    simp
  have htake : (P ++ (13 :: ([10, 45, 45] ++ B)) ++ ([45, 45] ++ [13, 10])).take P.length = P := by
    rw [List.append_assoc, List.take_append_of_le_length (le_refl _)]
    simp
  rw [hbody]
  have hk : strstr (cstr (H ++ [13, 10, 13, 10] ++
      (P ++ (13 :: ([10, 45, 45] ++ B)) ++ ([45, 45] ++ [13, 10])))) (str "\r\n\r\n") =
      some H.length := by
    rw [str_blank, hcs, blank_line_first H _ hH hHend]
  rw [parse_multipart_image_in_body stale _ B H.length hk
    (by simp only [List.length_append, List.length_cons, List.length_nil]; omega)]
  unfold data_end_within
  simp only [hdrop, cstr_of_nonzero _ hdata0, hp1]
  rw [found_after_tail P _ [45, 45] [13, 10] hno]
  have hsz : H.length + 4 + P.length - (H.length + 4) = P.length := by omega
  simp only [hsz]
  rw [if_neg (by omega), htake]

/-- C26 (amended) at header `X: y`, payload `DATA`, boundary `b`. -/
theorem parse_multipart_exact_witness :
    parse_multipart_image (str "zz")
      (str "X: y" ++ str "\r\n\r\n" ++ str "DATA" ++ str "\r\n" ++ str "--" ++ str "b" ++
        str "--" ++ str "\r\n") (str "b") = some (str "DATA") :=
  parse_multipart_exact (str "zz") (str "b") (str "X: y") (str "DATA") (by decide) (by decide) (by decide)
    (by decide) (by decide) (by decide) (by decide) (by decide) (by decide) (by decide)

theorem occurs_le (pat hay : List Nat) (e : Nat) (hne : pat ≠ []) (h : pat <+: hay.drop e) :
    e ≤ hay.length := by
  have h1 := h.length_le
  have h2 : 0 < pat.length := List.length_pos.2 hne
  rw [List.length_drop] at h1
  omega

/-- The extraction from a zero-free body whose first blank line is at offset
`k`, when the search for `pat1` finds offset `e` behind it. -/
theorem parse_multipart_found_first (stale body B : List Nat) (k e : Nat)
    (h0 : ∀ b ∈ body, b ≠ 0)
    (hblank : strstr body (str "\r\n\r\n") = some k)
    (h1 : strstr (body.drop (k + 4)) ((str "\r\n--" ++ B ++ str "--").take 299) = some e) :
    parse_multipart_image stale body B =
      if e = 0 ∨ MAX_BUFFER < e then none else some ((body.drop (k + 4)).take e) := by
  have hc : cstr body = body := cstr_of_nonzero body h0
  have hcd : cstr (body.drop (k + 4)) = body.drop (k + 4) :=
    cstr_of_nonzero _ (fun b hb => h0 b (List.mem_of_mem_drop hb))
  have hlt : k + 4 < body.length := by
    have hb := strstr_bound _ _ _ h1
    have hp : 0 < ((str "\r\n--" ++ B ++ str "--").take 299).length := by
      simp [str_crlf_dashes]
    rw [List.length_drop] at hb
    omega
  rw [parse_multipart_image_in_body stale body B k (by rw [hc]; exact hblank) hlt]
  unfold data_end_within
  simp only [hcd, h1]
  have hsz : k + 4 + e - (k + 4) = e := by omega
  rw [hsz]

/-- The same when the search for `pat1` fails and the search for `pat2` finds
offset `e`. -/
theorem parse_multipart_found_second (stale body B : List Nat) (k e : Nat)
    (h0 : ∀ b ∈ body, b ≠ 0)
    (hblank : strstr body (str "\r\n\r\n") = some k)
    (h1 : strstr (body.drop (k + 4)) ((str "\r\n--" ++ B ++ str "--").take 299) = none)
    (h2 : strstr (body.drop (k + 4)) ((str "\r\n--" ++ B ++ str "\r\n").take 299) = some e) :
    parse_multipart_image stale body B =
      if e = 0 ∨ MAX_BUFFER < e then none else some ((body.drop (k + 4)).take e) := by
  have hc : cstr body = body := cstr_of_nonzero body h0
  have hcd : cstr (body.drop (k + 4)) = body.drop (k + 4) :=
    cstr_of_nonzero _ (fun b hb => h0 b (List.mem_of_mem_drop hb))
  have hlt : k + 4 < body.length := by
    have hb := strstr_bound _ _ _ h2
    have hp : 0 < ((str "\r\n--" ++ B ++ str "\r\n").take 299).length := by
      simp [str_crlf_dashes]
    rw [List.length_drop] at hb
    omega
  rw [parse_multipart_image_in_body stale body B k (by rw [hc]; exact hblank) hlt]
  unfold data_end_within
  simp only [hcd, h1, h2]
  have hsz : k + 4 + e - (k + 4) = e := by omega
  rw [hsz]

set_option maxRecDepth 1000000 in
/-- C24, the claim as stated fails for a long boundary: the patterns are built
in buffers of 300 bytes, so for a boundary of 294 letters `a` the final
pattern is cut before its last `-`.  In the body below the part after the
blank line is `x`, then `CRLF "--" B "-z"`, then `CRLF "--" B "--"`: the first
`CRLF "--" B "--"` is at offset 301, but the cut pattern matches at offset 1
and the payload returned is `x`. -/
theorem parse_multipart_priority_counterexample :
    strstr (str "x" ++ str "\r\n--" ++ List.replicate 294 97 ++ str "-z" ++ str "\r\n--" ++
        List.replicate 294 97 ++ str "--")
      (str "\r\n--" ++ List.replicate 294 97 ++ str "--") = some 301 ∧
    ∀ stale, parse_multipart_image stale
      (str "X: y" ++ str "\r\n\r\n" ++
        (str "x" ++ str "\r\n--" ++ List.replicate 294 97 ++ str "-z" ++ str "\r\n--" ++
          List.replicate 294 97 ++ str "--"))
      (List.replicate 294 97) = some (str "x") := by
  refine ⟨by decide, fun stale => ?_⟩
  rw [parse_multipart_image_in_body stale _ _ 4 (by decide) (by decide)]
  decide

/-- C24, amended. For every boundary `B` of at most 293 characters (so that
the patterns fit their buffers) and every body free of zero bytes whose first
blank line is at offset `k`: if the part after the blank line contains
`CRLF "--" B "--"`, with its first occurrence at offset `e`, the payload is
the `e` bytes before that occurrence, whether or not `CRLF "--" B CRLF`
occurs earlier (the extraction fails when `e` is 0 or exceeds 20971520); and
if the part after the blank line does not contain `CRLF "--" B "--"` but does
contain `CRLF "--" B CRLF`, with its first occurrence at offset `e`, the
payload is the `e` bytes before that occurrence. -/
theorem parse_multipart_priority (stale body B : List Nat) (k : Nat) (hB : B.length ≤ 293)
    (h0 : ∀ b ∈ body, b ≠ 0)
    (hblank : str "\r\n\r\n" <+: body.drop k)
    (hfirst : ∀ j, j < k → ¬ str "\r\n\r\n" <+: body.drop j) :
    (∀ e, (str "\r\n--" ++ B ++ str "--") <+: (body.drop (k + 4)).drop e →
      (∀ j, j < e → ¬ (str "\r\n--" ++ B ++ str "--") <+: (body.drop (k + 4)).drop j) →
      parse_multipart_image stale body B =
        if e = 0 ∨ MAX_BUFFER < e then none else some ((body.drop (k + 4)).take e)) ∧
    (¬ (str "\r\n--" ++ B ++ str "--") <:+: body.drop (k + 4) →
      ∀ e, (str "\r\n--" ++ B ++ str "\r\n") <+: (body.drop (k + 4)).drop e →
      (∀ j, j < e → ¬ (str "\r\n--" ++ B ++ str "\r\n") <+: (body.drop (k + 4)).drop j) →
      parse_multipart_image stale body B =
        if e = 0 ∨ MAX_BUFFER < e then none else some ((body.drop (k + 4)).take e)) := by
  have hk : strstr body (str "\r\n\r\n") = some k :=
    strstr_found _ body k (occurs_le _ body k (by decide) hblank) hblank hfirst
  have hp1 : (str "\r\n--" ++ B ++ str "--").take 299 = str "\r\n--" ++ B ++ str "--" :=
    take_of_length_le _ _ (by simp [str_crlf_dashes, str_dashes]; omega)
  have hp2 : (str "\r\n--" ++ B ++ str "\r\n").take 299 = str "\r\n--" ++ B ++ str "\r\n" :=
    take_of_length_le _ _ (by simp [str_crlf_dashes, str_crlf]; omega)
  have hne1 : str "\r\n--" ++ B ++ str "--" ≠ [] := by simp [str_crlf_dashes]
  have hne2 : str "\r\n--" ++ B ++ str "\r\n" ≠ [] := by simp [str_crlf_dashes]
  constructor
  · intro e he hno
    apply parse_multipart_found_first stale body B k e h0 hk
    rw [hp1]
    exact strstr_found _ _ e (occurs_le _ _ e hne1 he) he hno
  · intro habs e he hno
    apply parse_multipart_found_second stale body B k e h0 hk
    · rw [hp1]
      exact strstr_none_of_absent _ _ _ _ (List.infix_refl _) (List.infix_refl _) habs
    · rw [hp2]
      exact strstr_found _ _ e (occurs_le _ _ e hne2 he) he hno

set_option maxRecDepth 100000 in
/-- C24 (amended) at a body with two parts: the payload runs from the first
blank line to the final boundary, across the boundary line of the second part. -/
theorem parse_multipart_priority_witness :
    parse_multipart_image (str "zz")
        (str "X: y\r\n\r\nA\r\n--b\r\nX: z\r\n\r\nB\r\n--b--\r\n") (str "b") =
      if 17 = 0 ∨ MAX_BUFFER < 17 then none
      else some (((str "X: y\r\n\r\nA\r\n--b\r\nX: z\r\n\r\nB\r\n--b--\r\n").drop (4 + 4)).take 17) :=
  (parse_multipart_priority (str "zz")
    (str "X: y\r\n\r\nA\r\n--b\r\nX: z\r\n\r\nB\r\n--b--\r\n") (str "b") 4
    (by decide) (by decide) (by decide) (by decide)).1 17 (by decide) (by decide)
end FilmNegative
